import Mathlib

/-!
# Aria interpreter: a shallow embedding of `interpreter/interpreter.go`

The evaluator of the Aria language is embedded as Lean definitions that pass the
interpreter's mutable state explicitly.  Go's `int64` is `Int` reduced with `wrap64`,
Go's `float64` is the dyadic model `Float64` below, Go's `nil` interface is `none`.
-/

namespace Aria

/-! ## Machine numbers -/

/-- Reduces an integer into the signed 64-bit range, as Go's `int64` arithmetic does. -/
def wrap64 (x : Int) : Int := (x + 2 ^ 63) % 2 ^ 64 - 2 ^ 63

/-- Floor of the base-2 logarithm with an explicit recursion bound. -/
def ilog2Aux : Nat → Nat → Nat
  | 0, _ => 0
  | fuel + 1, n => if n < 2 then 0 else ilog2Aux fuel (n / 2) + 1

/-- Floor of the base-2 logarithm of a positive natural number (`0` for `0`). -/
def ilog2 (n : Nat) : Nat := ilog2Aux n n

/-- Floor of the base-2 logarithm of the positive rational `N / D`. -/
def ratLog2 (N D : Nat) : Int :=
  let k : Int := (ilog2 N : Int) - (ilog2 D : Int)
  if D * 2 ^ k.toNat ≤ N * 2 ^ (-k).toNat then k else k - 1

/-- Rounds the rational `N / D` to the nearest natural number, ties to the even one. -/
def roundHalfEven (N D : Nat) : Nat :=
  let fl := N / D
  let r := N % D
  if 2 * r < D then fl
  else if D < 2 * r then fl + 1
  else if fl % 2 = 0 then fl else fl + 1

/-- A value of Go's `float64` (IEEE 754 binary64): the finite number `m * 2 ^ e`, an
infinity, or NaN.  The sign of a zero is not tracked. -/
inductive Float64 where
  | finite (m : Int) (e : Int)
  | inf (negative : Bool)
  | nan
  deriving DecidableEq, Repr

namespace Float64

/-- The rational number a finite `float64` stands for (`0` for the non-finite ones). -/
def toRat : Float64 → ℚ
  | finite m e => (m : ℚ) * (2 : ℚ) ^ e
  | _ => 0

/-- Attaches a sign to a magnitude. -/
def signed (negative : Bool) (m : Nat) : Int := if negative then -(m : Int) else (m : Int)

/-- Rounds `± (N / D) * 2 ^ s` (with `D > 0`) to binary64, to nearest with ties to even:
53 significant bits, exponent of the last place no lower than `-1074` (subnormals), and
overflow to infinity from `2 ^ 1024` on. -/
def round (negative : Bool) (N D : Nat) (s : Int) : Float64 :=
  if N = 0 then finite 0 0
  else
    let e : Int := max (ratLog2 N D + s - 52) (-1074)
    let t : Int := s - e
    let m := roundHalfEven (N * 2 ^ t.toNat) (D * 2 ^ (-t).toNat)
    if 971 < e ∨ (e = 971 ∧ 2 ^ 53 ≤ m) then inf negative
    else finite (signed negative m) e

/-- Go's conversion `float64(x)` of an `int64`. -/
def ofInt (a : Int) : Float64 := round (decide (a < 0)) a.natAbs 1 0

/-- Go's `/` on `float64`. -/
def div : Float64 → Float64 → Float64
  | nan, _ => nan
  | _, nan => nan
  | inf _, inf _ => nan
  | inf n, finite m _ => inf (n != decide (m < 0))
  | finite _ _, inf _ => finite 0 0
  | finite m e, finite m' e' =>
    if m' = 0 then (if m = 0 then nan else inf (decide (m < 0)))
    else round (decide (m < 0) != decide (m' < 0)) m.natAbs m'.natAbs (e - e')

/-- Go's `*` on `float64`. -/
def mul : Float64 → Float64 → Float64
  | nan, _ => nan
  | _, nan => nan
  | inf n, inf n' => inf (n != n')
  | inf n, finite m _ => if m = 0 then nan else inf (n != decide (m < 0))
  | finite m _, inf n => if m = 0 then nan else inf (decide (m < 0) != n)
  | finite m e, finite m' e' =>
    round (decide (m < 0) != decide (m' < 0)) (m.natAbs * m'.natAbs) 1 (e + e')

/-- Go's `+` on `float64`. -/
def add : Float64 → Float64 → Float64
  | nan, _ => nan
  | _, nan => nan
  | inf n, inf n' => if n = n' then inf n else nan
  | inf n, finite _ _ => inf n
  | finite _ _, inf n => inf n
  | finite m e, finite m' e' =>
    let lo := min e e'
    let sum : Int := m * 2 ^ (e - lo).toNat + m' * 2 ^ (e' - lo).toNat
    round (decide (sum < 0)) sum.natAbs 1 lo

/-- Go's unary `-` on `float64`. -/
def neg : Float64 → Float64
  | nan => nan
  | inf n => inf (!n)
  | finite m e => finite (-m) e

/-- Go's binary `-` on `float64`. -/
def sub (x y : Float64) : Float64 := add x (neg y)

/-- Go's `<` on `float64`. -/
def lt : Float64 → Float64 → Bool
  | nan, _ => false
  | _, nan => false
  | inf n, inf n' => n && !n'
  | inf n, finite _ _ => n
  | finite _ _, inf n => !n
  | finite m e, finite m' e' =>
    let lo := min e e'
    decide (m * 2 ^ (e - lo).toNat < m' * 2 ^ (e' - lo).toNat)

/-- Go's `==` on `float64`. -/
def eq : Float64 → Float64 → Bool
  | nan, _ => false
  | _, nan => false
  | inf n, inf n' => n == n'
  | inf _, finite _ _ => false
  | finite _ _, inf _ => false
  | finite m e, finite m' e' =>
    let lo := min e e'
    decide (m * 2 ^ (e - lo).toNat = m' * 2 ^ (e' - lo).toNat)

/-- Go's `<=` on `float64`. -/
def le (x y : Float64) : Bool := lt x y || eq x y

/-- The integer part of a finite `float64`, rounding toward zero. -/
def truncInt (m e : Int) : Int :=
  if 0 ≤ e then m * 2 ^ e.toNat else Int.tdiv m (2 ^ (-e).toNat)

/-- Go's `math.Trunc`. -/
def trunc : Float64 → Float64
  | finite m e => finite (truncInt m e) 0
  | x => x

/-- The test `math.Trunc(value) == value` of the source. -/
def isWhole (x : Float64) : Bool := eq (trunc x) x

end Float64

/-! ## Syntax tree (package `ast`) and run-time values -/

/-- Modelled from the spec: the syntax-tree contract of package `ast`, which is not part
of the sources at hand.  Node kinds and field names are the ones `Interpret` reads.
`Module`, `ModuleAccess`, `Import` and `Pipe` are left out: their evaluation needs the
module registry, the file system and the parser, or rewrites the tree in place. -/
inductive Expr where
  | Program (statements : List Expr)
  | Identifier (value : String)
  | Let (name : String) (value : Expr)
  | String (value : String)
  | Atom (value : String)
  | Integer (value : Int)
  | Float (value : Float64)
  | Boolean (value : Bool)
  | Array (elements : List Expr)
  | Dictionary (pairs : List (Expr × Expr))
  | ExpressionStatement (expression : Expr)
  | BlockStatement (statements : List Expr)
  | PrefixExpression (operator : String) (right : Expr)
  | InfixExpression (operator : String) (left right : Expr)
  | If (condition then_ : Expr) (else_ : Option Expr)
  | Switch (control : Option Expr) (cases : List (List Expr × Expr)) (default : Option Expr)
  | For (arguments : List String) (enumerable body : Expr)
  | Function (parameters : List String) (body : List Expr)
  | FunctionCall (function : Expr) (arguments : List Expr)
  | Subscript (left index : Expr)
  | Return (value : Expr)
  | Break
  | Continue
  | Placeholder

/-- Modelled from the spec: the type tags returned by `DataType.Type()`; the constants
are declared outside the sources at hand and are taken to be pairwise distinct. -/
inductive TypeTag where
  | INTEGER_TYPE | FLOAT_TYPE | STRING_TYPE | ATOM_TYPE | BOOLEAN_TYPE | ARRAY_TYPE
  | DICTIONARY_TYPE | FUNCTION_TYPE | NIL_TYPE | RETURN_TYPE | BREAK_TYPE | CONTINUE_TYPE
  | PLACEHOLDER_TYPE
  deriving DecidableEq, Repr

/-- Modelled from the spec: the variants of `DataType`.  A `*StringType` carries the
address of its allocation, because dictionaries are Go maps keyed by that pointer; a
`DictionaryType` holds a reference to its Go map; a `FunctionType` holds a reference to
its scope.  An absent value (Go `nil`) is `none` in `Option Value`. -/
inductive Value where
  | IntegerType (value : Int)
  | FloatType (value : Float64)
  | StringType (addr : Nat) (value : String)
  | AtomType (value : String)
  | BooleanType (value : Bool)
  | ArrayType (elements : List (Option Value))
  | DictionaryType (pairs : Nat)
  | FunctionType (parameters : List String) (body : List Expr) (scope : Nat)
  | NilType
  | ReturnType (value : Option Value)
  | BreakType
  | ContinueType
  | PlaceholderType

/-- A Go value of interface type `DataType`; `none` is `nil`. -/
abbrev DataType := Option Value

/-- The method `Type()` of a non-nil `DataType`. -/
def Value.Type : Value → TypeTag
  | .IntegerType _ => .INTEGER_TYPE
  | .FloatType _ => .FLOAT_TYPE
  | .StringType _ _ => .STRING_TYPE
  | .AtomType _ => .ATOM_TYPE
  | .BooleanType _ => .BOOLEAN_TYPE
  | .ArrayType _ => .ARRAY_TYPE
  | .DictionaryType _ => .DICTIONARY_TYPE
  | .FunctionType _ _ _ => .FUNCTION_TYPE
  | .NilType => .NIL_TYPE
  | .ReturnType _ => .RETURN_TYPE
  | .BreakType => .BREAK_TYPE
  | .ContinueType => .CONTINUE_TYPE
  | .PlaceholderType => .PLACEHOLDER_TYPE

/-- The key of a dictionary entry: a `*StringType`, identified by its address. -/
structure StringKey where
  addr : Nat
  Value : String
  deriving DecidableEq, Repr

/-- A Go `map[*StringType]DataType`: entries with pairwise distinct key addresses.  The
order of the list carries no meaning; a `range` loop visits the entries in an order the
run time chooses. -/
abbrev GoMap := List (StringKey × DataType)

/-- The assignment `m[k] = v` of a Go map keyed by pointer. -/
def GoMap.insert : GoMap → StringKey → DataType → GoMap
  | [], k, v => [(k, v)]
  | (k', v') :: rest, k, v =>
    if k'.addr = k.addr then (k, v) :: rest else (k', v') :: GoMap.insert rest k v

/-- Modelled from the spec: a binding frame of package-level type `Scope`, which is not
part of the sources at hand: a store from identifier to value and an optional parent. -/
structure Scope where
  store : List (String × DataType)
  parent : Option Nat

/-- The mutable state an evaluation works on: the heap of scope frames (a `*Scope` is
an index into `scopes`), the heap of Go maps (a dictionary's `Pairs` is an index into
`maps`), the number of `StringType` allocations so far, the interpreter's `functions`
registry, the messages sent to the reporter, and the number of map `range` loops run. -/
structure State where
  scopes : List Scope
  maps : List GoMap
  nextAddr : Nat
  functions : List (String × String)
  errors : List String
  ranges : Nat

/-- What the sources at hand leave open.  `Inspect` is the canonical rendering of a
value (declared with the value types, outside these sources), `typeName` the text of a
type tag, `mathPow` and `mathMod` the library functions `math.Pow` and `math.Mod`,
`int64OfFloat` the result of converting a `float64` that is not a finite number inside
the `int64` range (implementation-dependent in Go), and `rangeOrder` the order in which
the `n`-th `range` loop over a map visits its entries, each entry once. -/
structure Host where
  Inspect : List GoMap → Value → String
  typeName : TypeTag → String
  mathPow : Float64 → Float64 → Float64
  mathMod : Float64 → Float64 → Float64
  int64OfFloat : Float64 → Int
  rangeOrder : Nat → GoMap → GoMap
  rangeOrder_perm : ∀ (n : Nat) (m : GoMap), List.Perm (rangeOrder n m) m

/-- A run-time failure of the host program. -/
inductive Fault where
  | panic (message : String)
  | outOfFuel
  deriving DecidableEq, Repr

/-- A Go result pair `(DataType, error)`. -/
abbrev OpResult := DataType × Option String

/-! ## The evaluation monad -/

/-- The result of a computation: a value and the state it leaves, or a fault. -/
inductive Res (α : Type) where
  | ok (value : α) (state : State)
  | fault (f : Fault)

/-- A computation of the interpreter: a function of the state. -/
def M (α : Type) : Type := State → Res α

instance : Monad M where
  pure a := fun st => Res.ok a st
  bind x f := fun st =>
    match x st with
    | Res.ok a st' => f a st'
    | Res.fault e => Res.fault e

/-- The value a computation ended with, if it did not fault. -/
def Res.value? {α : Type} : Res α → Option α
  | Res.ok a _ => some a
  | Res.fault _ => none

/-- The state a computation ended in, if it did not fault. -/
def Res.state? {α : Type} : Res α → Option State
  | Res.ok _ st => some st
  | Res.fault _ => none

/-- The fault a computation ended with, if any. -/
def Res.fault? {α : Type} : Res α → Option Fault
  | Res.ok _ _ => none
  | Res.fault e => some e

/-- A Go run-time panic. -/
def throwPanic {α : Type} (message : String) : M α := fun _ => Res.fault (Fault.panic message)

/-- The current state. -/
def getState : M State := fun st => Res.ok st st

/-- Replaces the state. -/
def setState (st : State) : M Unit := fun _ => Res.ok () st

/-- The method `reportError`: hands a run-time message to the reporter. -/
def reportError (message : String) : M Unit :=
  fun st => Res.ok () { st with errors := st.errors ++ [message] }

/-- The allocation `&StringType{Value: value}`: a string object at a fresh address. -/
def newString (value : String) : M Value :=
  fun st => Res.ok (Value.StringType st.nextAddr value) { st with nextAddr := st.nextAddr + 1 }

/-- Allocates a Go map with the given entries and returns its reference. -/
def newMap (m : GoMap) : M Nat :=
  fun st => Res.ok st.maps.length { st with maps := st.maps ++ [m] }

/-- The entries of the Go map behind a reference. -/
def State.mapAt (st : State) (ref : Nat) : GoMap := (st.maps.get? ref).getD []

/-- Starts a `range` loop over a Go map: the entries in the order the run time picks.
The entries are those the map holds when the loop starts; an entry written into the same
map while the loop runs, which Go may or may not visit, is not among them. -/
def rangeMap (h : Host) (ref : Nat) : M GoMap :=
  fun st => Res.ok (h.rangeOrder st.ranges (st.mapAt ref)) { st with ranges := st.ranges + 1 }

/-! ## Scopes -/

/-- The assignment `store[name] = value` of a frame's map. -/
def storeWrite : List (String × DataType) → String → DataType → List (String × DataType)
  | [], name, value => [(name, value)]
  | (n, v) :: rest, name, value =>
    if n = name then (name, value) :: rest else (n, v) :: storeWrite rest name value

/-- Lookup through a frame and then its parents; the first argument bounds the length
of the parent chain. -/
def readFrom (scopes : List Scope) : Nat → Nat → String → Option DataType
  | 0, _, _ => none
  | fuel + 1, scope, name =>
    match scopes.get? scope with
    | none => none
    | some frame =>
      match frame.store.lookup name with
      | some v => some v
      | none =>
        match frame.parent with
        | some p => readFrom scopes fuel p name
        | none => none

/-- Modelled from the spec: `Scope.Read`, which is not part of the sources at hand:
"lookup walks outward through parents".  `none` is the not-found answer. -/
def State.Read (st : State) (scope : Nat) (name : String) : Option DataType :=
  readFrom st.scopes st.scopes.length scope name

/-- Modelled from the spec: `Scope.Write`, which is not part of the sources at hand.  It
stores the binding in the frame itself and rebinds a name the frame already holds: the
source calls it as a statement without testing any result, and the loop and call paths
write the same names into one frame again on every iteration and every call.  The
declaration conflict of the spec is the `Read` test `runLet` makes before it writes. -/
def State.Write (st : State) (scope : Nat) (name : String) (value : DataType) : State :=
  match st.scopes.get? scope with
  | none => st
  | some frame =>
    { st with scopes := st.scopes.set scope { frame with store := storeWrite frame.store name value } }

/-- Modelled from the spec: `Scope.Merge`, which is not part of the sources at hand:
"copies all bindings of `other` into self". -/
def State.Merge (st : State) (self other : Nat) : State :=
  match st.scopes.get? other with
  | none => st
  | some frame => frame.store.foldl (fun acc b => acc.Write self b.1 b.2) st

/-- Modelled from the spec: `NewScope()`, a fresh frame without parent. -/
def NewScope : M Nat :=
  fun st => Res.ok st.scopes.length { st with scopes := st.scopes ++ [{ store := [], parent := none }] }

/-- Modelled from the spec: `NewScopeFrom(parent)`, a fresh child frame of `parent`. -/
def NewScopeFrom (parent : Nat) : M Nat :=
  fun st => Res.ok st.scopes.length
    { st with scopes := st.scopes ++ [{ store := [], parent := some parent }] }

/-- The call `scope.Read(name)` inside a computation. -/
def readScope (scope : Nat) (name : String) : M (Option DataType) :=
  fun st => Res.ok (st.Read scope name) st

/-- The call `scope.Write(name, value)` inside a computation. -/
def writeScope (scope : Nat) (name : String) (value : DataType) : M Unit :=
  fun st => Res.ok () (st.Write scope name value)

/-- The call `self.Merge(other)` inside a computation. -/
def mergeScope (self other : Nat) : M Unit :=
  fun st => Res.ok () (st.Merge self other)

/-! ## Operator dispatch -/

/-- The method `nativeToBoolean`: the shared `TRUE` or `FALSE` value. -/
def nativeToBoolean (value : Bool) : Value := Value.BooleanType value

/-- Go's conversion `int64(x)` of a `float64`: truncation toward zero when the result
fits, the host's answer otherwise. -/
def toInt64 (h : Host) : Float64 → Int
  | Float64.finite m e =>
    let t := Float64.truncInt m e
    if -(2 ^ 63) ≤ t ∧ t < 2 ^ 63 then t else h.int64OfFloat (Float64.finite m e)
  | x => h.int64OfFloat x

/-- The ascending loop of `runRangeIntegerInfix`: `for idx := left; idx <= right; idx++`.
The first argument bounds the number of iterations; `none` means the bound was hit. -/
def rangeUp : Nat → Int → Int → List DataType → Option (List DataType)
  | 0, _, _, _ => none
  | fuel + 1, idx, right, result =>
    if idx ≤ right then
      rangeUp fuel (wrap64 (idx + 1)) right (result ++ [some (Value.IntegerType idx)])
    else some result

/-- The descending loop of `runRangeIntegerInfix`: `for idx := left; idx >= right; idx--`. -/
def rangeDown : Nat → Int → Int → List DataType → Option (List DataType)
  | 0, _, _, _ => none
  | fuel + 1, idx, right, result =>
    if right ≤ idx then
      rangeDown fuel (wrap64 (idx - 1)) right (result ++ [some (Value.IntegerType idx)])
    else some result

/-- The method `runRangeIntegerInfix`.  The loop counter has `2 ^ 64` states, so a loop
that has not left after `2 ^ 64` rounds never does. -/
def runRangeIntegerInfix (left right : Int) : M Value := fun st =>
  let out := if left < right then rangeUp (2 ^ 64 + 1) left right []
             else rangeDown (2 ^ 64 + 1) left right []
  match out with
  | some result => Res.ok (Value.ArrayType result) st
  | none => Res.fault Fault.outOfFuel

/-- The method `runIntegerInfix` on the two `int64` payloads. -/
def runIntegerInfix (h : Host) (operator : String) (leftVal rightVal : Int) : M OpResult :=
  match operator with
  | "+" => pure (some (Value.IntegerType (wrap64 (leftVal + rightVal))), none)
  | "-" => pure (some (Value.IntegerType (wrap64 (leftVal - rightVal))), none)
  | "*" => pure (some (Value.IntegerType (wrap64 (leftVal * rightVal))), none)
  | "/" =>
    let value := Float64.div (Float64.ofInt leftVal) (Float64.ofInt rightVal)
    if value.isWhole then pure (some (Value.IntegerType (toInt64 h value)), none)
    else pure (some (Value.FloatType value), none)
  | "%" =>
    if rightVal = 0 then throwPanic "runtime error: integer divide by zero"
    else pure (some (Value.IntegerType (Int.tmod leftVal rightVal)), none)
  | "**" =>
    pure (some (Value.IntegerType
      (toInt64 h (h.mathPow (Float64.ofInt leftVal) (Float64.ofInt rightVal)))), none)
  | "<" => pure (some (nativeToBoolean (decide (leftVal < rightVal))), none)
  | "<=" => pure (some (nativeToBoolean (decide (leftVal ≤ rightVal))), none)
  | ">" => pure (some (nativeToBoolean (decide (leftVal > rightVal))), none)
  | ">=" => pure (some (nativeToBoolean (decide (leftVal ≥ rightVal))), none)
  | "<<" =>
    if leftVal < 0 ∨ rightVal < 0 then
      pure (none, some "Bitwise shift requires two unsigned Integers")
    else if 64 ≤ rightVal then pure (some (Value.IntegerType 0), none)
    else pure (some (Value.IntegerType (wrap64 (leftVal * 2 ^ rightVal.toNat))), none)
  | ">>" =>
    if leftVal < 0 ∨ rightVal < 0 then
      pure (none, some "Bitwsise shift requires two unsigned Integers")
    else if 64 ≤ rightVal then pure (some (Value.IntegerType 0), none)
    else pure (some (Value.IntegerType (leftVal / 2 ^ rightVal.toNat)), none)
  | "&" => pure (some (Value.IntegerType (Int.land leftVal rightVal)), none)
  | "|" => pure (some (Value.IntegerType (Int.lor leftVal rightVal)), none)
  | "==" => pure (some (nativeToBoolean (decide (leftVal = rightVal))), none)
  | "!=" => pure (some (nativeToBoolean (decide (leftVal ≠ rightVal))), none)
  | ".." => do
    let array ← runRangeIntegerInfix leftVal rightVal
    pure (some array, none)
  | _ => pure (none, some ("Unsupported Integer operator '" ++ operator ++ "'"))

/-- The method `runFloatInfix`. -/
def runFloatInfix (h : Host) (operator : String) (left right : Float64) : M OpResult :=
  match operator with
  | "+" => pure (some (Value.FloatType (Float64.add left right)), none)
  | "-" => pure (some (Value.FloatType (Float64.sub left right)), none)
  | "*" => pure (some (Value.FloatType (Float64.mul left right)), none)
  | "/" => pure (some (Value.FloatType (Float64.div left right)), none)
  | "%" => pure (some (Value.FloatType (h.mathMod left right)), none)
  | "**" => pure (some (Value.FloatType (h.mathPow left right)), none)
  | "<" => pure (some (nativeToBoolean (Float64.lt left right)), none)
  | "<=" => pure (some (nativeToBoolean (Float64.le left right)), none)
  | ">" => pure (some (nativeToBoolean (Float64.lt right left)), none)
  | ">=" => pure (some (nativeToBoolean (Float64.le right left)), none)
  | "==" => pure (some (nativeToBoolean (Float64.eq left right)), none)
  | "!=" => pure (some (nativeToBoolean (!(Float64.eq left right))), none)
  | _ => pure (none, some ("Unsupported Float operator '" ++ operator ++ "'"))

/-- The method `runBooleanInfix` on the two payloads. -/
def runBooleanInfix (operator : String) (leftVal rightVal : Bool) : M OpResult :=
  match operator with
  | "&&" => pure (some (nativeToBoolean (leftVal && rightVal)), none)
  | "||" => pure (some (nativeToBoolean (leftVal || rightVal)), none)
  | "==" => pure (some (nativeToBoolean (leftVal == rightVal)), none)
  | "!=" => pure (some (nativeToBoolean (leftVal != rightVal)), none)
  | _ => pure (none, some ("Unsupported Boolean operator '" ++ operator ++ "'"))

/-- The bytes of a Go string (its UTF-8 encoding). -/
def utf8Bytes (s : String) : List Nat :=
  s.data.flatMap (fun c => (String.utf8EncodeChar c).map UInt8.toNat)

/-- Go's `len` of a string: the number of bytes. -/
def goLen (s : String) : Nat := (utf8Bytes s).length

/-- Go's conversion `string(r)` of a rune or byte value to a string. -/
def stringOfRune (r : Nat) : String := String.singleton (Char.ofNat r)

/-- One loop of `runRangeStringInfix`: visits the given runes in order and appends a
fresh one-character string for each rune between `lo` and `hi`. -/
def rangeStringLoop (lo hi : Nat) : List Char → List DataType → M (List DataType)
  | [], result => pure result
  | v :: rest, result =>
    if lo ≤ v.toNat ∧ v.toNat ≤ hi then do
      let str ← newString (stringOfRune v.toNat)
      rangeStringLoop lo hi rest (result ++ [some str])
    else rangeStringLoop lo hi rest result

/-- The alphabet of `runRangeStringInfix`. -/
def alphabet : String := "0123456789abcdefghijklmnopqrstuvwxyz"

/-- The expression `[]int32(strings.ToLower(s))[0]` for a string of at most one byte. -/
def firstLowerRune (s : String) : M Nat :=
  match s.data.map Char.toLower with
  | [] => throwPanic "runtime error: index out of range [0] with length 0"
  | c :: _ => pure c.toNat

/-- The method `runRangeStringInfix`. -/
def runRangeStringInfix (left right : String) : M OpResult :=
  if goLen left > 1 ∨ goLen right > 1 then
    pure (none, some "Range operator expects 2 single character strings")
  else do
    let leftByte ← firstLowerRune left
    let rightByte ← firstLowerRune right
    if leftByte < rightByte then do
      let result ← rangeStringLoop leftByte rightByte alphabet.data []
      pure (some (Value.ArrayType result), none)
    else do
      let result ← rangeStringLoop rightByte leftByte alphabet.data.reverse []
      pure (some (Value.ArrayType result), none)

/-- The method `runStringInfix`. -/
def runStringInfix (operator : String) (left right : String) : M OpResult :=
  match operator with
  | "+" => do
    let str ← newString (left ++ right)
    pure (some str, none)
  | "<" => pure (some (nativeToBoolean (decide (goLen left < goLen right))), none)
  | "<=" => pure (some (nativeToBoolean (decide (goLen left ≤ goLen right))), none)
  | ">" => pure (some (nativeToBoolean (decide (goLen left > goLen right))), none)
  | ">=" => pure (some (nativeToBoolean (decide (goLen left ≥ goLen right))), none)
  | "==" => pure (some (nativeToBoolean (decide (left = right))), none)
  | "!=" => pure (some (nativeToBoolean (decide (left ≠ right))), none)
  | ".." => runRangeStringInfix left right
  | _ => pure (none, some ("Unsupported String operator '" ++ operator ++ "'"))

/-- The loop of `compareArrays` once the lengths agree: same type and same rendering
at every position.  A `nil` element faults when its method is called. -/
def compareArraysLoop (h : Host) (maps : List GoMap) :
    List DataType → List DataType → Except Fault Bool
  | [], _ => Except.ok true
  | _ :: _, [] => Except.error (Fault.panic "runtime error: index out of range")
  | none :: _, _ :: _ =>
    Except.error (Fault.panic "runtime error: invalid memory address or nil pointer dereference")
  | some _ :: _, none :: _ =>
    Except.error (Fault.panic "runtime error: invalid memory address or nil pointer dereference")
  | some v :: ls, some w :: rs =>
    if v.Type ≠ w.Type ∨ h.Inspect maps v ≠ h.Inspect maps w then Except.ok false
    else compareArraysLoop h maps ls rs

/-- The method `compareArrays`. -/
def compareArrays (h : Host) (left right : List DataType) : M Bool := fun st =>
  if left.length ≠ right.length then Res.ok false st
  else
    match compareArraysLoop h st.maps left right with
    | Except.ok b => Res.ok b st
    | Except.error e => Res.fault e

/-- The method `runArrayInfix` on the two element slices.  The result of `+` is a new
list; sharing of a slice's spare capacity is not tracked. -/
def runArrayInfix (h : Host) (operator : String) (leftVal rightVal : List DataType) : M OpResult :=
  match operator with
  | "+" => pure (some (Value.ArrayType (leftVal ++ rightVal)), none)
  | "==" => do
    let same ← compareArrays h leftVal rightVal
    pure (some (nativeToBoolean same), none)
  | "!=" => do
    let same ← compareArrays h leftVal rightVal
    pure (some (nativeToBoolean (!same)), none)
  | _ => pure (none, some ("Unsupported Array operator '" ++ operator ++ "'"))

/-- The inner loop of `compareDictionaries`: counts the right entries with the same key
text and the same rendering of the value as the left entry. -/
def compareDictionariesInner (h : Host) (maps : List GoMap) (lk : StringKey) (lv : DataType) :
    GoMap → Nat → Except Fault Nat
  | [], found => Except.ok found
  | (rk, rv) :: rest, found =>
    if lk.Value = rk.Value then
      match lv, rv with
      | some a, some b =>
        if h.Inspect maps a = h.Inspect maps b then
          compareDictionariesInner h maps lk lv rest (found + 1)
        else compareDictionariesInner h maps lk lv rest found
      | _, _ =>
        Except.error (Fault.panic "runtime error: invalid memory address or nil pointer dereference")
    else compareDictionariesInner h maps lk lv rest found

/-- The outer loop of `compareDictionaries`; every pass starts a `range` over `right`. -/
def compareDictionariesOuter (h : Host) (right : Nat) : GoMap → Nat → M Nat
  | [], found => pure found
  | (lk, lv) :: rest, found => do
    let inner ← rangeMap h right
    let st ← getState
    match compareDictionariesInner h st.maps lk lv inner found with
    | Except.ok found' => compareDictionariesOuter h right rest found'
    | Except.error e => fun _ => Res.fault e

/-- The method `compareDictionaries` on the two map references. -/
def compareDictionaries (h : Host) (left right : Nat) : M Bool := do
  let st ← getState
  if (st.mapAt left).length ≠ (st.mapAt right).length then pure false
  else do
    let outer ← rangeMap h left
    let found ← compareDictionariesOuter h right outer 0
    pure (decide (found = (st.mapAt left).length))

/-- The loop `for k, v := range leftVal { rightVal[k] = v }` of `runDictionaryInfix`. -/
def mergeInto (right : Nat) : GoMap → M Unit
  | [] => pure ()
  | (k, v) :: rest => do
    let st ← getState
    setState { st with maps := st.maps.set right (GoMap.insert (st.mapAt right) k v) }
    mergeInto right rest

/-- The method `runDictionaryInfix` on the two map references.  `+` writes the left
entries into the right operand's own map and returns a dictionary on that map. -/
def runDictionaryInfix (h : Host) (operator : String) (leftVal rightVal : Nat) : M OpResult :=
  match operator with
  | "+" => do
    let entries ← rangeMap h leftVal
    mergeInto rightVal entries
    pure (some (Value.DictionaryType rightVal), none)
  | "==" => do
    let same ← compareDictionaries h leftVal rightVal
    pure (some (nativeToBoolean same), none)
  | "!=" => do
    let same ← compareDictionaries h leftVal rightVal
    pure (some (nativeToBoolean (!same)), none)
  | _ => pure (none, some ("Unsupported Dictionary operator '" ++ operator ++ "'"))

/-- The method `stringToArray`: one fresh one-character string per rune. -/
def stringToArrayLoop : List Char → List DataType → M (List DataType)
  | [], elements => pure elements
  | c :: rest, elements => do
    let str ← newString (stringOfRune c.toNat)
    stringToArrayLoop rest (elements ++ [some str])

/-- The method `stringToArray` on the string payload; yields the elements. -/
def stringToArray (str : String) : M (List DataType) := stringToArrayLoop str.data []

/-- The method `isTruthy`, read in a given state (a dictionary's size is in the heap). -/
def State.isTruthy (st : State) : DataType → Bool
  | some (Value.BooleanType value) => value
  | some Value.NilType => false
  | some (Value.StringType _ value) => decide (value ≠ "")
  | some (Value.AtomType _) => true
  | some (Value.IntegerType value) => decide (value ≠ 0)
  | some (Value.FloatType value) => !(Float64.eq value (Float64.finite 0 0))
  | some (Value.ArrayType elements) => decide (elements.length > 0)
  | some (Value.DictionaryType pairs) => decide ((st.mapAt pairs).length > 0)
  | _ => false

/-- The method `isTruthy` inside a computation. -/
def isTruthy (object : DataType) : M Bool := fun st => Res.ok (st.isTruthy object) st

/-- The method `shouldBreakImmediately`. -/
def shouldBreakImmediately (object : Value) : Bool :=
  match object.Type with
  | TypeTag.RETURN_TYPE => true
  | TypeTag.BREAK_TYPE => true
  | TypeTag.CONTINUE_TYPE => true
  | _ => false

/-- The method `unwrapReturnValue`. -/
def unwrapReturnValue : DataType → DataType
  | some (Value.ReturnType value) => value
  | object => object

/-- The method `runArraySubscript` on the element slice and the index payload.  The sum
of the length and a negative index cannot leave the `int64` range. -/
def runArraySubscript (arrayObj : List DataType) (index : Int) : M OpResult :=
  let originalIdx := index
  let idx : Int := if index < 0 then (arrayObj.length : Int) + index else index
  if idx < 0 ∨ idx > (arrayObj.length : Int) - 1 then
    pure (none, some ("Array index '" ++ toString originalIdx ++ "' out of bounds"))
  else
    match arrayObj.get? idx.toNat with
    | some element => pure (element, none)
    | none => throwPanic "runtime error: index out of range"

/-- The loop of `runDictionarySubscript` over the entries in the order of the `range`. -/
def dictionaryFind (key : String) : GoMap → Option DataType
  | [] => none
  | (k, v) :: rest => if k.Value = key then some v else dictionaryFind key rest

/-- The method `runDictionarySubscript` on the map reference and the key text. -/
def runDictionarySubscript (h : Host) (dictObj : Nat) (key : String) : M OpResult := do
  let entries ← rangeMap h dictObj
  match dictionaryFind key entries with
  | some v => pure (v, none)
  | none => pure (none, some ("Key '" ++ key ++ "' doesn't exist in Dictionary"))

/-- The method `runStringSubscript` on the string payload and the index payload. -/
def runStringSubscript (arrayObj : String) (idx : Int) : M OpResult :=
  if idx < 0 ∨ idx > (goLen arrayObj : Int) - 1 then
    pure (none, some ("String index '" ++ toString idx ++ "' out of bounds"))
  else
    match (utf8Bytes arrayObj).get? idx.toNat with
    | some b => do
      let str ← newString (stringOfRune b)
      pure (some str, none)
    | none => throwPanic "runtime error: index out of range"

/-- The method `runMinusPrefix`. -/
def runMinusPrefix (object : Value) : OpResult :=
  match object with
  | Value.IntegerType value => (some (Value.IntegerType (wrap64 (-value))), none)
  | Value.FloatType value => (some (Value.FloatType (Float64.neg value)), none)
  | _ => (none, some "Minus prefix can be applied to Integers and Floats only")

/-- The method `runBitwiseNotPrefix`. -/
def runBitwiseNotPrefix (object : Value) : OpResult :=
  match object with
  | Value.IntegerType value => (some (Value.IntegerType (-value - 1)), none)
  | _ => (none, some "Bitwise NOT prefix can be applied to Integers only")

/-- The tail shared by the operator and subscript paths: report the error, if any, and
hand back the value. -/
def reportAndReturn (result : OpResult) : M DataType :=
  match result.2 with
  | some message => do
    reportError message
    pure result.1
  | none => pure result.1

/-! ## The evaluator

Every method that calls `Interpret` on a sub-node takes the evaluator as its argument
`ev`; `Interpret` passes itself, with one unit of recursion depth less. -/

/-- The evaluator handed to the methods below: node and scope to a computation. -/
abbrev Eval := Expr → Nat → M DataType

/-- The method `runProgram`: every statement is run, the last result is returned. -/
def runProgram (ev : Eval) (scope : Nat) : List Expr → DataType → M DataType
  | [], result => pure result
  | statement :: rest, _ => do
    let result ← ev statement scope
    runProgram ev scope rest result

/-- The step of `runLet` that saves a function under its rendering:
`i.functions[object.Inspect()] = node.Name.Value`, for a `FunctionType` only. -/
def registerFunction (h : Host) (name : String) (object : Value) : M Unit := fun st =>
  match object with
  | Value.FunctionType _ _ _ =>
    Res.ok () { st with functions := (h.Inspect st.maps object, name) :: st.functions }
  | _ => Res.ok () st

/-- The method `runLet`. -/
def runLet (h : Host) (ev : Eval) (name : String) (value : Expr) (scope : Nat) : M DataType := do
  let object ← ev value scope
  match object with
  | none => pure none
  | some obj => do
    registerFunction h name obj
    let found ← readScope scope name
    match found with
    | some _ => do
      reportError ("Identifier '" ++ name ++ "' already declared")
      pure none
    | none => do
      writeScope scope name object
      pure object

/-- The method `runIdentifier`. -/
def runIdentifier (name : String) (scope : Nat) : M DataType := do
  let found ← readScope scope name
  match found with
  | some object => pure object
  | none => do
    reportError ("Identifier '" ++ name ++ "' not found in current scope")
    pure none

/-- The method `runBlockStatement`. -/
def runBlockStatement (ev : Eval) (scope : Nat) : List Expr → DataType → M DataType
  | [], result => pure result
  | statement :: rest, _ => do
    let result ← ev statement scope
    match result with
    | none => pure none
    | some r =>
      if shouldBreakImmediately r then pure result
      else runBlockStatement ev scope rest result

/-- The loop of `runArray`; a failed element is appended as `nil`. -/
def runArrayLoop (ev : Eval) (scope : Nat) : List Expr → List DataType → M (List DataType)
  | [], result => pure result
  | element :: rest, result => do
    let value ← ev element scope
    runArrayLoop ev scope rest (result ++ [value])

/-- The method `runArray`. -/
def runArray (ev : Eval) (elements : List Expr) (scope : Nat) : M DataType := do
  let result ← runArrayLoop ev scope elements []
  pure (some (Value.ArrayType result))

/-- The loop of `runDictionary` over the pairs of the literal, in the order in which the
node's map is ranged over; `none` after a key that is not a String. -/
def runDictionaryLoop (ev : Eval) (scope : Nat) : List (Expr × Expr) → GoMap → M (Option GoMap)
  | [], result => pure (some result)
  | (k, v) :: rest, result => do
    let key ← ev k scope
    match key with
    | some (Value.StringType addr text) => do
      let value ← ev v scope
      runDictionaryLoop ev scope rest (GoMap.insert result ⟨addr, text⟩ value)
    | _ => do
      reportError "Dictionaries support String keys only"
      pure none

/-- The method `runDictionary`. -/
def runDictionary (ev : Eval) (pairs : List (Expr × Expr)) (scope : Nat) : M DataType := do
  let result ← runDictionaryLoop ev scope pairs []
  match result with
  | none => pure none
  | some entries => do
    let ref ← newMap entries
    pure (some (Value.DictionaryType ref))

/-- The method `runIf`. -/
def runIf (ev : Eval) (condition then_ : Expr) (else_ : Option Expr) (scope : Nat) :
    M DataType := do
  let cond ← ev condition scope
  let truthy ← isTruthy cond
  if truthy then do
    let child ← NewScopeFrom scope
    ev then_ child
  else
    match else_ with
    | some e => do
      let child ← NewScopeFrom scope
      ev e child
    | none => pure (some Value.NilType)

/-- What the parameters of one switch case decide: the case wins, the switch fails with
an error, or the loop moves on to the next case. -/
inductive CaseStep where
  | wins
  | fails (message : String)
  | next
  deriving DecidableEq, Repr

/-- The inner loop of `runSwitchCase` over the declared values of one case: `arity` is
`len(sc.Values.Elements)`, `idx` the position of the value at hand and `matched` the
counter `matches`. -/
def runSwitchCaseValues (h : Host) (ev : Eval) (control : Value) (scope : Nat) (arity : Nat) :
    List Expr → Nat → Nat → M CaseStep
  | [], _, _ => pure CaseStep.next
  | p :: rest, idx, matched => do
    let evaluated ← ev p scope
    match evaluated with
    | none => throwPanic "runtime error: invalid memory address or nil pointer dereference"
    | some parameter => do
      let st ← getState
      if parameter.Type = control.Type then
        -- Same type and same exact value.
        if h.Inspect st.maps parameter = h.Inspect st.maps control then pure CaseStep.wins
        else runSwitchCaseValues h ev control scope arity rest (idx + 1) matched
      else
        match parameter, control with
        | Value.AtomType a, Value.StringType _ text =>
          -- A string switch can have atom cases.
          if a = text then pure CaseStep.wins
          else runSwitchCaseValues h ev control scope arity rest (idx + 1) matched
        | _, Value.ArrayType arrayObj =>
          if arity ≠ arrayObj.length then
            runSwitchCaseValues h ev control scope arity rest (idx + 1) matched
          else
            match arrayObj.get? idx with
            | none => throwPanic "runtime error: index out of range"
            | some none =>
              throwPanic "runtime error: invalid memory address or nil pointer dereference"
            | some (some element) =>
              if (parameter.Type = element.Type ∧
                    h.Inspect st.maps parameter = h.Inspect st.maps element) ∨
                  parameter.Type = TypeTag.PLACEHOLDER_TYPE then
                if matched + 1 = arrayObj.length then pure CaseStep.wins
                else runSwitchCaseValues h ev control scope arity rest (idx + 1) (matched + 1)
              else runSwitchCaseValues h ev control scope arity rest (idx + 1) matched
        | _, _ =>
          pure (CaseStep.fails ("Type '" ++ h.typeName parameter.Type ++
            "' can't be used in a Switch case with control type '" ++
            h.typeName control.Type ++ "'"))

/-- The method `runSwitchCase`: the position of the winning case among `cases` (the
source returns the pointer to that case) and the error.  `n` is the position of the
first case of the list. -/
def runSwitchCase (h : Host) (ev : Eval) (control : Value) (scope : Nat) :
    List (List Expr × Expr) → Nat → M (Option Nat × Option String)
  | [], _ => pure (none, none)
  | sc :: rest, n => do
    let step ← runSwitchCaseValues h ev control scope sc.1.length sc.1 0 0
    match step with
    | CaseStep.wins => pure (some n, none)
    | CaseStep.fails message => pure (none, some message)
    | CaseStep.next => runSwitchCase h ev control scope rest (n + 1)

/-- The method `runSwitch`. -/
def runSwitch (h : Host) (ev : Eval) (control : Option Expr) (cases : List (List Expr × Expr))
    (default : Option Expr) (scope : Nat) : M DataType := do
  let evaluated ← match control with
    | none => pure (some (Value.BooleanType true))
    | some c => ev c scope
  match evaluated with
  | none => do
    reportError "Switch control expression couldn't be interpreted"
    pure none
  | some controlValue => do
    let found ← runSwitchCase h ev controlValue scope cases 0
    match found.2 with
    | some message => do
      reportError message
      pure none
    | none =>
      match found.1 with
      | some n =>
        match cases.get? n with
        | some thecase => do
          let child ← NewScopeFrom scope
          ev thecase.2 child
        | none => throwPanic "runtime error: index out of range"
      | none =>
        match default with
        | some d => do
          let child ← NewScopeFrom scope
          ev d child
        | none => pure none

/-- The loop of `runForArray`: `idx` is the position of the element at hand and `out`
the results gathered so far. -/
def runForArrayLoop (ev : Eval) (arguments : List String) (body : Expr) (scope : Nat) :
    List DataType → Nat → List DataType → M DataType
  | [], _, out => pure (some (Value.ArrayType out))
  | v :: rest, idx, out => do
    let bound ← match arguments with
      | [a] => do
        writeScope scope a v
        pure true
      | [a, b] => do
        writeScope scope a (some (Value.IntegerType idx))
        writeScope scope b v
        pure true
      | _ => do
        reportError "A FOR loop with an Array expects at most 2 arguments"
        pure false
    if bound then do
      let result ← ev body scope
      match result with
      | none => pure none
      | some r =>
        if r.Type = TypeTag.BREAK_TYPE then pure (some (Value.ArrayType out))
        else if r.Type = TypeTag.CONTINUE_TYPE then
          runForArrayLoop ev arguments body scope rest (idx + 1) out
        else runForArrayLoop ev arguments body scope rest (idx + 1) (out ++ [result])
    else pure none

/-- The method `runForArray` on the element slice. -/
def runForArray (ev : Eval) (arguments : List String) (body : Expr) (array : List DataType)
    (scope : Nat) : M DataType :=
  runForArrayLoop ev arguments body scope array 0 []

/-- The loop of `runForDictionary` over the entries in the order of the `range`. -/
def runForDictionaryLoop (ev : Eval) (arguments : List String) (body : Expr) (scope : Nat) :
    GoMap → List DataType → M DataType
  | [], out => pure (some (Value.ArrayType out))
  | (k, v) :: rest, out => do
    let bound ← match arguments with
      | [a] => do
        writeScope scope a v
        pure true
      | [a, b] => do
        let key ← newString k.Value
        writeScope scope a (some key)
        writeScope scope b v
        pure true
      | _ => do
        reportError "A FOR loop with a Dictionary expects at most 2 arguments"
        pure false
    if bound then do
      let result ← ev body scope
      match result with
      | none => pure none
      | some r =>
        if r.Type = TypeTag.BREAK_TYPE then pure (some (Value.ArrayType out))
        else if r.Type = TypeTag.CONTINUE_TYPE then
          runForDictionaryLoop ev arguments body scope rest out
        else runForDictionaryLoop ev arguments body scope rest (out ++ [result])
    else pure none

/-- The method `runForDictionary` on the map reference. -/
def runForDictionary (h : Host) (ev : Eval) (arguments : List String) (body : Expr)
    (dictionary : Nat) (scope : Nat) : M DataType := do
  let entries ← rangeMap h dictionary
  runForDictionaryLoop ev arguments body scope entries []

/-- The method `runFor`. -/
def runFor (h : Host) (ev : Eval) (arguments : List String) (enumerable body : Expr)
    (scope : Nat) : M DataType := do
  let enumObj ← ev enumerable scope
  match enumObj with
  | none => pure none
  | some (Value.ArrayType elements) => do
    let child ← NewScopeFrom scope
    runForArray ev arguments body elements child
  | some (Value.DictionaryType pairs) => do
    let child ← NewScopeFrom scope
    runForDictionary h ev arguments body pairs child
  | some (Value.StringType _ value) => do
    let elements ← stringToArray value
    let child ← NewScopeFrom scope
    runForArray ev arguments body elements child
  | some (Value.AtomType value) => do
    let _ ← newString value
    let elements ← stringToArray value
    let child ← NewScopeFrom scope
    runForArray ev arguments body elements child
  | some other => do
    reportError ("Type " ++ h.typeName other.Type ++ " is not an enumerable")
    pure none

/-- The argument loop of `runFunction`: each argument is evaluated in the caller's
scope and, unless it is `nil`, written into the function's scope under the parameter
name of its position. -/
def runFunctionArguments (ev : Eval) (scope fnScope : Nat) : List Expr → List String → M Unit
  | [], _ => pure ()
  | element :: rest, parameters => do
    let value ← ev element scope
    match value with
    | some _ =>
      match parameters with
      | p :: _ => writeScope fnScope p value
      | [] => throwPanic "runtime error: index out of range"
    | none => pure ()
    runFunctionArguments ev scope fnScope rest parameters.tail

/-- The body loop of `runFunction`: the statements run in the function's own scope; a
statement whose result is a function gets that scope merged into the function's scope. -/
def runFunctionBody (ev : Eval) (fnScope : Nat) : List Expr → DataType → M DataType
  | [], result => pure result
  | statement :: rest, _ => do
    let result ← ev statement fnScope
    match result with
    | none => pure none
    | some r => do
      match r with
      | Value.FunctionType _ _ inner => mergeScope inner fnScope
      | _ => pure ()
      if shouldBreakImmediately r then pure result
      else runFunctionBody ev fnScope rest result

/-- The method `runFunction` for a callee that is not a module access (calls into the
standard library and into modules are outside this embedding). -/
def runFunction (h : Host) (ev : Eval) (function : Expr) (arguments : List Expr) (scope : Nat) :
    M DataType := do
  let fn ← ev function scope
  match fn with
  | none => pure none
  | some (Value.FunctionType parameters body fnScope) =>
    if arguments.length > parameters.length then do
      reportError "Too many arguments in function call"
      pure none
    else if arguments.length < parameters.length then do
      reportError "Too few arguments in function call"
      pure none
    else do
      let st ← getState
      match st.functions.lookup (h.Inspect st.maps (Value.FunctionType parameters body fnScope)) with
      | some v => writeScope fnScope v fn
      | none => pure ()
      runFunctionArguments ev scope fnScope arguments parameters
      let result ← runFunctionBody ev fnScope body none
      pure (unwrapReturnValue result)
  | some _ => do
    reportError "Trying to call a non-function"
    pure none

/-- The method `runSubscript`. -/
def runSubscript (h : Host) (ev : Eval) (leftNode indexNode : Expr) (scope : Nat) : M DataType := do
  let left ← ev leftNode scope
  let index ← ev indexNode scope
  match left, index with
  | some (Value.ArrayType elements), some (Value.IntegerType idx) => do
    let result ← runArraySubscript elements idx
    reportAndReturn result
  | some (Value.DictionaryType pairs), some (Value.StringType _ key) => do
    let result ← runDictionarySubscript h pairs key
    reportAndReturn result
  | some (Value.StringType _ value), some (Value.IntegerType idx) => do
    let result ← runStringSubscript value idx
    reportAndReturn result
  | some (Value.AtomType value), some (Value.IntegerType idx) => do
    let _ ← newString value
    let result ← runStringSubscript value idx
    reportAndReturn result
  | some l, some r => do
    reportError ("Subscript on '" ++ h.typeName l.Type ++ "' not supported with literal '" ++
      h.typeName r.Type ++ "'")
    pure none
  | _, _ => pure none

/-- The method `runPrefix`. -/
def runPrefix (ev : Eval) (operator : String) (right : Expr) (scope : Nat) : M DataType := do
  let evaluated ← ev right scope
  match evaluated with
  | none => do
    reportError ("Trying to run operator '" ++ operator ++ "' with an unknown value")
    pure none
  | some object =>
    match operator with
    | "!" => do
      let truthy ← isTruthy evaluated
      pure (some (nativeToBoolean (!truthy)))
    | "-" => reportAndReturn (runMinusPrefix object)
    | "~" => reportAndReturn (runBitwiseNotPrefix object)
    | _ => reportAndReturn (none, some "Unsupported prefix operator")

/-- The method `runInfix`. -/
def runInfix (h : Host) (ev : Eval) (operator : String) (leftNode rightNode : Expr) (scope : Nat) :
    M DataType := do
  let left ← ev leftNode scope
  let right ← ev rightNode scope
  match left, right with
  | some l, some r => do
    let result ← match l, r with
      | Value.IntegerType a, Value.IntegerType b => runIntegerInfix h operator a b
      | Value.FloatType a, Value.FloatType b => runFloatInfix h operator a b
      | Value.FloatType a, Value.IntegerType b => runFloatInfix h operator a (Float64.ofInt b)
      | Value.IntegerType a, Value.FloatType b => runFloatInfix h operator (Float64.ofInt a) b
      | Value.StringType _ a, Value.StringType _ b => runStringInfix operator a b
      | Value.AtomType a, Value.AtomType b => runStringInfix operator a b
      | Value.AtomType a, Value.StringType _ b => runStringInfix operator a b
      | Value.StringType _ a, Value.AtomType b => runStringInfix operator a b
      | Value.BooleanType a, Value.BooleanType b => runBooleanInfix operator a b
      | Value.ArrayType a, Value.ArrayType b => runArrayInfix h operator a b
      | Value.DictionaryType a, Value.DictionaryType b => runDictionaryInfix h operator a b
      | _, _ =>
        if l.Type ≠ r.Type then
          pure (none, some ("Cannot run expression with types '" ++ h.typeName l.Type ++
            "' and '" ++ h.typeName r.Type ++ "'"))
        else
          pure (none, some ("Uknown operator " ++ operator ++ " for types '" ++
            h.typeName l.Type ++ "' and '" ++ h.typeName r.Type ++ "'"))
    reportAndReturn result
  | _, _ => do
    reportError ("Trying to run operator '" ++ operator ++ "' with unknown value")
    pure none

/-- The method `Interpret` for the node kinds of `Expr`.  The first argument bounds the
depth of the recursion; when it is used up the evaluation stops with `outOfFuel`. -/
def Interpret (h : Host) : Nat → Expr → Nat → M DataType
  | 0, _, _ => fun _ => Res.fault Fault.outOfFuel
  | fuel + 1, node, scope =>
    match node with
    | Expr.Program statements => runProgram (Interpret h fuel) scope statements none
    | Expr.Identifier value => runIdentifier value scope
    | Expr.Let name value => runLet h (Interpret h fuel) name value scope
    | Expr.String value => do
      let str ← newString value
      pure (some str)
    | Expr.Atom value => pure (some (Value.AtomType value))
    | Expr.Integer value => pure (some (Value.IntegerType value))
    | Expr.Float value => pure (some (Value.FloatType value))
    | Expr.Boolean value => pure (some (nativeToBoolean value))
    | Expr.Array elements => runArray (Interpret h fuel) elements scope
    | Expr.Dictionary pairs => runDictionary (Interpret h fuel) pairs scope
    | Expr.ExpressionStatement expression => Interpret h fuel expression scope
    | Expr.BlockStatement statements =>
      runBlockStatement (Interpret h fuel) scope statements none
    | Expr.PrefixExpression operator right => runPrefix (Interpret h fuel) operator right scope
    | Expr.InfixExpression operator left right =>
      runInfix h (Interpret h fuel) operator left right scope
    | Expr.If condition then_ else_ => runIf (Interpret h fuel) condition then_ else_ scope
    | Expr.Switch control cases default =>
      runSwitch h (Interpret h fuel) control cases default scope
    | Expr.For arguments enumerable body =>
      runFor h (Interpret h fuel) arguments enumerable body scope
    | Expr.Function parameters body => do
      let fresh ← NewScope
      pure (some (Value.FunctionType parameters body fresh))
    | Expr.FunctionCall function arguments =>
      runFunction h (Interpret h fuel) function arguments scope
    | Expr.Subscript left index => runSubscript h (Interpret h fuel) left index scope
    | Expr.Return value => do
      let payload ← Interpret h fuel value scope
      pure (some (Value.ReturnType payload))
    | Expr.Break => pure (some Value.BreakType)
    | Expr.Continue => pure (some Value.ContinueType)
    | Expr.Placeholder => pure (some Value.PlaceholderType)

/-- The Array loop of `typeToExpression`: the elements are converted in order; the first
one that cannot be converted makes the whole conversion fail. -/
def typeToExpressionList (convert : DataType → M (Option Expr)) :
    List DataType → List Expr → M (Option (List Expr))
  | [], elements => pure (some elements)
  | v :: rest, elements => do
    let result ← convert v
    match result with
    | none => pure none
    | some e => typeToExpressionList convert rest (elements ++ [e])

/-- The Dictionary loop of `typeToExpression` over the entries in the order of the
`range`: each entry becomes a pair of a new String node with the key's text and the
converted value.  The pairs are listed in the order in which they are added to the
node's map. -/
def typeToExpressionPairs (convert : DataType → M (Option Expr)) :
    GoMap → List (Expr × Expr) → M (Option (List (Expr × Expr)))
  | [], pairs => pure (some pairs)
  | (k, v) :: rest, pairs => do
    let result ← convert v
    match result with
    | none => pure none
    | some e => typeToExpressionPairs convert rest (pairs ++ [(Expr.String k.Value, e)])

/-- The method `typeToExpression`; `none` is the `nil` it returns for a value it does not
convert.  The first argument bounds the depth of the recursion, which follows the
nesting of the value through the heap. -/
def typeToExpression (h : Host) : Nat → DataType → M (Option Expr)
  | 0, _ => fun _ => Res.fault Fault.outOfFuel
  | fuel + 1, object =>
    match object with
    | some (Value.IntegerType value) => pure (some (Expr.Integer value))
    | some (Value.FloatType value) => pure (some (Expr.Float value))
    | some (Value.StringType _ value) => pure (some (Expr.String value))
    | some (Value.AtomType value) => pure (some (Expr.Atom value))
    | some (Value.ArrayType elements) => do
      let result ← typeToExpressionList (typeToExpression h fuel) elements []
      pure (result.map Expr.Array)
    | some (Value.DictionaryType pairs) => do
      let entries ← rangeMap h pairs
      let result ← typeToExpressionPairs (typeToExpression h fuel) entries []
      pure (result.map Expr.Dictionary)
    | _ => pure none

/-- The method `runPipe` on the two fields `Left` and `Right` of a Pipe node.  The source
assigns the lengthened argument list to the right-hand FunctionCall node itself; a tree
of `Expr` cannot be assigned to, so the right-hand node as the evaluation leaves it is
returned next to the result, and a later evaluation of the same Pipe node is a call with
that node.  `depth` bounds the recursion of `typeToExpression`. -/
def runPipe (h : Host) (ev : Eval) (depth : Nat) (left right : Expr) (scope : Nat) :
    M (DataType × Expr) := do
  let l ← ev left scope
  let argument ← typeToExpression h depth l
  match argument with
  | none => pure (none, right)
  | some arg =>
    match right with
    | Expr.FunctionCall function arguments => do
      let result ← ev (Expr.FunctionCall function (arg :: arguments)) scope
      pure (result, Expr.FunctionCall function (arg :: arguments))
    | _ => pure (none, right)

/-- The state of a fresh interpreter together with one empty top-level scope, which has
the reference `0`. -/
def initialState : State :=
  { scopes := [{ store := [], parent := none }], maps := [], nextAddr := 0,
    functions := [], errors := [], ranges := 0 }

/-! ## A sample host

The theorems below hold for every `Host`.  Closed examples need one host to run on; this
one renders values in a simple bracketed form, ranges over a map in stored order and
answers the conversions and library calls it is not asked about with fixed values. -/

mutual
/-- A sample canonical rendering of a value, standing in for `Inspect`. -/
def sampleInspect (maps : List GoMap) : Value → String
  | Value.IntegerType v => toString v
  | Value.FloatType _ => "float"
  | Value.StringType _ v => v
  | Value.AtomType v => ":" ++ v
  | Value.BooleanType v => toString v
  | Value.ArrayType es => "[" ++ sampleInspectList maps es ++ "]"
  | Value.DictionaryType _ => "dictionary"
  | Value.FunctionType _ _ _ => "function"
  | Value.NilType => "nil"
  | Value.ReturnType none => "return"
  | Value.ReturnType (some v) => sampleInspect maps v
  | Value.BreakType => "break"
  | Value.ContinueType => "continue"
  | Value.PlaceholderType => "_"
/-- The rendering of the elements of an array, standing in for `Inspect`. -/
def sampleInspectList (maps : List GoMap) : List (Option Value) → String
  | [] => ""
  | none :: rest => "nil, " ++ sampleInspectList maps rest
  | some v :: rest => sampleInspect maps v ++ ", " ++ sampleInspectList maps rest
end

/-- A sample text for each type tag. -/
def sampleTypeName : TypeTag → String
  | TypeTag.INTEGER_TYPE => "Integer"
  | TypeTag.FLOAT_TYPE => "Float"
  | TypeTag.STRING_TYPE => "String"
  | TypeTag.ATOM_TYPE => "Atom"
  | TypeTag.BOOLEAN_TYPE => "Boolean"
  | TypeTag.ARRAY_TYPE => "Array"
  | TypeTag.DICTIONARY_TYPE => "Dictionary"
  | TypeTag.FUNCTION_TYPE => "Function"
  | TypeTag.NIL_TYPE => "Nil"
  | TypeTag.RETURN_TYPE => "Return"
  | TypeTag.BREAK_TYPE => "Break"
  | TypeTag.CONTINUE_TYPE => "Continue"
  | TypeTag.PLACEHOLDER_TYPE => "Placeholder"

/-- The sample host. -/
def sampleHost : Host :=
  { Inspect := sampleInspect
    typeName := sampleTypeName
    mathPow := fun _ _ => Float64.nan
    mathMod := fun _ _ => Float64.nan
    int64OfFloat := fun _ => -(2 ^ 63)
    rangeOrder := fun _ m => m
    rangeOrder_perm := fun _ m => List.Perm.refl m }

/-- The host `h` with its map `range` loops visiting the entries in reverse stored order. -/
def Host.reversed (h : Host) : Host :=
  { h with
    rangeOrder := fun _ m => m.reverse
    rangeOrder_perm := fun _ m => List.reverse_perm m }

/-- The host `h` with its map `range` loops visiting the entries in stored order. -/
def Host.stored (h : Host) : Host :=
  { h with
    rangeOrder := fun _ m => m
    rangeOrder_perm := fun _ m => List.Perm.refl m }

/-- The texts of the keys of a Go map. -/
def GoMap.keyTexts (m : GoMap) : List String := m.map (fun entry => entry.1.Value)



/-- The fault of a method call on a `nil` value. -/
def nilDereference : Fault :=
  Fault.panic "runtime error: invalid memory address or nil pointer dereference"

/-! ## Example programs -/

/-- The expression `["k": 1] + ["k": 2]`. -/
def mergeProgram : Expr :=
  Expr.InfixExpression "+"
    (Expr.Dictionary [(Expr.String "k", Expr.Integer 1)])
    (Expr.Dictionary [(Expr.String "k", Expr.Integer 2)])

/-- The expression `(["k": 1] + ["k": 2])["k"]`. -/
def mergeLookupProgram : Expr := Expr.Subscript mergeProgram (Expr.String "k")

/-- The dictionary literal `["a": 1, "a": 2]`. -/
def duplicateKeyLiteral : Expr :=
  Expr.Dictionary [(Expr.String "a", Expr.Integer 1), (Expr.String "a", Expr.Integer 2)]

/-- The program `let x = 1` followed by `if true { let x = 2 }`. -/
def shadowProgram : Expr :=
  Expr.Program
    [Expr.Let "x" (Expr.Integer 1),
     Expr.ExpressionStatement
      (Expr.If (Expr.Boolean true) (Expr.BlockStatement [Expr.Let "x" (Expr.Integer 2)]) none)]

/-- The function literal `fn() { a }`. -/
def innerFunction : Expr := Expr.Function [] [Expr.ExpressionStatement (Expr.Identifier "a")]

/-- The call `(fn(a) { fn() { a } })(1)`: the inner function is the value of the last
expression statement of the body. -/
def closureByExpression : Expr :=
  Expr.FunctionCall (Expr.Function ["a"] [Expr.ExpressionStatement innerFunction])
    [Expr.Integer 1]

/-- The call `(fn(a) { return fn() { a } })(1)`: the inner function is the payload of a
`return` statement. -/
def closureByReturn : Expr :=
  Expr.FunctionCall (Expr.Function ["a"] [Expr.Return innerFunction]) [Expr.Integer 1]

/-- The recursive call `fact(n - 1)`. -/
def factorialCall : Expr :=
  Expr.FunctionCall (Expr.Identifier "fact")
    [Expr.InfixExpression "-" (Expr.Identifier "n") (Expr.Integer 1)]

/-- The body `if n == 0 { 1 } else { product }` of the factorial function. -/
def factorialBody (product : Expr) : List Expr :=
  [Expr.ExpressionStatement
    (Expr.If (Expr.InfixExpression "==" (Expr.Identifier "n") (Expr.Integer 0))
      (Expr.BlockStatement [Expr.ExpressionStatement (Expr.Integer 1)])
      (some (Expr.BlockStatement [Expr.ExpressionStatement product])))]

/-- The program `let fact = fn(n) { if n == 0 { 1 } else { product } }` followed by the
call `fact(n)`. -/
def factorialProgram (product : Expr) (n : Int) : Expr :=
  Expr.Program
    [Expr.Let "fact" (Expr.Function ["n"] (factorialBody product)),
     Expr.ExpressionStatement (Expr.FunctionCall (Expr.Identifier "fact") [Expr.Integer n])]

/-- The product `n * fact(n - 1)`. -/
def productCallRight : Expr :=
  Expr.InfixExpression "*" (Expr.Identifier "n") factorialCall

/-- The product `fact(n - 1) * n`. -/
def productCallLeft : Expr :=
  Expr.InfixExpression "*" factorialCall (Expr.Identifier "n")

/-- The loop `for x in [1, 2, 3] { return x }`. -/
def forReturnArray : Expr :=
  Expr.For ["x"] (Expr.Array [Expr.Integer 1, Expr.Integer 2, Expr.Integer 3])
    (Expr.BlockStatement [Expr.Return (Expr.Identifier "x")])

/-- The loop `for x in ["a": 1, "b": 2] { return x }`. -/
def forReturnDictionary : Expr :=
  Expr.For ["x"]
    (Expr.Dictionary [(Expr.String "a", Expr.Integer 1), (Expr.String "b", Expr.Integer 2)])
    (Expr.BlockStatement [Expr.Return (Expr.Identifier "x")])

/-- The array literal `[[1], [2]]`. -/
def nestedControl : Expr :=
  Expr.Array [Expr.Array [Expr.Integer 1], Expr.Array [Expr.Integer 2]]

/-- The switch on `control` with the one case `values`, whose body is `1`, and the
default branch `0`. -/
def switchProgram (control : Expr) (values : List Expr) : Expr :=
  Expr.Switch (some control)
    [(values, Expr.BlockStatement [Expr.ExpressionStatement (Expr.Integer 1)])]
    (some (Expr.BlockStatement [Expr.ExpressionStatement (Expr.Integer 0)]))

/-- The state in which the top-level scope `0` binds `x` to `1` and scope `1` is a fresh
child of it, as `runIf` creates one for a branch. -/
def shadowState : State :=
  { initialState with
    scopes := [{ store := [("x", some (Value.IntegerType 1))], parent := none },
               { store := [], parent := some 0 }] }

/-- The value of the array literal `[[1], [2]]`. -/
def nestedControlValue : List DataType :=
  [some (Value.ArrayType [some (Value.IntegerType 1)]),
   some (Value.ArrayType [some (Value.IntegerType 2)])]

/-- The value of the array literal `[1, 2]`. -/
def pairControlValue : List DataType :=
  [some (Value.IntegerType 1), some (Value.IntegerType 2)]

/-- Whether a computation ended with the Integer `v`. -/
def Res.isInteger (r : Res DataType) (v : Int) : Bool :=
  match r with
  | Res.ok (some (Value.IntegerType x)) _ => x == v
  | _ => false

/-- The dictionary literal `["a": 1, "a": 1]`. -/
def repeatedEntryLiteral : Expr :=
  Expr.Dictionary [(Expr.String "a", Expr.Integer 1), (Expr.String "a", Expr.Integer 1)]

/-- The program `let d = ["a": 1, "a": 1]` followed by `d == d`. -/
def selfEqualityProgram : Expr :=
  Expr.Program
    [Expr.Let "d" repeatedEntryLiteral,
     Expr.ExpressionStatement
      (Expr.InfixExpression "==" (Expr.Identifier "d") (Expr.Identifier "d"))]

/-- The expression `["a": 1, "a": 1] == ["a": 1, "b": 2]`. -/
def unequalSetsProgram : Expr :=
  Expr.InfixExpression "==" repeatedEntryLiteral
    (Expr.Dictionary [(Expr.String "a", Expr.Integer 1), (Expr.String "b", Expr.Integer 2)])

/-- The program `let d = ["k": 1] + ["k": 1]` followed by `d == d`. -/
def mergedSelfEqualityProgram : Expr :=
  Expr.Program
    [Expr.Let "d" (Expr.InfixExpression "+"
      (Expr.Dictionary [(Expr.String "k", Expr.Integer 1)])
      (Expr.Dictionary [(Expr.String "k", Expr.Integer 1)])),
     Expr.ExpressionStatement
      (Expr.InfixExpression "==" (Expr.Identifier "d") (Expr.Identifier "d"))]

/-- The call `(fn() { break })()`. -/
def breakCall : Expr := Expr.FunctionCall (Expr.Function [] [Expr.Break]) []

/-- The call `(fn() { continue })()`. -/
def continueCall : Expr := Expr.FunctionCall (Expr.Function [] [Expr.Continue]) []

/-- The loop `for x in [1, 2, 3] { (fn() { break })() }`. -/
def forBreakCall : Expr :=
  Expr.For ["x"] (Expr.Array [Expr.Integer 1, Expr.Integer 2, Expr.Integer 3])
    (Expr.BlockStatement [Expr.ExpressionStatement breakCall])

/-- The call `(fn(a) { 7 })(y)`, with `y` not bound anywhere. -/
def unboundArgumentCall : Expr :=
  Expr.FunctionCall (Expr.Function ["a"] [Expr.ExpressionStatement (Expr.Integer 7)])
    [Expr.Identifier "y"]

/-- The call `(fn(f) { f(1); f(y) })(fn(a) { a })`, with `y` not bound anywhere. -/
def staleArgumentCall : Expr :=
  Expr.FunctionCall
    (Expr.Function ["f"]
      [Expr.ExpressionStatement (Expr.FunctionCall (Expr.Identifier "f") [Expr.Integer 1]),
       Expr.ExpressionStatement (Expr.FunctionCall (Expr.Identifier "f") [Expr.Identifier "y"])])
    [Expr.Function ["a"] [Expr.ExpressionStatement (Expr.Identifier "a")]]

/-- The program `let f = fn(a) { a }` followed by `f(1)` and `f(y)`, with `y` not bound
anywhere. -/
def staleArgumentProgram : Expr :=
  Expr.Program
    [Expr.Let "f" (Expr.Function ["a"] [Expr.ExpressionStatement (Expr.Identifier "a")]),
     Expr.ExpressionStatement (Expr.FunctionCall (Expr.Identifier "f") [Expr.Integer 1]),
     Expr.ExpressionStatement (Expr.FunctionCall (Expr.Identifier "f") [Expr.Identifier "y"])]

/-- The loop body `if x == 2 { continue } else { if x == 4 { break } else { x * 10 } }`. -/
def branchingBody : Expr :=
  Expr.BlockStatement [Expr.ExpressionStatement
    (Expr.If (Expr.InfixExpression "==" (Expr.Identifier "x") (Expr.Integer 2))
      (Expr.BlockStatement [Expr.Continue])
      (some (Expr.BlockStatement [Expr.ExpressionStatement
        (Expr.If (Expr.InfixExpression "==" (Expr.Identifier "x") (Expr.Integer 4))
          (Expr.BlockStatement [Expr.Break])
          (some (Expr.BlockStatement [Expr.ExpressionStatement
            (Expr.InfixExpression "*" (Expr.Identifier "x") (Expr.Integer 10))])))])))]

/-- The elements of the Array `[1, 2, 3, 4, 5]`. -/
def oneToFive : List DataType :=
  [some (Value.IntegerType 1), some (Value.IntegerType 2), some (Value.IntegerType 3),
   some (Value.IntegerType 4), some (Value.IntegerType 5)]

/-- The program `let x = 1` followed by `let x = 2`. -/
def redeclareProgram : Expr :=
  Expr.Program [Expr.Let "x" (Expr.Integer 1), Expr.Let "x" (Expr.Integer 2)]

/-- The program `let x = 1` followed by `let x = y`, with `y` not bound anywhere. -/
def redeclareUnboundProgram : Expr :=
  Expr.Program [Expr.Let "x" (Expr.Integer 1), Expr.Let "x" (Expr.Identifier "y")]

/-- The state in which the top-level scope `0` binds `x` to `1`. -/
def boundState : State :=
  { initialState with scopes := [{ store := [("x", some (Value.IntegerType 1))], parent := none }] }

/-- The expression `([y] + []) == ([y] + [])`, with `y` not bound anywhere. -/
def absentElementProgram : Expr :=
  Expr.InfixExpression "=="
    (Expr.InfixExpression "+" (Expr.Array [Expr.Identifier "y"]) (Expr.Array []))
    (Expr.InfixExpression "+" (Expr.Array [Expr.Identifier "y"]) (Expr.Array []))

/-- The program `let d = ["b": 2]`, then `["a": 1] + d`, then `d`. -/
def mergeOperandProgram : Expr :=
  Expr.Program
    [Expr.Let "d" (Expr.Dictionary [(Expr.String "b", Expr.Integer 2)]),
     Expr.ExpressionStatement
      (Expr.InfixExpression "+" (Expr.Dictionary [(Expr.String "a", Expr.Integer 1)])
        (Expr.Identifier "d")),
     Expr.ExpressionStatement (Expr.Identifier "d")]

/-- The cases `2 { 20 }` and `3, "a" { 30 }` of a switch. -/
def mixedCases : List (List Expr × Expr) :=
  [([Expr.Integer 2], Expr.BlockStatement [Expr.ExpressionStatement (Expr.Integer 20)]),
   ([Expr.Integer 3, Expr.String "a"],
    Expr.BlockStatement [Expr.ExpressionStatement (Expr.Integer 30)])]

/-- The call `(fn(a) { a })()`, written without its argument as the right-hand side of a
pipe. -/
def pipeTarget : Expr :=
  Expr.FunctionCall (Expr.Function ["a"] [Expr.ExpressionStatement (Expr.Identifier "a")]) []

/-- The right-hand node of the pipe `1 |> (fn(a) { a })()` after one evaluation of the
pipe: the call `(fn(a) { a })(1)`. -/
def pipeTargetAfter : Expr :=
  Expr.FunctionCall (Expr.Function ["a"] [Expr.ExpressionStatement (Expr.Identifier "a")])
    [Expr.Integer 1]

/-- A state whose heap holds the one map `["k": 7, "l": :x]`. -/
def nestedState : State :=
  { initialState with
    maps := [[(⟨0, "k"⟩, some (Value.IntegerType 7)), (⟨1, "l"⟩, some (Value.AtomType "x"))]]
    nextAddr := 3 }

/-- The value `[1, "s", d]` with `d` the Dictionary on map `0`. -/
def nestedValue : Value :=
  Value.ArrayType [some (Value.IntegerType 1), some (Value.StringType 2 "s"),
    some (Value.DictionaryType 0)]

/-- The literal node `[1, "s", ["k": 7, "l": :x]]`. -/
def nestedLiteral : Expr :=
  Expr.Array [Expr.Integer 1, Expr.String "s",
    Expr.Dictionary [(Expr.String "k", Expr.Integer 7), (Expr.String "l", Expr.Atom "x")]]

/-- The program `let d = ["a": 1]`, then `["b": d] + d`, then `d`. -/
def selfHoldingProgram : Expr :=
  Expr.Program
    [Expr.Let "d" (Expr.Dictionary [(Expr.String "a", Expr.Integer 1)]),
     Expr.ExpressionStatement
      (Expr.InfixExpression "+" (Expr.Dictionary [(Expr.String "b", Expr.Identifier "d")])
        (Expr.Identifier "d")),
     Expr.ExpressionStatement (Expr.Identifier "d")]

/-- The state that `selfHoldingProgram` leaves: the map `0` of `d` holds `d` itself under
the key `"b"`. -/
def selfHoldingState : State :=
  { scopes := [{ store := [("d", some (Value.DictionaryType 0))], parent := none }]
    maps := [[(⟨0, "a"⟩, some (Value.IntegerType 1)), (⟨1, "b"⟩, some (Value.DictionaryType 0))],
      [(⟨1, "b"⟩, some (Value.DictionaryType 0))]]
    nextAddr := 2
    functions := []
    errors := []
    ranges := 1 }

/-! ## Notions the properties are stated with

These definitions are not taken from the interpreter: they say, in the words of the
specification, what a result is to be, and the theorems compare the interpreter's
methods with them. -/

/-- The error of `runSwitchCase` for a case value that cannot be compared with the
control: it names the type of the case value and the type of the control. -/
def switchTypeError (h : Host) (parameter control : Value) : String :=
  "Type '" ++ h.typeName parameter.Type ++
    "' can't be used in a Switch case with control type '" ++ h.typeName control.Type ++ "'"

/-- The value is built only from Integer, Float, String, Atom, Array and Dictionary
variants, nested fewer than `n` levels deep; the entries of a Dictionary are read from
the heap of `st`. -/
def literalValue (st : State) : Nat → Value → Prop
  | 0, _ => False
  | n + 1, v =>
    match v with
    | Value.IntegerType _ => True
    | Value.FloatType _ => True
    | Value.StringType _ _ => True
    | Value.AtomType _ => True
    | Value.ArrayType elements => ∀ x ∈ elements, ∃ w, x = some w ∧ literalValue st n w
    | Value.DictionaryType pairs =>
      ∀ x ∈ st.mapAt pairs, ∃ w, x.2 = some w ∧ literalValue st n w
    | _ => False

/-- The literal node `e` writes out the value `v` of the heap of `st`: the same payload
for an Integer, Float, String or Atom, element by element for an Array, and for a
Dictionary one pair of a String node and a value node per entry, the entries taken in
any order. -/
def renders (st : State) : Nat → Value → Expr → Prop
  | 0, _, _ => False
  | n + 1, v, e =>
    match v, e with
    | Value.IntegerType a, Expr.Integer b => a = b
    | Value.FloatType a, Expr.Float b => a = b
    | Value.StringType _ a, Expr.String b => a = b
    | Value.AtomType a, Expr.Atom b => a = b
    | Value.ArrayType xs, Expr.Array es =>
      List.Forall₂ (fun x e => ∃ w, x = some w ∧ renders st n w e) xs es
    | Value.DictionaryType ref, Expr.Dictionary pairs =>
      ∃ entries, List.Perm entries (st.mapAt ref) ∧
        List.Forall₂ (fun (x : StringKey × DataType) (p : Expr × Expr) =>
          p.1 = Expr.String x.1.Value ∧ ∃ w, x.2 = some w ∧ renders st n w p.2) entries pairs
    | _, _ => False

/-- The value `v` of the heap of `st` and the value `v'` of the heap of `st'` have the
same type and the same content: the same payload for an Integer, Float or Atom, the same
text for a String, the same content element by element for Arrays, and for Dictionaries
the same content entry by entry, key text and value, for some order of the entries. -/
def sameContent (st st' : State) : Nat → Value → Value → Prop
  | 0, _, _ => False
  | n + 1, v, v' =>
    match v, v' with
    | Value.IntegerType a, Value.IntegerType b => a = b
    | Value.FloatType a, Value.FloatType b => a = b
    | Value.StringType _ a, Value.StringType _ b => a = b
    | Value.AtomType a, Value.AtomType b => a = b
    | Value.ArrayType xs, Value.ArrayType ys =>
      List.Forall₂ (fun x y => ∃ w w', x = some w ∧ y = some w' ∧ sameContent st st' n w w')
        xs ys
    | Value.DictionaryType ref, Value.DictionaryType ref' =>
      ref' < st'.maps.length ∧
      ∃ entries, List.Perm entries (st.mapAt ref) ∧
        List.Forall₂ (fun (x y : StringKey × DataType) =>
          x.1.Value = y.1.Value ∧
            ∃ w w', x.2 = some w ∧ y.2 = some w' ∧ sameContent st st' n w w')
          entries (st'.mapAt ref')
    | _, _ => False

/-- What evaluating a literal node does to the state besides the value it returns: the
maps of the heap are kept and new ones follow them, the address counter does not go
back, and errors and scopes stay. -/
def State.grows (st st' : State) : Prop :=
  st.maps <+: st'.maps ∧ st.nextAddr ≤ st'.nextAddr ∧ st'.errors = st.errors ∧
    st'.scopes = st.scopes

/-- The state in which the arguments of a call are evaluated: when the function is
registered under a name, its scope holds the function under that name. -/
def State.withOwnName (h : Host) (st : State) (fn : Value) (fnScope : Nat) : State :=
  match st.functions.lookup (h.Inspect st.maps fn) with
  | some v => st.Write fnScope v (some fn)
  | none => st

/-- The state after a statement of a function body yielded `r`: a result that is a
function has the scope of the running function merged into its own. -/
def State.afterStatement (st : State) (fnScope : Nat) : Value → State
  | Value.FunctionType _ _ inner => st.Merge inner fnScope
  | _ => st

/-- The statements of a function body run one after the other in the function's scope
from `st` to `st'`, each yielding a result that is no Return, Break or Continue signal;
`last` is the result of the last one. -/
def bodyStepsThrough (ev : Eval) (fnScope : Nat) :
    List Expr → DataType → State → DataType → State → Prop
  | [], result, st, last, st' => last = result ∧ st' = st
  | s :: rest, _, st, last, st' =>
    ∃ r st1, ev s fnScope st = Res.ok (some r) st1 ∧ shouldBreakImmediately r = false ∧
      bodyStepsThrough ev fnScope rest (some r) (st1.afterStatement fnScope r) last st'

/-- Whether the test `lk.Value == rk.Value && lv.Inspect() == rv.Inspect()` of
`compareDictionaries` holds for a left and a right entry whose values are not `nil`. -/
def entryMatches (h : Host) (maps : List GoMap) (l r : StringKey × DataType) : Bool :=
  match l.2, r.2 with
  | some a, some b => decide (l.1.Value = r.1.Value ∧ h.Inspect maps a = h.Inspect maps b)
  | _, _ => false

/-- The number of pairs of a left and a right entry for which the test holds. -/
def matchCount (h : Host) (maps : List GoMap) (left right : GoMap) : Nat :=
  (left.map (fun l => right.countP (entryMatches h maps l))).sum

/-- The content of a dictionary entry: the text of its key and the rendering of its
value. -/
def entryContent (h : Host) (maps : List GoMap) (e : StringKey × DataType) :
    String × Option String :=
  (e.1.Value, e.2.map (h.Inspect maps))

/-- The one-character strings for the given characters, allocated one after the other
from the address `addr` on. -/
def freshStrings : Nat → List Char → List DataType
  | _, [] => []
  | addr, c :: rest => some (Value.StringType addr (String.singleton c)) :: freshStrings (addr + 1) rest

/-- The stretch of the alphabet from `l` to `r`, both included: in alphabet order when
`l` is not after `r`, in reverse alphabet order otherwise. -/
def alphabetStretch (l r : Char) : List Char :=
  let i := alphabet.data.indexOf l
  let j := alphabet.data.indexOf r
  if i ≤ j then (alphabet.data.drop i).take (j + 1 - i)
  else ((alphabet.data.drop j).take (i + 1 - j)).reverse

/-- The `n` Integers `a, a + 1, a + 2, …`. -/
def countUp (a : Int) (n : Nat) : List DataType :=
  (List.range n).map (fun (k : Nat) => some (Value.IntegerType (a + (k : Int))))

/-- The `n` Integers `a, a - 1, a - 2, …`. -/
def countDown (a : Int) (n : Nat) : List DataType :=
  (List.range n).map (fun (k : Nat) => some (Value.IntegerType (a - (k : Int))))

/-- The Integers from `a` to `b`, both included, in steps of one: upward when `a ≤ b`,
downward otherwise. -/
def integerRange (a b : Int) : List DataType :=
  if a ≤ b then countUp a (b - a + 1).toNat else countDown a (a - b + 1).toNat

/-- The state in which the body of one iteration of `runForArray` runs: the state `st`
with the loop's one or two bindings written into the loop scope. -/
def forArrayBindings (arguments : List String) (scope : Nat) (idx : Nat) (v : DataType)
    (st : State) : State :=
  match arguments with
  | [a] => st.Write scope a v
  | [a, b] => (st.Write scope a (some (Value.IntegerType idx))).Write scope b v
  | _ => st

/-- The body of the loop yields `results`, one value per iteration that runs: iteration
after iteration, each from the state the one before left, up to and including the first
iteration that yields Break or, without one, through all the elements. -/
def bodyYields (ev : Eval) (arguments : List String) (body : Expr) (scope : Nat) :
    List DataType → Nat → State → List Value → Prop
  | [], _, _, results => results = []
  | _ :: _, _, _, [] => False
  | v :: rest, idx, st, r :: results =>
    ∃ st1, ev body scope (forArrayBindings arguments scope idx v st) = Res.ok (some r) st1 ∧
      (if r.Type = TypeTag.BREAK_TYPE then results = []
       else bodyYields ev arguments body scope rest (idx + 1) st1 results)

/-- The Array a `for` loop is to return for the results of its iterations: the results
before the first Break, without the Continue signals. -/
def forOutput (results : List Value) : List DataType :=
  ((results.takeWhile (fun r => decide (r.Type ≠ TypeTag.BREAK_TYPE))).filter
    (fun r => decide (r.Type ≠ TypeTag.CONTINUE_TYPE))).map some

/-! ## Integer division (`runIntegerInfix`, operator `/`) -/

theorem ilog2Aux_spec (fuel : Nat) : ∀ n : Nat, n ≤ fuel → 0 < n →
    2 ^ ilog2Aux fuel n ≤ n ∧ n < 2 ^ (ilog2Aux fuel n + 1) := by
  induction fuel with
  | zero => intro n h1 h2; omega
  | succ fuel ih =>
    intro n h1 h2
    unfold ilog2Aux
    by_cases hn : n < 2
    · have : n = 1 := by omega
      subst this
      simp
    · rw [if_neg hn]
      have hle : n / 2 ≤ fuel := by omega
      have hpos : 0 < n / 2 := by omega
      obtain ⟨ih1, ih2⟩ := ih (n / 2) hle hpos
      rw [pow_succ] at ih2 ⊢
      rw [pow_succ]
      constructor <;> omega

theorem ilog2_spec (n : Nat) (hn : 0 < n) : 2 ^ ilog2 n ≤ n ∧ n < 2 ^ (ilog2 n + 1) :=
  ilog2Aux_spec n n le_rfl hn

theorem two_zpow_split (k : Int) :
    (2 : ℚ) ^ k = (2 : ℚ) ^ k.toNat / (2 : ℚ) ^ (-k).toNat := by
  rcases le_total 0 k with hk | hk
  · have h1 : (-k).toNat = 0 := by omega
    rw [h1, pow_zero, div_one, ← zpow_natCast, Int.toNat_of_nonneg hk]
  · have h1 : k.toNat = 0 := by omega
    have h2 : ((-k).toNat : Int) = -k := Int.toNat_of_nonneg (by omega)
    rw [h1, pow_zero, one_div, ← zpow_natCast, h2, zpow_neg, inv_inv]

theorem ratLog2_spec (N D : Nat) (hN : 0 < N) (hD : 0 < D) :
    (2 : ℚ) ^ ratLog2 N D ≤ (N : ℚ) / D ∧ (N : ℚ) / D < (2 : ℚ) ^ (ratLog2 N D + 1) := by
  obtain ⟨n1, n2⟩ := ilog2_spec N hN
  obtain ⟨d1, d2⟩ := ilog2_spec D hD
  have hDq : (0 : ℚ) < D := by exact_mod_cast hD
  have hNq : (0 : ℚ) < N := by exact_mod_cast hN
  have n1q : (2 : ℚ) ^ (ilog2 N : Int) ≤ N := by rw [zpow_natCast]; exact_mod_cast n1
  have n2q : (N : ℚ) < (2 : ℚ) ^ ((ilog2 N : Int) + 1) := by
    rw [← Nat.cast_succ, zpow_natCast]; exact_mod_cast n2
  have d1q : (2 : ℚ) ^ (ilog2 D : Int) ≤ D := by rw [zpow_natCast]; exact_mod_cast d1
  have d2q : (D : ℚ) < (2 : ℚ) ^ ((ilog2 D : Int) + 1) := by
    rw [← Nat.cast_succ, zpow_natCast]; exact_mod_cast d2
  have two_pos : ∀ z : Int, (0 : ℚ) < (2 : ℚ) ^ z := fun z => zpow_pos (by norm_num) z
  have two_ne : (2 : ℚ) ≠ 0 := by norm_num
  set k : Int := (ilog2 N : Int) - (ilog2 D : Int) with hk
  have upper : (N : ℚ) / D < (2 : ℚ) ^ (k + 1) := by
    rw [div_lt_iff₀ hDq]
    calc (N : ℚ) < (2 : ℚ) ^ ((ilog2 N : Int) + 1) := n2q
      _ = (2 : ℚ) ^ (k + 1) * (2 : ℚ) ^ (ilog2 D : Int) := by
          rw [← zpow_add₀ two_ne]; congr 1; omega
      _ ≤ (2 : ℚ) ^ (k + 1) * D := by
          apply mul_le_mul_of_nonneg_left d1q (two_pos _).le
  have lower : (2 : ℚ) ^ (k - 1) ≤ (N : ℚ) / D := by
    rw [le_div_iff₀ hDq]
    calc (2 : ℚ) ^ (k - 1) * D ≤ (2 : ℚ) ^ (k - 1) * (2 : ℚ) ^ ((ilog2 D : Int) + 1) := by
          apply mul_le_mul_of_nonneg_left d2q.le (two_pos _).le
      _ = (2 : ℚ) ^ (ilog2 N : Int) := by
          rw [← zpow_add₀ two_ne]; congr 1; omega
      _ ≤ N := n1q
  have cond : (D * 2 ^ k.toNat ≤ N * 2 ^ (-k).toNat) ↔ (2 : ℚ) ^ k ≤ (N : ℚ) / D := by
    have hp : (0 : ℚ) < (2 : ℚ) ^ (-k).toNat := pow_pos (by norm_num) _
    rw [two_zpow_split k, le_div_iff₀ hDq, div_mul_eq_mul_div, div_le_iff₀ hp]
    constructor
    · intro h
      have : ((D * 2 ^ k.toNat : Nat) : ℚ) ≤ ((N * 2 ^ (-k).toNat : Nat) : ℚ) := by exact_mod_cast h
      push_cast at this
      linarith
    · intro h
      have : ((D * 2 ^ k.toNat : Nat) : ℚ) ≤ ((N * 2 ^ (-k).toNat : Nat) : ℚ) := by
        push_cast; linarith
      exact_mod_cast this
  unfold ratLog2
  simp only [← hk]
  by_cases hc : D * 2 ^ k.toNat ≤ N * 2 ^ (-k).toNat
  · rw [if_pos hc]
    exact ⟨cond.mp hc, upper⟩
  · rw [if_neg hc]
    refine ⟨lower, ?_⟩
    have : ¬ (2 : ℚ) ^ k ≤ (N : ℚ) / D := fun h => hc (cond.mpr h)
    have e : k - 1 + 1 = k := by omega
    rw [e]
    exact lt_of_not_le this

theorem roundHalfEven_spec (N D : Nat) (hD : 0 < D) :
    |((roundHalfEven N D : Nat) : ℚ) - (N : ℚ) / D| ≤ 1 / 2 := by
  have hDq : (0 : ℚ) < D := by exact_mod_cast hD
  have hdecomp : (N : ℚ) / D = (N / D : Nat) + ((N % D : Nat) : ℚ) / D := by
    have := Nat.div_add_mod N D
    have h2 : ((D * (N / D) + N % D : Nat) : ℚ) = N := by exact_mod_cast this
    push_cast at h2
    field_simp
    linarith
  have hr : N % D < D := Nat.mod_lt N hD
  have hrq : ((N % D : Nat) : ℚ) < D := by exact_mod_cast hr
  have hr0 : (0 : ℚ) ≤ ((N % D : Nat) : ℚ) := by positivity
  unfold roundHalfEven
  simp only
  rw [hdecomp]
  by_cases h1 : 2 * (N % D) < D
  · rw [if_pos h1]
    have h1q : 2 * ((N % D : Nat) : ℚ) < D := by exact_mod_cast h1
    rw [abs_le]
    constructor
    · have : ((N % D : Nat) : ℚ) / D ≤ 1 / 2 := by
        rw [div_le_iff₀ hDq]; linarith
      linarith
    · have : 0 ≤ ((N % D : Nat) : ℚ) / D := by positivity
      linarith
  · rw [if_neg h1]
    have h1q : (D : ℚ) ≤ 2 * ((N % D : Nat) : ℚ) := by
      have : D ≤ 2 * (N % D) := by omega
      exact_mod_cast this
    have hge : 1 / 2 ≤ ((N % D : Nat) : ℚ) / D := by
      rw [le_div_iff₀ hDq]; linarith
    have hle : ((N % D : Nat) : ℚ) / D < 1 := by
      rw [div_lt_iff₀ hDq]; linarith
    by_cases h2 : D < 2 * (N % D)
    · rw [if_pos h2]
      push_cast
      rw [abs_le]
      constructor <;> linarith
    · rw [if_neg h2]
      have heq : ((N % D : Nat) : ℚ) / D = 1 / 2 := by
        have : D = 2 * (N % D) := by omega
        have tq : (D : ℚ) = 2 * ((N % D : Nat) : ℚ) := by exact_mod_cast this
        rw [div_eq_iff hDq.ne']; linarith
      split
      · rw [abs_le]; constructor <;> linarith
      · push_cast; rw [abs_le]; constructor <;> linarith

theorem roundHalfEven_mul (c D : Nat) (hD : 0 < D) : roundHalfEven (c * D) D = c := by
  unfold roundHalfEven
  simp only [Nat.mul_mod_left, Nat.mul_zero]
  rw [if_pos hD]
  exact Nat.mul_div_cancel c hD

theorem scaled_eq (N D : Nat) (t : Int) :
    (((N * 2 ^ t.toNat : Nat) : ℚ)) / ((D * 2 ^ (-t).toNat : Nat) : ℚ) =
      (N : ℚ) / D * (2 : ℚ) ^ t := by
  rw [two_zpow_split t]
  push_cast
  rw [mul_div_mul_comm]

theorem round_spec (neg : Bool) (N D : Nat) (s : Int) (hN : 0 < N) (hD : 0 < D)
    (hlo : (2 : ℚ) ^ (-1022 : Int) ≤ (N : ℚ) / D * (2 : ℚ) ^ s)
    (hhi : (N : ℚ) / D * (2 : ℚ) ^ s < (2 : ℚ) ^ (1023 : Int)) :
    ∃ (m : Nat) (e : Int),
      Float64.round neg N D s = Float64.finite (Float64.signed neg m) e ∧
      (2 : ℚ) ^ (e + 52) ≤ (N : ℚ) / D * (2 : ℚ) ^ s ∧
      |(m : ℚ) * (2 : ℚ) ^ e - (N : ℚ) / D * (2 : ℚ) ^ s| ≤ (2 : ℚ) ^ e / 2 ∧
      (∀ c : Nat, (N : ℚ) / D * (2 : ℚ) ^ s = (c : ℚ) * (2 : ℚ) ^ e → m = c) := by
  obtain ⟨l1, l2⟩ := ratLog2_spec N D hN hD
  have two_ne : (2 : ℚ) ≠ 0 := by norm_num
  have one_lt : (1 : ℚ) < 2 := by norm_num
  have two_pos : ∀ z : Int, (0 : ℚ) < (2 : ℚ) ^ z := fun z => zpow_pos (by norm_num) z
  set L := ratLog2 N D with hL
  have x1 : (2 : ℚ) ^ (L + s) ≤ (N : ℚ) / D * (2 : ℚ) ^ s := by
    rw [zpow_add₀ two_ne]
    exact mul_le_mul_of_nonneg_right l1 (two_pos s).le
  have x2 : (N : ℚ) / D * (2 : ℚ) ^ s < (2 : ℚ) ^ (L + s + 1) := by
    have : L + s + 1 = (L + 1) + s := by omega
    rw [this, zpow_add₀ two_ne]
    exact mul_lt_mul_of_pos_right l2 (two_pos s)
  have hL1 : -1022 ≤ L + s := by
    have := lt_of_le_of_lt hlo x2
    rw [zpow_lt_zpow_iff_right₀ one_lt] at this
    omega
  have hL2 : L + s < 1023 := by
    have := lt_of_le_of_lt x1 hhi
    rwa [zpow_lt_zpow_iff_right₀ one_lt] at this
  have he : max (L + s - 52) (-1074) = L + s - 52 := max_eq_left (by omega)
  set e : Int := L + s - 52 with hedef
  set t : Int := s - e with htdef
  have hD' : 0 < D * 2 ^ (-t).toNat := Nat.mul_pos hD (pow_pos (by norm_num) _)
  refine ⟨roundHalfEven (N * 2 ^ t.toNat) (D * 2 ^ (-t).toNat), e, ?_, ?_, ?_, ?_⟩
  · unfold Float64.round
    rw [if_neg (Nat.pos_iff_ne_zero.mp hN)]
    simp only [← hL, he, ← hedef, ← htdef]
    rw [if_neg]
    intro h
    rcases h with h | ⟨h, _⟩ <;> omega
  · have : e + 52 = L + s := by omega
    rw [this]; exact x1
  · have hy := roundHalfEven_spec (N * 2 ^ t.toNat) (D * 2 ^ (-t).toNat) hD'
    rw [scaled_eq] at hy
    have hsplit : (N : ℚ) / D * (2 : ℚ) ^ s = ((N : ℚ) / D * (2 : ℚ) ^ t) * (2 : ℚ) ^ e := by
      rw [mul_assoc, ← zpow_add₀ two_ne]; congr 2; omega
    rw [hsplit, ← sub_mul, abs_mul, abs_of_pos (two_pos e)]
    calc _ ≤ 1 / 2 * (2 : ℚ) ^ e := mul_le_mul_of_nonneg_right hy (two_pos e).le
      _ = (2 : ℚ) ^ e / 2 := by ring
  · intro c hc
    have hsplit : (N : ℚ) / D * (2 : ℚ) ^ s = ((N : ℚ) / D * (2 : ℚ) ^ t) * (2 : ℚ) ^ e := by
      rw [mul_assoc, ← zpow_add₀ two_ne]; congr 2; omega
    rw [hsplit] at hc
    have hy : (N : ℚ) / D * (2 : ℚ) ^ t = c := mul_right_cancel₀ (two_pos e).ne' hc
    rw [← scaled_eq] at hy
    have hD'q : ((D * 2 ^ (-t).toNat : Nat) : ℚ) ≠ 0 := by exact_mod_cast hD'.ne'
    rw [div_eq_iff hD'q] at hy
    have hnat : N * 2 ^ t.toNat = c * (D * 2 ^ (-t).toNat) := by exact_mod_cast hy
    rw [hnat]
    exact roundHalfEven_mul c _ hD'

theorem round_nat_exact (neg : Bool) (N D : Nat) (s : Int) (hN : 0 < N) (hD : 0 < D)
    (n : Nat) (hn1 : 1 ≤ n) (hn2 : n ≤ 2 ^ 53) (hx : (N : ℚ) / D * (2 : ℚ) ^ s = n) :
    ∃ (m : Nat) (e : Int),
      Float64.round neg N D s = Float64.finite (Float64.signed neg m) e ∧
      (m : ℚ) * (2 : ℚ) ^ e = n := by
  have one_lt : (1 : ℚ) < 2 := by norm_num
  have two_ne : (2 : ℚ) ≠ 0 := by norm_num
  have hn1q : (1 : ℚ) ≤ n := by exact_mod_cast hn1
  have hn2q : (n : ℚ) ≤ (2 : ℚ) ^ (53 : Int) := by
    have h1 : (n : ℚ) ≤ ((2 ^ 53 : Nat) : ℚ) := by exact_mod_cast hn2
    have h2 : (((2 ^ 53 : Nat) : ℚ)) = (2 : ℚ) ^ (53 : Int) := by norm_num
    rw [h2] at h1; exact h1
  have hlo : (2 : ℚ) ^ (-1022 : Int) ≤ (N : ℚ) / D * (2 : ℚ) ^ s := by
    rw [hx]
    calc (2 : ℚ) ^ (-1022 : Int) ≤ (2 : ℚ) ^ (0 : Int) :=
          zpow_le_zpow_right₀ one_lt.le (by norm_num)
      _ = 1 := zpow_zero _
      _ ≤ n := hn1q
  have hhi : (N : ℚ) / D * (2 : ℚ) ^ s < (2 : ℚ) ^ (1023 : Int) := by
    rw [hx]
    exact lt_of_le_of_lt hn2q (zpow_lt_zpow_right₀ one_lt (by norm_num))
  obtain ⟨m, e, hr, hge, _, hex⟩ := round_spec neg N D s hN hD hlo hhi
  rw [hx] at hge hex
  have he1 : e ≤ 1 := by
    have := le_trans hge hn2q
    rw [zpow_le_zpow_iff_right₀ one_lt] at this
    omega
  refine ⟨m, e, hr, ?_⟩
  rcases le_or_lt e 0 with h0 | h0
  · have hc : (n : ℚ) = ((n * 2 ^ (-e).toNat : Nat) : ℚ) * (2 : ℚ) ^ e := by
      push_cast
      rw [mul_assoc, ← zpow_natCast, ← zpow_add₀ two_ne, Int.toNat_of_nonneg (by omega)]
      simp
    have := hex _ hc
    rw [this]; exact hc.symm
  · have he : e = 1 := by omega
    subst he
    have h53 : (2 : ℚ) ^ (53 : Int) ≤ n := by simpa using hge
    have hn : (n : ℚ) = (2 : ℚ) ^ (53 : Int) := le_antisymm hn2q h53
    have hc : (n : ℚ) = ((2 ^ 52 : Nat) : ℚ) * (2 : ℚ) ^ (1 : Int) := by
      rw [hn]; norm_num
    have := hex _ hc
    rw [this]; exact hc.symm

theorem whole_of_int (m e z : Int) (hv : (m : ℚ) * (2 : ℚ) ^ e = z) :
    Float64.isWhole (Float64.finite m e) = true ∧ Float64.truncInt m e = z := by
  have two_ne : (2 : ℚ) ≠ 0 := by norm_num
  rcases le_or_lt 0 e with h0 | h0
  · have ht : Float64.truncInt m e = m * 2 ^ e.toNat := by
      unfold Float64.truncInt; rw [if_pos h0]
    have hz : m * 2 ^ e.toNat = z := by
      have : (2 : ℚ) ^ e = (2 : ℚ) ^ e.toNat := by
        rw [← zpow_natCast, Int.toNat_of_nonneg h0]
      rw [this] at hv
      exact_mod_cast hv
    refine ⟨?_, by rw [ht, hz]⟩
    unfold Float64.isWhole Float64.trunc Float64.eq
    simp only [ht, min_eq_left h0, sub_zero, Int.toNat_zero, pow_zero, mul_one, decide_eq_true_eq]
  · have hk : (((-e).toNat : Nat) : Int) = -e := Int.toNat_of_nonneg (by omega)
    have hm : m = z * 2 ^ (-e).toNat := by
      have : (2 : ℚ) ^ e = ((2 : ℚ) ^ (-e).toNat)⁻¹ := by
        rw [← zpow_natCast, hk, zpow_neg, inv_inv]
      rw [this] at hv
      have hp : ((2 : ℚ) ^ (-e).toNat) ≠ 0 := pow_ne_zero _ two_ne
      have h2 : (m : ℚ) = z * (2 : ℚ) ^ (-e).toNat := by
        field_simp at hv
        linarith
      exact_mod_cast h2
    have hpos : (2 : Int) ^ (-e).toNat ≠ 0 := pow_ne_zero _ (by norm_num)
    have ht : Float64.truncInt m e = z := by
      unfold Float64.truncInt
      rw [if_neg (by omega), hm]
      exact Int.mul_tdiv_cancel _ hpos
    refine ⟨?_, ht⟩
    unfold Float64.isWhole Float64.trunc Float64.eq
    simp only [ht, min_eq_right h0.le, sub_self, Int.toNat_zero, pow_zero, mul_one,
      zero_sub, decide_eq_true_eq]
    exact hm.symm

theorem int_of_whole (m e : Int) (hw : Float64.isWhole (Float64.finite m e) = true) :
    ∃ z : Int, (m : ℚ) * (2 : ℚ) ^ e = z := by
  have two_ne : (2 : ℚ) ≠ 0 := by norm_num
  rcases le_or_lt 0 e with h0 | h0
  · refine ⟨m * 2 ^ e.toNat, ?_⟩
    push_cast
    rw [← zpow_natCast, Int.toNat_of_nonneg h0]
  · have hk : (((-e).toNat : Nat) : Int) = -e := Int.toNat_of_nonneg (by omega)
    unfold Float64.isWhole Float64.trunc Float64.eq at hw
    simp only [min_eq_right h0.le, sub_self, Int.toNat_zero, pow_zero, mul_one,
      zero_sub, decide_eq_true_eq] at hw
    refine ⟨Float64.truncInt m e, ?_⟩
    have : (2 : ℚ) ^ e = ((2 : ℚ) ^ (-e).toNat)⁻¹ := by
      rw [← zpow_natCast, hk, zpow_neg, inv_inv]
    rw [this]
    have hp : ((2 : ℚ) ^ (-e).toNat) ≠ 0 := pow_ne_zero _ two_ne
    have hq : (m : ℚ) = (Float64.truncInt m e : ℚ) * (2 : ℚ) ^ (-e).toNat := by
      exact_mod_cast hw.symm
    rw [hq]
    field_simp

theorem quotient_not_whole (A B : Nat) (hA : A ≤ 2 ^ 53) (hB : 0 < B) (hB2 : B ≤ 2 ^ 53)
    (hnd : ¬ B ∣ A) (m : Nat) (e : Int)
    (hge : (2 : ℚ) ^ (e + 52) ≤ (A : ℚ) / B)
    (herr : |(m : ℚ) * (2 : ℚ) ^ e - (A : ℚ) / B| ≤ (2 : ℚ) ^ e / 2) :
    ¬ ∃ n : Nat, (m : ℚ) * (2 : ℚ) ^ e = n := by
  rintro ⟨n, hn⟩
  have two_ne : (2 : ℚ) ≠ 0 := by norm_num
  have one_lt : (1 : ℚ) < 2 := by norm_num
  have hBq : (0 : ℚ) < B := by exact_mod_cast hB
  have hAq : (A : ℚ) ≤ (2 : ℚ) ^ 53 := by exact_mod_cast hA
  have hB2q : (B : ℚ) ≤ (2 : ℚ) ^ 53 := by exact_mod_cast hB2
  have hepos : (0 : ℚ) < (2 : ℚ) ^ e := zpow_pos (by norm_num) e
  rw [hn] at herr
  -- the distance of `A / B` to a natural number is at least `1 / B`
  have hne : n * B ≠ A := by
    intro h
    exact hnd ⟨n, by rw [← h, Nat.mul_comm]⟩
  have hdist : 1 / (B : ℚ) ≤ |(n : ℚ) - (A : ℚ) / B| := by
    have h1 : (n : ℚ) - (A : ℚ) / B = (((n * B : Nat) : Int) - (A : Int) : Int) / (B : ℚ) := by
      push_cast; field_simp
    rw [h1, abs_div, abs_of_pos hBq]
    apply div_le_div_of_nonneg_right _ hBq.le
    have hz : ((n * B : Nat) : Int) - (A : Int) ≠ 0 := by
      intro h0
      apply hne
      have : ((n * B : Nat) : Int) = (A : Int) := by omega
      exact_mod_cast this
    have : (1 : Int) ≤ |((n * B : Nat) : Int) - (A : Int)| := Int.one_le_abs hz
    exact_mod_cast this
  -- so `2 ≤ 2 ^ e * B`
  have h1 : 2 ≤ (2 : ℚ) ^ e * B := by
    have := le_trans hdist herr
    rw [div_le_div_iff₀ hBq (by norm_num)] at this
    linarith
  -- and `2 ^ e * (2 : ℚ) ^ 52 * B ≤ A`
  have h2 : (2 : ℚ) ^ e * (2 : ℚ) ^ 52 * B ≤ A := by
    rw [le_div_iff₀ hBq, zpow_add₀ two_ne] at hge
    have : (2 : ℚ) ^ (52 : Int) = (2 : ℚ) ^ 52 := by norm_num
    rw [this] at hge
    exact hge
  have h3 : (2 : ℚ) ^ e * B = 2 := by
    have : (2 : ℚ) ^ e * (B : ℚ) * (2 : ℚ) ^ 52 ≤ 2 * (2 : ℚ) ^ 52 := by
      calc (2 : ℚ) ^ e * (B : ℚ) * (2 : ℚ) ^ 52 = (2 : ℚ) ^ e * (2 : ℚ) ^ 52 * (B : ℚ) := by ring
        _ ≤ (A : ℚ) := h2
        _ ≤ (2 : ℚ) ^ 53 := hAq
        _ = 2 * (2 : ℚ) ^ 52 := by norm_num
    have : (2 : ℚ) ^ e * B ≤ 2 := le_of_mul_le_mul_right this (by norm_num)
    linarith
  have h4 : (A : ℚ) = (2 : ℚ) ^ 53 := by
    apply le_antisymm hAq
    calc (2 : ℚ) ^ 53 = ((2 : ℚ) ^ e * (B : ℚ)) * (2 : ℚ) ^ 52 := by rw [h3]; norm_num
      _ = (2 : ℚ) ^ e * (2 : ℚ) ^ 52 * (B : ℚ) := by ring
      _ ≤ (A : ℚ) := h2
  have he : -52 ≤ e := by
    have : (2 : ℚ) ^ (-52 : Int) ≤ (2 : ℚ) ^ e := by
      have hb : (2 : ℚ) ^ e * (2 : ℚ) ^ 53 ≥ 2 := by
        calc (2 : ℚ) ^ e * (2 : ℚ) ^ 53 ≥ (2 : ℚ) ^ e * (B : ℚ) :=
              mul_le_mul_of_nonneg_left hB2q hepos.le
          _ = 2 := h3
      have hc : (2 : ℚ) ^ (-52 : Int) * (2 : ℚ) ^ 53 = 2 := by
        rw [zpow_neg]; norm_num
      have : (2 : ℚ) ^ (-52 : Int) * (2 : ℚ) ^ 53 ≤ (2 : ℚ) ^ e * (2 : ℚ) ^ 53 := by rw [hc]; exact hb
      exact le_of_mul_le_mul_right this (by norm_num)
    rwa [zpow_le_zpow_iff_right₀ one_lt] at this
  -- hence `A = B * 2 ^ (e + 52)`
  have h5 : (A : ℚ) = B * (2 : ℚ) ^ (e + 52).toNat := by
    have hk : (((e + 52).toNat : Nat) : Int) = e + 52 := Int.toNat_of_nonneg (by omega)
    rw [← zpow_natCast, hk, zpow_add₀ two_ne, h4]
    have : (2 : ℚ) ^ (52 : Int) = (2 : ℚ) ^ 52 := by norm_num
    rw [this]
    calc (2 : ℚ) ^ 53 = ((2 : ℚ) ^ e * (B : ℚ)) * (2 : ℚ) ^ 52 := by rw [h3]; norm_num
      _ = (B : ℚ) * ((2 : ℚ) ^ e * (2 : ℚ) ^ 52) := by ring
  apply hnd
  refine ⟨2 ^ (e + 52).toNat, ?_⟩
  exact_mod_cast h5

theorem natAbs_cast_rat (z : Int) : ((z.natAbs : Nat) : ℚ) = |(z : ℚ)| := by
  rw [Int.cast_natAbs, Int.cast_abs]

theorem natAbs_le_of_abs_le (a : Int) (ha : |a| ≤ 2 ^ 53) : a.natAbs ≤ 2 ^ 53 := by
  have h : ((a.natAbs : Nat) : Int) ≤ 2 ^ 53 := by rw [Int.natCast_natAbs]; exact ha
  exact_mod_cast h

theorem signed_cast (neg : Bool) (m : Nat) :
    ((Float64.signed neg m : Int) : ℚ) = (if neg = true then (-1 : ℚ) else 1) * (m : ℚ) := by
  unfold Float64.signed
  cases neg <;> simp

theorem ofInt_exact (a : Int) (ha : |a| ≤ 2 ^ 53) :
    ∃ (m e : Int), Float64.ofInt a = Float64.finite m e ∧ (m : ℚ) * (2 : ℚ) ^ e = a := by
  rcases eq_or_ne a 0 with h0 | h0
  · subst h0
    exact ⟨0, 0, rfl, by simp⟩
  · have hN : 0 < a.natAbs := Int.natAbs_pos.mpr h0
    have hle : a.natAbs ≤ 2 ^ 53 := natAbs_le_of_abs_le a ha
    obtain ⟨m, e, hr, hv⟩ :=
      round_nat_exact (decide (a < 0)) a.natAbs 1 0 hN Nat.one_pos a.natAbs hN hle (by simp)
    refine ⟨Float64.signed (decide (a < 0)) m, e, hr, ?_⟩
    rw [signed_cast, mul_assoc, hv, natAbs_cast_rat]
    by_cases hneg : a < 0
    · have : (a : ℚ) < 0 := by exact_mod_cast hneg
      simp [hneg, abs_of_neg this]
    · have : (0 : ℚ) ≤ a := by exact_mod_cast (not_lt.mp hneg)
      simp [hneg, abs_of_nonneg this]

/-- The sign factor of a quotient computed from the signs of the two mantissas. -/
theorem quotient_sign (a b : Int) (ma mb ea eb : Int) (hb0 : b ≠ 0)
    (hva : (ma : ℚ) * (2 : ℚ) ^ ea = a) (hvb : (mb : ℚ) * (2 : ℚ) ^ eb = b) :
    (a : ℚ) / b =
      (if (decide (ma < 0) != decide (mb < 0)) = true then (-1 : ℚ) else 1) *
        (|(a : ℚ)| / |(b : ℚ)|) := by
  have pa : (0 : ℚ) < (2 : ℚ) ^ ea := zpow_pos (by norm_num) ea
  have pb : (0 : ℚ) < (2 : ℚ) ^ eb := zpow_pos (by norm_num) eb
  have hbq : (b : ℚ) ≠ 0 := by exact_mod_cast hb0
  have sa : ma < 0 ↔ (a : ℚ) < 0 := by
    rw [← hva]
    constructor
    · intro h; exact mul_neg_of_neg_of_pos (by exact_mod_cast h) pa
    · intro h
      by_contra hc
      have : (0 : ℚ) ≤ ma := by exact_mod_cast (not_lt.mp hc)
      exact absurd h (not_lt.mpr (mul_nonneg this pa.le))
  have sb : mb < 0 ↔ (b : ℚ) < 0 := by
    rw [← hvb]
    constructor
    · intro h; exact mul_neg_of_neg_of_pos (by exact_mod_cast h) pb
    · intro h
      by_contra hc
      have : (0 : ℚ) ≤ mb := by exact_mod_cast (not_lt.mp hc)
      exact absurd h (not_lt.mpr (mul_nonneg this pb.le))
  by_cases ha : (a : ℚ) < 0 <;> by_cases hb : (b : ℚ) < 0
  · simp [sa.mpr ha, sb.mpr hb, abs_of_neg ha, abs_of_neg hb]
  · have hb' : (0 : ℚ) ≤ b := not_lt.mp hb
    simp [sa.mpr ha, mt sb.mp hb, abs_of_neg ha, abs_of_nonneg hb', neg_div]
  · have ha' : (0 : ℚ) ≤ a := not_lt.mp ha
    simp [mt sa.mp ha, sb.mpr hb, abs_of_nonneg ha', abs_of_neg hb, div_neg]
  · have ha' : (0 : ℚ) ≤ a := not_lt.mp ha
    have hb' : (0 : ℚ) ≤ b := not_lt.mp hb
    simp [mt sa.mp ha, mt sb.mp hb, abs_of_nonneg ha', abs_of_nonneg hb']

theorem div_spec (a b : Int) (ha : |a| ≤ 2 ^ 53) (hb : |b| ≤ 2 ^ 53) (hb0 : b ≠ 0) :
    (b ∣ a → ∃ m e : Int,
      Float64.div (Float64.ofInt a) (Float64.ofInt b) = Float64.finite m e ∧
      (m : ℚ) * (2 : ℚ) ^ e = ((a / b : Int) : ℚ)) ∧
    (¬ b ∣ a → ∃ m e : Int,
      Float64.div (Float64.ofInt a) (Float64.ofInt b) = Float64.finite m e ∧
      (¬ ∃ z : Int, (m : ℚ) * (2 : ℚ) ^ e = z) ∧
      |(m : ℚ) * (2 : ℚ) ^ e - (a : ℚ) / b| ≤ |(a : ℚ) / b| / 2 ^ 53) := by
  obtain ⟨ma, ea, hoa, hva⟩ := ofInt_exact a ha
  obtain ⟨mb, eb, hob, hvb⟩ := ofInt_exact b hb
  have two_ne : (2 : ℚ) ≠ 0 := by norm_num
  have one_lt : (1 : ℚ) < 2 := by norm_num
  have pa : (0 : ℚ) < (2 : ℚ) ^ ea := zpow_pos (by norm_num) ea
  have pb : (0 : ℚ) < (2 : ℚ) ^ eb := zpow_pos (by norm_num) eb
  have hbq : (b : ℚ) ≠ 0 := by exact_mod_cast hb0
  have hmb : mb ≠ 0 := by
    intro h0
    rw [h0] at hvb
    apply hbq
    rw [← hvb]; simp
  have hdiv : Float64.div (Float64.ofInt a) (Float64.ofInt b) =
      Float64.round (decide (ma < 0) != decide (mb < 0)) ma.natAbs mb.natAbs (ea - eb) := by
    rw [hoa, hob]
    simp only [Float64.div, if_neg hmb]
  have hx : ((ma.natAbs : Nat) : ℚ) / ((mb.natAbs : Nat) : ℚ) * (2 : ℚ) ^ (ea - eb) =
      ((a.natAbs : Nat) : ℚ) / ((b.natAbs : Nat) : ℚ) := by
    rw [natAbs_cast_rat, natAbs_cast_rat, natAbs_cast_rat, natAbs_cast_rat, ← hva, ← hvb,
      abs_mul, abs_mul, abs_of_pos pa, abs_of_pos pb, zpow_sub₀ two_ne]
    have hmbq : |(mb : ℚ)| ≠ 0 := by
      rw [abs_ne_zero]; exact_mod_cast hmb
    field_simp
  have hsign := quotient_sign a b ma mb ea eb hb0 hva hvb
  rw [← natAbs_cast_rat, ← natAbs_cast_rat] at hsign
  have hBpos : 0 < b.natAbs := Int.natAbs_pos.mpr hb0
  have hB2 : b.natAbs ≤ 2 ^ 53 := natAbs_le_of_abs_le b hb
  have hA2 : a.natAbs ≤ 2 ^ 53 := natAbs_le_of_abs_le a ha
  have hBq : (0 : ℚ) < ((b.natAbs : Nat) : ℚ) := by exact_mod_cast hBpos
  have hD : 0 < mb.natAbs := Int.natAbs_pos.mpr hmb
  rcases eq_or_ne a 0 with ha0 | ha0
  · -- the quotient of zero
    have hma : ma = 0 := by
      have h1 : (ma : ℚ) * (2 : ℚ) ^ ea = 0 := by rw [hva, ha0]; simp
      rcases mul_eq_zero.mp h1 with h | h
      · exact_mod_cast h
      · exact absurd h pa.ne'
    have hr : Float64.round (decide (ma < 0) != decide (mb < 0)) ma.natAbs mb.natAbs (ea - eb) =
        Float64.finite 0 0 := by
      rw [hma]; simp [Float64.round]
    constructor
    · intro _
      exact ⟨0, 0, by rw [hdiv, hr], by rw [ha0]; simp⟩
    · intro hnd
      exact absurd (ha0 ▸ dvd_zero b) hnd
  · have hma : ma ≠ 0 := by
      intro h0
      rw [h0] at hva
      apply ha0
      have : (a : ℚ) = 0 := by rw [← hva]; simp
      exact_mod_cast this
    have hN : 0 < ma.natAbs := Int.natAbs_pos.mpr hma
    have hApos : 0 < a.natAbs := Int.natAbs_pos.mpr ha0
    constructor
    · rintro ⟨c, hc⟩
      have hquot : a / b = c := by rw [hc]; exact Int.mul_ediv_cancel_left c hb0
      have hc0 : c ≠ 0 := by
        intro h0; apply ha0; rw [hc, h0, mul_zero]
      have hnat : a.natAbs = b.natAbs * c.natAbs := by rw [hc, Int.natAbs_mul]
      have hn1 : 1 ≤ c.natAbs := Int.natAbs_pos.mpr hc0
      have hn2 : c.natAbs ≤ 2 ^ 53 := by
        calc c.natAbs = 1 * c.natAbs := (Nat.one_mul _).symm
          _ ≤ b.natAbs * c.natAbs := Nat.mul_le_mul_right _ hBpos
          _ = a.natAbs := hnat.symm
          _ ≤ 2 ^ 53 := hA2
      have hxc : ((a.natAbs : Nat) : ℚ) / ((b.natAbs : Nat) : ℚ) = ((c.natAbs : Nat) : ℚ) := by
        rw [hnat]; push_cast; field_simp
      obtain ⟨m, e, hr, hv⟩ := round_nat_exact (decide (ma < 0) != decide (mb < 0))
        ma.natAbs mb.natAbs (ea - eb) hN hD c.natAbs hn1 hn2 (by rw [hx, hxc])
      refine ⟨Float64.signed (decide (ma < 0) != decide (mb < 0)) m, e, by rw [hdiv, hr], ?_⟩
      rw [signed_cast, mul_assoc, hv, ← hxc, ← hsign, hquot, hc]
      push_cast
      field_simp
    · intro hnd
      have hlo : (2 : ℚ) ^ (-1022 : Int) ≤
          ((ma.natAbs : Nat) : ℚ) / ((mb.natAbs : Nat) : ℚ) * (2 : ℚ) ^ (ea - eb) := by
        rw [hx, le_div_iff₀ hBq]
        have h1 : (2 : ℚ) ^ (-1022 : Int) ≤ (2 : ℚ) ^ (-53 : Int) :=
          zpow_le_zpow_right₀ one_lt.le (by norm_num)
        have h2 : ((b.natAbs : Nat) : ℚ) ≤ (2 : ℚ) ^ (53 : Nat) := by exact_mod_cast hB2
        have h3 : (1 : ℚ) ≤ ((a.natAbs : Nat) : ℚ) := by exact_mod_cast hApos
        calc (2 : ℚ) ^ (-1022 : Int) * ((b.natAbs : Nat) : ℚ)
            ≤ (2 : ℚ) ^ (-53 : Int) * (2 : ℚ) ^ (53 : Nat) :=
              mul_le_mul h1 h2 hBq.le (zpow_pos (by norm_num) _).le
          _ = 1 := by rw [zpow_neg]; norm_num
          _ ≤ _ := h3
      have hhi : ((ma.natAbs : Nat) : ℚ) / ((mb.natAbs : Nat) : ℚ) * (2 : ℚ) ^ (ea - eb) <
          (2 : ℚ) ^ (1023 : Int) := by
        rw [hx, div_lt_iff₀ hBq]
        have h2 : (1 : ℚ) ≤ ((b.natAbs : Nat) : ℚ) := by exact_mod_cast hBpos
        have h3 : ((a.natAbs : Nat) : ℚ) ≤ (2 : ℚ) ^ (53 : Nat) := by exact_mod_cast hA2
        have h4 : (2 : ℚ) ^ (53 : Nat) < (2 : ℚ) ^ (1023 : Int) := by
          rw [← zpow_natCast]; exact zpow_lt_zpow_right₀ one_lt (by norm_num)
        calc ((a.natAbs : Nat) : ℚ) ≤ (2 : ℚ) ^ (53 : Nat) := h3
          _ < (2 : ℚ) ^ (1023 : Int) := h4
          _ = (2 : ℚ) ^ (1023 : Int) * 1 := (mul_one _).symm
          _ ≤ (2 : ℚ) ^ (1023 : Int) * ((b.natAbs : Nat) : ℚ) :=
              mul_le_mul_of_nonneg_left h2 (zpow_pos (by norm_num) _).le
      obtain ⟨m, e, hr, hge, herr, _⟩ := round_spec (decide (ma < 0) != decide (mb < 0))
        ma.natAbs mb.natAbs (ea - eb) hN hD hlo hhi
      rw [hx] at hge herr
      have hnw := quotient_not_whole a.natAbs b.natAbs hA2 hBpos hB2
        (by rwa [Int.natAbs_dvd_natAbs]) m e hge herr
      have hm0 : (0 : ℚ) ≤ (m : ℚ) * (2 : ℚ) ^ e :=
        mul_nonneg (by positivity) (zpow_pos (by norm_num) e).le
      have hsig : ∀ q : ℚ, |(if (decide (ma < 0) != decide (mb < 0)) = true then (-1 : ℚ) else 1) * q|
          = |q| := by
        intro q
        split <;> simp
      refine ⟨Float64.signed (decide (ma < 0) != decide (mb < 0)) m, e, by rw [hdiv, hr], ?_, ?_⟩
      · rintro ⟨z, hz⟩
        apply hnw
        refine ⟨z.natAbs, ?_⟩
        rw [natAbs_cast_rat, ← hz, signed_cast, mul_assoc, hsig, abs_of_nonneg hm0]
      · have hxpos : (0 : ℚ) ≤ ((a.natAbs : Nat) : ℚ) / ((b.natAbs : Nat) : ℚ) := by positivity
        rw [signed_cast, mul_assoc, hsign, ← mul_sub, hsig, hsig, abs_of_nonneg hxpos]
        calc |(m : ℚ) * (2 : ℚ) ^ e - ((a.natAbs : Nat) : ℚ) / ((b.natAbs : Nat) : ℚ)|
            ≤ (2 : ℚ) ^ e / 2 := herr
          _ = (2 : ℚ) ^ (e + 52) / 2 ^ 53 := by
              rw [zpow_add₀ two_ne]
              have : (2 : ℚ) ^ (52 : Int) = (2 : ℚ) ^ (52 : Nat) := by norm_num
              rw [this]; field_simp; ring
          _ ≤ _ := div_le_div_of_nonneg_right hge (by positivity)

/-- C1 (amended): for Integers `a` and `b` with `|a| ≤ 2 ^ 53`, `|b| ≤ 2 ^ 53` and
`b ≠ 0`, the Integer/Integer `/` returns the Integer `a / b` when `b` divides `a`, and
otherwise a Float: the binary64 quotient of the two operands, which lies within the
relative error `2 ^ (-53)` of the real quotient. -/
theorem runIntegerInfix_div_small (h : Host) (st : State) (a b : Int)
    (ha : |a| ≤ 2 ^ 53) (hb : |b| ≤ 2 ^ 53) (hb0 : b ≠ 0) :
    (b ∣ a →
      runIntegerInfix h "/" a b st = Res.ok (some (Value.IntegerType (a / b)), none) st) ∧
    (¬ b ∣ a → ∃ f : Float64,
      runIntegerInfix h "/" a b st = Res.ok (some (Value.FloatType f), none) st ∧
      f = Float64.div (Float64.ofInt a) (Float64.ofInt b) ∧
      |f.toRat - (a : ℚ) / b| ≤ |(a : ℚ) / b| / 2 ^ 53) := by
  have hrun : runIntegerInfix h "/" a b st =
      (if (Float64.div (Float64.ofInt a) (Float64.ofInt b)).isWhole = true then
        (pure (some (Value.IntegerType
          (toInt64 h (Float64.div (Float64.ofInt a) (Float64.ofInt b)))), none) : M OpResult)
      else pure (some (Value.FloatType
          (Float64.div (Float64.ofInt a) (Float64.ofInt b))), none)) st := rfl
  obtain ⟨hd, hnd⟩ := div_spec a b ha hb hb0
  constructor
  · intro hdvd
    obtain ⟨m, e, hf, hv⟩ := hd hdvd
    obtain ⟨hw, ht⟩ := whole_of_int m e (a / b) hv
    have hbound : |a / b| ≤ 2 ^ 53 := by
      obtain ⟨c, hc⟩ := hdvd
      rw [hc, Int.mul_ediv_cancel_left c hb0]
      have hb1 : 1 ≤ |b| := Int.one_le_abs hb0
      calc |c| = 1 * |c| := (one_mul _).symm
        _ ≤ |b| * |c| := mul_le_mul_of_nonneg_right hb1 (abs_nonneg c)
        _ = |a| := by rw [hc, abs_mul]
        _ ≤ 2 ^ 53 := ha
    have hrange : -(2 ^ 63) ≤ a / b ∧ a / b < 2 ^ 63 := by
      have := abs_le.mp hbound
      constructor <;> omega
    rw [hrun, hf, if_pos hw]
    simp only [toInt64, ht, if_pos hrange]
    rfl
  · intro hndvd
    obtain ⟨m, e, hf, hnz, herr⟩ := hnd hndvd
    have hw : ¬ (Float64.isWhole (Float64.finite m e) = true) := fun hw =>
      hnz (int_of_whole m e hw)
    refine ⟨Float64.finite m e, ?_, hf.symm, ?_⟩
    · rw [hrun, hf, if_neg hw]
      rfl
    · exact herr

/-- C1 (amended), an instance: `7 / 2` is the Float `3.5` and `6 / 3` is the Integer `2`. -/
theorem runIntegerInfix_div_small_witness :
    runIntegerInfix sampleHost "/" 6 3 initialState =
        Res.ok (some (Value.IntegerType (6 / 3)), none) initialState ∧
      ∃ f : Float64,
        runIntegerInfix sampleHost "/" 7 2 initialState =
          Res.ok (some (Value.FloatType f), none) initialState ∧
        f = Float64.div (Float64.ofInt 7) (Float64.ofInt 2) ∧
        |f.toRat - ((7 : Int) : ℚ) / ((2 : Int) : ℚ)| ≤ |((7 : Int) : ℚ) / ((2 : Int) : ℚ)| / 2 ^ 53 :=
  ⟨(runIntegerInfix_div_small sampleHost initialState 6 3 (by decide) (by decide) (by decide)).1
      (by decide),
    (runIntegerInfix_div_small sampleHost initialState 7 2 (by decide) (by decide) (by decide)).2
      (by decide)⟩

/-- C1 (as stated, refuted): `1` divides `2 ^ 53 + 1` evenly, and the Integer that `/`
returns for `(2 ^ 53 + 1) / 1` is `2 ^ 53`, not the exact quotient. -/
theorem runIntegerInfix_div_inexact :
    (1 : Int) ∣ 9007199254740993 ∧
      runIntegerInfix sampleHost "/" 9007199254740993 1 initialState =
        Res.ok (some (Value.IntegerType 9007199254740992), none) initialState ∧
      (9007199254740992 : Int) ≠ 9007199254740993 / 1 := by
  refine ⟨by decide, by rfl, by decide⟩


/-! ## Helper lemmas on the evaluation monad and on scopes -/

theorem bind_apply {α β : Type} (x : M α) (f : α → M β) (st : State) :
    (x >>= f) st = match x st with
      | Res.ok a st' => f a st'
      | Res.fault e => Res.fault e := rfl

theorem pure_apply {α : Type} (a : α) (st : State) : (pure a : M α) st = Res.ok a st := rfl

/-! The evaluator unfolds one level at each node kind. -/

theorem Interpret_Program (h : Host) (n : Nat) (ss : List Expr) (s : Nat) :
    Interpret h (n + 1) (Expr.Program ss) s = runProgram (Interpret h n) s ss none := rfl
theorem Interpret_Let (h : Host) (n : Nat) (name : String) (v : Expr) (s : Nat) :
    Interpret h (n + 1) (Expr.Let name v) s = runLet h (Interpret h n) name v s := rfl
theorem Interpret_ExpressionStatement (h : Host) (n : Nat) (e : Expr) (s : Nat) :
    Interpret h (n + 1) (Expr.ExpressionStatement e) s = Interpret h n e s := rfl
theorem Interpret_FunctionCall (h : Host) (n : Nat) (f : Expr) (args : List Expr) (s : Nat) :
    Interpret h (n + 1) (Expr.FunctionCall f args) s = runFunction h (Interpret h n) f args s := rfl
theorem Interpret_Function (h : Host) (n : Nat) (ps : List String) (b : List Expr) (s : Nat) (st : State) :
    Interpret h (n + 1) (Expr.Function ps b) s st =
      Res.ok (some (Value.FunctionType ps b st.scopes.length))
        { st with scopes := st.scopes ++ [{ store := [], parent := none }] } := rfl
theorem Interpret_Identifier (h : Host) (n : Nat) (x : String) (s : Nat) :
    Interpret h (n + 1) (Expr.Identifier x) s = runIdentifier x s := rfl
theorem Interpret_Integer (h : Host) (n : Nat) (v : Int) (s : Nat) (st : State) :
    Interpret h (n + 1) (Expr.Integer v) s st = Res.ok (some (Value.IntegerType v)) st := rfl
theorem Interpret_If (h : Host) (n : Nat) (c t : Expr) (e : Option Expr) (s : Nat) :
    Interpret h (n + 1) (Expr.If c t e) s = runIf (Interpret h n) c t e s := rfl
theorem Interpret_BlockStatement (h : Host) (n : Nat) (ss : List Expr) (s : Nat) :
    Interpret h (n + 1) (Expr.BlockStatement ss) s = runBlockStatement (Interpret h n) s ss none := rfl
theorem Interpret_InfixExpression (h : Host) (n : Nat) (op : String) (l r : Expr) (s : Nat) :
    Interpret h (n + 1) (Expr.InfixExpression op l r) s = runInfix h (Interpret h n) op l r s := rfl

theorem lookup_self (k : String) (v : String) (rest : List (String × String)) :
    List.lookup k ((k, v) :: rest) = some v := by simp [List.lookup]

theorem registerFunction_spec (h : Host) (name : String) (object : Value) (st : State) :
    ∃ st', registerFunction h name object st = Res.ok () st' ∧
      st'.scopes = st.scopes ∧ st'.errors = st.errors := by
  cases object <;> exact ⟨_, rfl, rfl, rfl⟩

theorem read_through_parent (st : State) (C S : Nat) (name : String) (frameC frameS : Scope)
    (w : DataType) (hC : st.scopes.get? C = some frameC) (hparent : frameC.parent = some S)
    (hS : st.scopes.get? S = some frameS) (hx : frameS.store.lookup name = some w) :
    ∃ found, st.Read C name = some found := by
  unfold State.Read
  have hClt : C < st.scopes.length := by
    rcases Nat.lt_or_ge C st.scopes.length with h | h
    · exact h
    · rw [List.get?_eq_none.mpr h] at hC; cases hC
  have hSlt : S < st.scopes.length := by
    rcases Nat.lt_or_ge S st.scopes.length with h | h
    · exact h
    · rw [List.get?_eq_none.mpr h] at hS; cases hS
  obtain ⟨n, hn⟩ : ∃ n, st.scopes.length = n + 1 := ⟨st.scopes.length - 1, by omega⟩
  rw [hn]
  unfold readFrom
  rw [hC]
  simp only
  cases hl : frameC.store.lookup name with
  | some v => exact ⟨v, rfl⟩
  | none =>
    simp only [hparent]
    have hne : C ≠ S := by
      rintro rfl
      rw [hC] at hS
      cases hS
      rw [hl] at hx; cases hx
    obtain ⟨k, hk⟩ : ∃ k, n = k + 1 := ⟨n - 1, by omega⟩
    rw [hk]
    unfold readFrom
    rw [hS]
    simp only [hx]
    exact ⟨w, rfl⟩

theorem Res.isInteger_sound (r : Res DataType) (v : Int) (hr : r.isInteger v = true) :
    r.value? = some (some (Value.IntegerType v)) := by
  unfold Res.isInteger at hr
  split at hr
  · simp at hr; subst hr; rfl
  · cases hr

/-! ## Dictionary merge and lookup -/

/-- C2 (the code at a failing input): the merge `["k": 1] + ["k": 2]` holds two entries
with the key text `k`, one per key object, so the lookup `(["k": 1] + ["k": 2])["k"]`
returns the left operand's value `1` when the `range` loop of `runDictionarySubscript`
visits that entry first, and the right operand's value `2` when it visits the other
first. -/
theorem merge_lookup_depends_on_range_order (h : Host) :
    (Interpret h.reversed 4 mergeLookupProgram 0 initialState).value? =
        some (some (Value.IntegerType 1)) ∧
      (Interpret h.stored 4 mergeLookupProgram 0 initialState).value? =
        some (some (Value.IntegerType 2)) ∧
      (Interpret h.stored 3 mergeProgram 0 initialState).state?.map (fun st => st.mapAt 1) =
        some [(⟨1, "k"⟩, some (Value.IntegerType 2)), (⟨0, "k"⟩, some (Value.IntegerType 1))] := by
  refine ⟨by rfl, by rfl, by rfl⟩

/-! ## Declarations in a child scope -/

/-- C3 (amended): when a scope `S` binds `x` and `C` is a child scope of `S`, evaluating
`let x = e` in `C`, where `e` evaluates successfully, is rejected: `runLet` reports that
the identifier is already declared, yields no result, and leaves every scope frame as
the evaluation of `e` left it. -/
theorem runLet_rejects_shadowing (h : Host) (ev : Eval) (name : String) (value : Expr)
    (C S : Nat) (st st1 : State) (v : Value) (frameC frameS : Scope) (w : DataType)
    (hev : ev value C st = Res.ok (some v) st1)
    (hC : st1.scopes.get? C = some frameC) (hparent : frameC.parent = some S)
    (hS : st1.scopes.get? S = some frameS) (hx : frameS.store.lookup name = some w) :
    ∃ st2, runLet h ev name value C st = Res.ok none st2 ∧
      st2.errors = st1.errors ++ ["Identifier '" ++ name ++ "' already declared"] ∧
      st2.scopes = st1.scopes := by
  obtain ⟨st', hreg, hsc, herr⟩ := registerFunction_spec h name v st1
  have hC' : st'.scopes.get? C = some frameC := by rw [hsc]; exact hC
  have hS' : st'.scopes.get? S = some frameS := by rw [hsc]; exact hS
  obtain ⟨found, hfound⟩ := read_through_parent st' C S name frameC frameS w hC' hparent hS' hx
  refine ⟨{ st' with errors := st'.errors ++ ["Identifier '" ++ name ++ "' already declared"] },
    ?_, by simp [herr], by simp [hsc]⟩
  unfold runLet
  simp only [bind_apply, hev, hreg, readScope, hfound]
  rfl

/-- C3 (amended), an instance: with `x` bound to `1` in scope `0` and scope `1` a child
of it, `let x = 2` in scope `1` is rejected. -/
theorem runLet_rejects_shadowing_witness :
    ∃ st2, runLet sampleHost (Interpret sampleHost 2) "x" (Expr.Integer 2) 1 shadowState =
        Res.ok none st2 ∧
      st2.errors = shadowState.errors ++ ["Identifier '" ++ "x" ++ "' already declared"] ∧
      st2.scopes = shadowState.scopes :=
  runLet_rejects_shadowing sampleHost (Interpret sampleHost 2) "x" (Expr.Integer 2) 1 0
    shadowState shadowState (Value.IntegerType 2) { store := [], parent := some 0 }
    { store := [("x", some (Value.IntegerType 1))], parent := none }
    (some (Value.IntegerType 1)) rfl rfl rfl rfl rfl

/-- C3 (as stated, refuted): in the program `let x = 1` followed by
`if true { let x = 2 }` the inner `let` does not succeed: the program yields no result,
the error `Identifier 'x' already declared` is reported, and reads of `x` from the child
scope `1` and from the parent scope `0` both still see `1`. -/
theorem let_in_if_branch_rejected :
    (Interpret sampleHost 6 shadowProgram 0 initialState).value? = some none ∧
      (Interpret sampleHost 6 shadowProgram 0 initialState).state?.map (fun st => st.errors) =
        some ["Identifier 'x' already declared"] ∧
      (Interpret sampleHost 6 shadowProgram 0 initialState).state?.map
          (fun st => (st.Read 1 "x", st.Read 0 "x")) =
        some (some (some (Value.IntegerType 1)), some (some (Value.IntegerType 1))) := by
  refine ⟨by rfl, by rfl, by rfl⟩

/-! ## Closures -/

/-- C4 (the code at a failing input): the call `(fn(a) { fn() { a } })(1)` returns a
function whose scope binds `a` to `1`, but the call `(fn(a) { return fn() { a } })(1)`
returns a function whose scope does not bind `a`: calling that function reports
`Identifier 'a' not found in current scope` and yields no result. -/
theorem closure_by_return_captures_nothing (h : Host) :
    (∃ st, Interpret h 4 closureByExpression 0 initialState =
        Res.ok (some (Value.FunctionType [] [Expr.ExpressionStatement (Expr.Identifier "a")] 2))
          st ∧
      st.Read 2 "a" = some (some (Value.IntegerType 1))) ∧
    (∃ st, Interpret h 4 closureByReturn 0 initialState =
        Res.ok (some (Value.FunctionType [] [Expr.ExpressionStatement (Expr.Identifier "a")] 2))
          st ∧
      st.Read 2 "a" = none) ∧
    (Interpret h 6 (Expr.FunctionCall closureByExpression []) 0 initialState).value? =
      some (some (Value.IntegerType 1)) ∧
    (Interpret h 6 (Expr.FunctionCall closureByReturn []) 0 initialState).value? = some none ∧
    (Interpret h 6 (Expr.FunctionCall closureByReturn []) 0 initialState).state?.map
        (fun st => st.errors) = some ["Identifier 'a' not found in current scope"] := by
  refine ⟨⟨_, rfl, rfl⟩, ⟨_, rfl, rfl⟩, by rfl, by rfl, by rfl⟩

/-! ## Recursion through the bound name -/

/-- With the recursive call as the right operand, `n * fact(n - 1)`, the factorial
program yields `n!` for every `n ≤ 20`. -/
theorem factorial_call_right (n : Nat) (hn : n ≤ 20) :
    (Interpret sampleHost 200 (factorialProgram productCallRight n) 0 initialState).value? =
      some (some (Value.IntegerType n.factorial)) := by
  have hall : ∀ k : Nat, k < 21 →
      (Interpret sampleHost 200 (factorialProgram productCallRight k) 0 initialState).isInteger
        k.factorial = true := by decide!
  exact Res.isInteger_sound _ _ (hall n (by omega))

set_option linter.all false in
set_option maxRecDepth 100000 in
set_option maxHeartbeats 4000000 in
/-- C5 (the code at a failing input): with the recursive call as the left operand,
`fact(n - 1) * n`, the factorial program yields `0` for `n = 1` on every host, and `0`
for `n = 5` on the sample host: the recursive call rebinds `n` in the one scope all calls
of the function share before the right operand `n` is read. -/
theorem factorial_call_left_is_zero (h : Host) :
    (Interpret h 20 (factorialProgram productCallLeft 1) 0 initialState).value? =
        some (some (Value.IntegerType 0)) ∧
      (Interpret sampleHost 50 (factorialProgram productCallLeft 5) 0 initialState).value? =
        some (some (Value.IntegerType 0)) := by
  refine ⟨?_, Res.isInteger_sound _ _ (by decide!)⟩
  · unfold factorialProgram factorialBody productCallLeft factorialCall initialState
    repeat (first
      | rw [Interpret_Program] | rw [Interpret_Let] | rw [Interpret_ExpressionStatement]
      | rw [Interpret_FunctionCall] | rw [Interpret_Function] | rw [Interpret_Identifier]
      | rw [Interpret_Integer] | rw [Interpret_If] | rw [Interpret_BlockStatement]
      | rw [Interpret_InfixExpression]
      | rw [bind_apply] | rw [pure_apply]
      | rw [lookup_self]
      | rw [runProgram] | rw [runBlockStatement] | rw [runFunctionArguments]
      | rw [runFunctionBody] | rw [runLet] | rw [runFunction] | rw [runIdentifier]
      | rw [runIf] | rw [runInfix]
      | rw [registerFunction] | rw [readScope] | rw [writeScope]
      | rw [getState] | rw [reportAndReturn] | rw [isTruthy] | rw [NewScopeFrom]
      | rw [mergeScope]
      | dsimp only
      | simp only [State.Read, State.Write, State.Merge, readFrom, storeWrite, List.lookup,
          List.get?, List.set, List.length, List.cons_append, List.nil_append, List.tail,
          List.foldl, State.isTruthy, unwrapReturnValue, shouldBreakImmediately, Value.Type,
          Nat.reduceAdd, Nat.reduceGT, Nat.reduceLT, Nat.zero_add, ite_true, ite_false,
          gt_iff_lt, lt_self_iff_false, String.reduceEq, String.reduceBEq, String.reduceNe,
          beq_self_eq_true, decide_True, decide_False, runIntegerInfix, nativeToBoolean,
          wrap64, Int.reduceAdd, Int.reduceSub, Int.reduceMul, Int.reduceMod, Int.reducePow,
          Int.reduceEq, Int.reduceNe, Int.reduceNeg, Bool.false_eq_true, reduceCtorEq, ne_eq,
          not_true_eq_false, not_false_eq_true, decide_not, Bool.not_true, Bool.not_false])
    rfl

/-! ## Return inside a loop body -/

/-- C6 (the code at a failing input): `for x in [1, 2, 3] { return x }` runs all three
iterations and yields the Array of the three Return signals, and the loop over the
Dictionary `["a": 1, "b": 2]` likewise yields the Array of both Return signals; neither
loop stops at the first Return or hands it on as its result. -/
theorem for_appends_return_signal (h : Host) :
    (Interpret h 6 forReturnArray 0 initialState).value? =
        some (some (Value.ArrayType
          [some (Value.ReturnType (some (Value.IntegerType 1))),
           some (Value.ReturnType (some (Value.IntegerType 2))),
           some (Value.ReturnType (some (Value.IntegerType 3)))])) ∧
      (Interpret h.stored 6 forReturnDictionary 0 initialState).value? =
        some (some (Value.ArrayType
          [some (Value.ReturnType (some (Value.IntegerType 1))),
           some (Value.ReturnType (some (Value.IntegerType 2)))])) := by
  refine ⟨by rfl, by rfl⟩


/-! ## Switch cases on an Array control -/

theorem runSwitchCase_index_ge (h : Host) (ev : Eval) (control : Value) (scope : Nat) :
    ∀ (cases : List (List Expr × Expr)) (n : Nat) (st : State) (k : Nat) (e : Option String)
      (st' : State),
      runSwitchCase h ev control scope cases n st = Res.ok (some k, e) st' → n ≤ k := by
  intro cases
  induction cases with
  | nil =>
    intro n st k e st' hrun
    simp [runSwitchCase, pure_apply] at hrun
  | cons sc rest ih =>
    intro n st k e st' hrun
    unfold runSwitchCase at hrun
    simp only [bind_apply] at hrun
    cases hstep : runSwitchCaseValues h ev control scope sc.1.length sc.1 0 0 st with
    | fault f => rw [hstep] at hrun; cases hrun
    | ok step st1 =>
      rw [hstep] at hrun
      cases step with
      | wins =>
        simp only [pure_apply, Res.ok.injEq, Prod.mk.injEq, Option.some.injEq] at hrun
        omega
      | fails message =>
        simp only [pure_apply, Res.ok.injEq, Prod.mk.injEq] at hrun
        exact absurd hrun.1.1 (by simp)
      | next =>
        have := ih (n + 1) st1 k e st' hrun
        omega

/-- A case whose value loop can only move on to the next case or fault is not the case
that `runSwitchCase` returns. -/
theorem runSwitchCase_not_selected (h : Host) (ev : Eval) (control : Value) (scope : Nat)
    (sc : List Expr × Expr)
    (hvalues : ∀ st : State,
      (∃ st', runSwitchCaseValues h ev control scope sc.1.length sc.1 0 0 st =
          Res.ok CaseStep.next st') ∨
      (∃ f, runSwitchCaseValues h ev control scope sc.1.length sc.1 0 0 st = Res.fault f)) :
    ∀ (cases : List (List Expr × Expr)) (n j : Nat) (st st' : State) (e : Option String),
      cases.get? j = some sc →
      runSwitchCase h ev control scope cases n st ≠ Res.ok (some (n + j), e) st' := by
  intro cases
  induction cases with
  | nil => intro n j st st' e hj; simp at hj
  | cons c rest ih =>
    intro n j st st' e hj hrun
    unfold runSwitchCase at hrun
    simp only [bind_apply] at hrun
    cases j with
    | zero =>
      simp only [List.get?_cons_zero, Option.some.injEq] at hj
      subst hj
      rcases hvalues st with ⟨st1, hok⟩ | ⟨f, hf⟩
      · rw [hok] at hrun
        have := runSwitchCase_index_ge h ev _ scope rest (n + 1) st1 (n + 0) e st' hrun
        omega
      · rw [hf] at hrun; cases hrun
    | succ j =>
      simp only [List.get?_cons_succ] at hj
      cases hstep : runSwitchCaseValues h ev control scope c.1.length c.1 0 0 st with
      | fault f => rw [hstep] at hrun; cases hrun
      | ok step st1 =>
        rw [hstep] at hrun
        cases step with
        | wins =>
          simp only [pure_apply, Res.ok.injEq, Prod.mk.injEq, Option.some.injEq] at hrun
          omega
        | fails message =>
          simp only [pure_apply, Res.ok.injEq, Prod.mk.injEq] at hrun
          exact absurd hrun.1.1 (by simp)
        | next =>
          have h1 : n + (j + 1) = (n + 1) + j := by omega
          rw [h1] at hrun
          exact ih (n + 1) j st1 st' e hj hrun

theorem runSwitchCaseValues_same_type (h : Host) (ev : Eval) (control : Value)
    (scope arity : Nat) :
    ∀ (values : List Expr) (idx matched : Nat) (st : State),
      (∀ p ∈ values, ∀ s0, ∃ w s1, ev p scope s0 = Res.ok (some w) s1 ∧
        w.Type = control.Type ∧ h.Inspect s1.maps w ≠ h.Inspect s1.maps control) →
      ∃ st', runSwitchCaseValues h ev control scope arity values idx matched st =
        Res.ok CaseStep.next st' := by
  intro values
  induction values with
  | nil => intro idx matched st _; exact ⟨st, rfl⟩
  | cons p rest ih =>
    intro idx matched st hsame
    obtain ⟨w, s1, hev, hty, hne⟩ := hsame p (List.mem_cons_self _ _) st
    unfold runSwitchCaseValues
    simp only [bind_apply, hev, getState, if_pos hty, if_neg hne]
    exact ih _ _ _ (fun q hq => hsame q (List.mem_cons_of_mem _ hq))

/-- C7 (the code on the failing inputs): for an Array control, a case whose declared
values all evaluate to Arrays that do not render like the whole control is never
selected by `runSwitchCase`, whatever its length and also when each declared value has
the type and rendering of the control's element at its position: a declared value of
the control's own type is compared with the whole control only. -/
theorem runSwitchCase_array_values_not_matched (h : Host) (ev : Eval)
    (arrayObj : List DataType) (scope : Nat) (cases : List (List Expr × Expr)) (j : Nat)
    (sc : List Expr × Expr) (hj : cases.get? j = some sc)
    (harr : ∀ p ∈ sc.1, ∀ s0, ∃ w s1, ev p scope s0 = Res.ok (some w) s1 ∧
      w.Type = TypeTag.ARRAY_TYPE ∧
      h.Inspect s1.maps w ≠ h.Inspect s1.maps (Value.ArrayType arrayObj)) :
    ∀ (st st' : State) (e : Option String),
      runSwitchCase h ev (Value.ArrayType arrayObj) scope cases 0 st ≠
        Res.ok (some j, e) st' := by
  intro st st' e
  have hvalues : ∀ s : State,
      (∃ s', runSwitchCaseValues h ev (Value.ArrayType arrayObj) scope sc.1.length sc.1 0 0 s =
          Res.ok CaseStep.next s') ∨
      (∃ f, runSwitchCaseValues h ev (Value.ArrayType arrayObj) scope sc.1.length sc.1 0 0 s =
          Res.fault f) := fun s =>
    Or.inl (runSwitchCaseValues_same_type h ev _ scope _ sc.1 0 0 s harr)
  have := runSwitchCase_not_selected h ev _ scope sc hvalues cases 0 j st st' e hj
  rwa [Nat.zero_add] at this

/-- C7 (the code at a failing input): the control `[[1], [2]]` with the case `[1], [2]`,
each declared value equal to the element at its position, runs the default branch and
`runSwitchCase` does not select the case, while the control `[1, 2]` with the case
`1, _` runs the case. -/
theorem runSwitchCase_array_values_not_matched_witness :
    (Interpret sampleHost 5
        (switchProgram nestedControl [Expr.Array [Expr.Integer 1], Expr.Array [Expr.Integer 2]])
        0 initialState).value? = some (some (Value.IntegerType 0)) ∧
      (Interpret sampleHost 5
        (switchProgram (Expr.Array [Expr.Integer 1, Expr.Integer 2])
          [Expr.Integer 1, Expr.Placeholder]) 0 initialState).value? =
        some (some (Value.IntegerType 1)) ∧
      ∀ (st st' : State) (e : Option String),
        runSwitchCase sampleHost (Interpret sampleHost 3) (Value.ArrayType nestedControlValue) 0
          [([Expr.Array [Expr.Integer 1], Expr.Array [Expr.Integer 2]], Expr.Integer 1)] 0 st ≠
        Res.ok (some 0, e) st' := by
  refine ⟨by rfl, by rfl, ?_⟩
  apply runSwitchCase_array_values_not_matched sampleHost (Interpret sampleHost 3)
    nestedControlValue 0
    [([Expr.Array [Expr.Integer 1], Expr.Array [Expr.Integer 2]], Expr.Integer 1)] 0
    ([Expr.Array [Expr.Integer 1], Expr.Array [Expr.Integer 2]], Expr.Integer 1) rfl
  intro p hp s0
  simp only [List.mem_cons, List.mem_singleton, List.not_mem_nil, or_false] at hp
  rcases hp with rfl | rfl
  · exact ⟨Value.ArrayType [some (Value.IntegerType 1)], s0, rfl, rfl, by
      show sampleInspect s0.maps _ ≠ sampleInspect s0.maps _
      have h1 : sampleInspect s0.maps (Value.ArrayType [some (Value.IntegerType 1)]) = "[1, ]" := rfl
      have h2 : sampleInspect s0.maps (Value.ArrayType nestedControlValue) = "[[1, ], [2, ], ]" := rfl
      rw [h1, h2]; decide⟩
  · exact ⟨Value.ArrayType [some (Value.IntegerType 2)], s0, rfl, rfl, by
      show sampleInspect s0.maps _ ≠ sampleInspect s0.maps _
      have h1 : sampleInspect s0.maps (Value.ArrayType [some (Value.IntegerType 2)]) = "[2, ]" := rfl
      have h2 : sampleInspect s0.maps (Value.ArrayType nestedControlValue) = "[[1, ], [2, ], ]" := rfl
      rw [h1, h2]; decide⟩

theorem runSwitchCaseValues_arity (h : Host) (ev : Eval) (arrayObj : List DataType)
    (scope arity : Nat) (harity : arity ≠ arrayObj.length) :
    ∀ (values : List Expr) (idx matched : Nat) (st : State),
      (∀ p ∈ values, ∀ s0 v s1, ev p scope s0 = Res.ok (some v) s1 →
        v.Type = TypeTag.ARRAY_TYPE →
        h.Inspect s1.maps v ≠ h.Inspect s1.maps (Value.ArrayType arrayObj)) →
      (∃ st', runSwitchCaseValues h ev (Value.ArrayType arrayObj) scope arity values idx matched st =
          Res.ok CaseStep.next st') ∨
      (∃ f, runSwitchCaseValues h ev (Value.ArrayType arrayObj) scope arity values idx matched st =
          Res.fault f ∧
        (f = nilDereference ∨ ∃ p ∈ values, ∃ s0, ev p scope s0 = Res.fault f)) := by
  intro values
  induction values with
  | nil =>
    intro idx matched st _
    exact Or.inl ⟨st, rfl⟩
  | cons p rest ih =>
    intro idx matched st hneq
    have hrest : ∀ q ∈ rest, ∀ s0 v s1, ev q scope s0 = Res.ok (some v) s1 →
        v.Type = TypeTag.ARRAY_TYPE →
        h.Inspect s1.maps v ≠ h.Inspect s1.maps (Value.ArrayType arrayObj) :=
      fun q hq => hneq q (List.mem_cons_of_mem _ hq)
    have lift : ∀ (i m : Nat) (s : State),
        (∃ st', runSwitchCaseValues h ev (Value.ArrayType arrayObj) scope arity rest i m s =
            Res.ok CaseStep.next st') ∨
        (∃ f, runSwitchCaseValues h ev (Value.ArrayType arrayObj) scope arity rest i m s =
            Res.fault f ∧
          (f = nilDereference ∨ ∃ q ∈ p :: rest, ∃ s0, ev q scope s0 = Res.fault f)) := by
      intro i m s
      rcases ih i m s hrest with hok | ⟨f, hf, hsrc⟩
      · exact Or.inl hok
      · refine Or.inr ⟨f, hf, ?_⟩
        rcases hsrc with hnil | ⟨q, hq, s0, hs0⟩
        · exact Or.inl hnil
        · exact Or.inr ⟨q, List.mem_cons_of_mem _ hq, s0, hs0⟩
    unfold runSwitchCaseValues
    simp only [bind_apply]
    cases hev : ev p scope st with
    | fault f =>
      exact Or.inr ⟨f, rfl, Or.inr ⟨p, List.mem_cons_self _ _, st, hev⟩⟩
    | ok evaluated st1 =>
      cases evaluated with
      | none => exact Or.inr ⟨nilDereference, rfl, Or.inl rfl⟩
      | some parameter =>
        simp only [bind_apply, getState]
        by_cases hty : parameter.Type = TypeTag.ARRAY_TYPE
        · have hne := hneq p (List.mem_cons_self _ _) st parameter st1 hev hty
          have hty' : parameter.Type = (Value.ArrayType arrayObj).Type := hty
          simp only [if_pos hty', if_neg hne]
          exact lift _ _ _
        · have hty' : ¬ parameter.Type = (Value.ArrayType arrayObj).Type := hty
          simp only [if_neg hty']
          cases parameter <;> simp only [if_pos harity, ne_eq, not_false_eq_true] <;>
            exact lift _ _ _

/-- C8: for an Array control, a case whose list of declared values has a length other
than the array's, and none of whose declared values evaluates to an Array that renders
like the whole control, is not the case `runSwitchCase` selects; evaluating its values
either moves on to the next case or faults with the fault of evaluating one of the
values or of a value that evaluated to `nil`, never with an index out of range. -/
theorem runSwitchCase_arity_mismatch (h : Host) (ev : Eval) (arrayObj : List DataType)
    (scope : Nat) (cases : List (List Expr × Expr)) (j : Nat) (sc : List Expr × Expr)
    (hj : cases.get? j = some sc) (hlen : sc.1.length ≠ arrayObj.length)
    (hneq : ∀ p ∈ sc.1, ∀ s0 v s1, ev p scope s0 = Res.ok (some v) s1 →
      v.Type = TypeTag.ARRAY_TYPE →
      h.Inspect s1.maps v ≠ h.Inspect s1.maps (Value.ArrayType arrayObj)) :
    (∀ (st st' : State) (e : Option String),
      runSwitchCase h ev (Value.ArrayType arrayObj) scope cases 0 st ≠ Res.ok (some j, e) st') ∧
    (∀ st : State,
      (∃ st', runSwitchCaseValues h ev (Value.ArrayType arrayObj) scope sc.1.length sc.1 0 0 st =
          Res.ok CaseStep.next st') ∨
      (∃ f, runSwitchCaseValues h ev (Value.ArrayType arrayObj) scope sc.1.length sc.1 0 0 st =
          Res.fault f ∧
        (f = nilDereference ∨ ∃ p ∈ sc.1, ∃ s0, ev p scope s0 = Res.fault f))) := by
  have hvalues := fun st =>
    runSwitchCaseValues_arity h ev arrayObj scope sc.1.length hlen sc.1 0 0 st hneq
  refine ⟨?_, hvalues⟩
  intro st st' e
  have hweak : ∀ s : State,
      (∃ s', runSwitchCaseValues h ev (Value.ArrayType arrayObj) scope sc.1.length sc.1 0 0 s =
          Res.ok CaseStep.next s') ∨
      (∃ f, runSwitchCaseValues h ev (Value.ArrayType arrayObj) scope sc.1.length sc.1 0 0 s =
          Res.fault f) := by
    intro s
    rcases hvalues s with hok | ⟨f, hf, _⟩
    · exact Or.inl hok
    · exact Or.inr ⟨f, hf⟩
  have := runSwitchCase_not_selected h ev _ scope sc hweak cases 0 j st st' e hj
  rwa [Nat.zero_add] at this

/-- C8, an instance: the case `1, 2, 3` is not selected for the control `[1, 2]`. -/
theorem runSwitchCase_arity_mismatch_witness :
    runSwitchCase sampleHost (Interpret sampleHost 2) (Value.ArrayType pairControlValue) 0
        [([Expr.Integer 1, Expr.Integer 2, Expr.Integer 3], Expr.Integer 1)] 0 initialState =
      Res.ok (none, none) initialState ∧
    ∀ (st st' : State) (e : Option String),
      runSwitchCase sampleHost (Interpret sampleHost 2) (Value.ArrayType pairControlValue) 0
        [([Expr.Integer 1, Expr.Integer 2, Expr.Integer 3], Expr.Integer 1)] 0 st ≠
      Res.ok (some 0, e) st' := by
  refine ⟨by rfl, ?_⟩
  refine (runSwitchCase_arity_mismatch sampleHost (Interpret sampleHost 2) pairControlValue 0
    [([Expr.Integer 1, Expr.Integer 2, Expr.Integer 3], Expr.Integer 1)] 0
    ([Expr.Integer 1, Expr.Integer 2, Expr.Integer 3], Expr.Integer 1) rfl (by decide) ?_).1
  intro p hp s0 v s1 hev hty
  have hint : ∀ k : Int, Interpret sampleHost 2 (Expr.Integer k) 0 s0 =
      Res.ok (some (Value.IntegerType k)) s0 := fun _ => rfl
  simp only [List.mem_cons, List.mem_singleton, List.not_mem_nil, or_false] at hp
  rcases hp with rfl | rfl | rfl <;>
  · rw [hint] at hev
    injection hev with hv _
    injection hv with hv
    subst hv
    cases hty

/-! ## Array subscript -/

/-- C9: for an Array of length `n` and an Integer index `i`, `runArraySubscript` returns
the element at position `i` when `0 ≤ i < n`, the element at position `n + i` when
`-n ≤ i < 0`, and the out-of-bounds error exactly when `i ≥ n` or `i < -n`. -/
theorem runArraySubscript_spec (arrayObj : List DataType) (i : Int) (st : State) :
    (0 ≤ i ∧ i < arrayObj.length →
      ∃ x, arrayObj.get? i.toNat = some x ∧
        runArraySubscript arrayObj i st = Res.ok (x, none) st) ∧
    (-(arrayObj.length : Int) ≤ i ∧ i < 0 →
      ∃ x, arrayObj.get? ((arrayObj.length : Int) + i).toNat = some x ∧
        runArraySubscript arrayObj i st = Res.ok (x, none) st) ∧
    ((arrayObj.length : Int) ≤ i ∨ i < -(arrayObj.length : Int) ↔
      runArraySubscript arrayObj i st =
        Res.ok (none, some ("Array index '" ++ toString i ++ "' out of bounds")) st) := by
  have hget : ∀ k : Int, 0 ≤ k → k < arrayObj.length →
      ∃ x, arrayObj.get? k.toNat = some x := by
    intro k h0 h1
    have hk : k.toNat < arrayObj.length := by omega
    exact ⟨arrayObj.get ⟨k.toNat, hk⟩, List.get?_eq_get hk⟩
  have inRange1 : 0 ≤ i ∧ i < arrayObj.length →
      ∃ x, arrayObj.get? i.toNat = some x ∧
        runArraySubscript arrayObj i st = Res.ok (x, none) st := by
    rintro ⟨h0, h1⟩
    obtain ⟨x, hx⟩ := hget i h0 h1
    refine ⟨x, hx, ?_⟩
    unfold runArraySubscript
    simp only [if_neg (not_lt.mpr h0)]
    rw [if_neg (by omega), hx]
    rfl
  have inRange2 : -(arrayObj.length : Int) ≤ i ∧ i < 0 →
      ∃ x, arrayObj.get? ((arrayObj.length : Int) + i).toNat = some x ∧
        runArraySubscript arrayObj i st = Res.ok (x, none) st := by
    rintro ⟨h0, h1⟩
    obtain ⟨x, hx⟩ := hget ((arrayObj.length : Int) + i) (by omega) (by omega)
    refine ⟨x, hx, ?_⟩
    unfold runArraySubscript
    simp only [if_pos h1]
    rw [if_neg (by omega), hx]
    rfl
  refine ⟨inRange1, inRange2, ?_⟩
  constructor
  · intro hout
    unfold runArraySubscript
    by_cases hneg : i < 0
    · simp only [if_pos hneg]
      rw [if_pos (by omega)]
      rfl
    · simp only [if_neg hneg]
      rw [if_pos (by omega)]
      rfl
  · intro herr
    by_contra hin
    have hcases : (0 ≤ i ∧ i < arrayObj.length) ∨ (-(arrayObj.length : Int) ≤ i ∧ i < 0) := by
      omega
    rcases hcases with hc | hc
    · obtain ⟨x, _, hx⟩ := inRange1 hc
      rw [hx] at herr
      simp at herr
    · obtain ⟨x, _, hx⟩ := inRange2 hc
      rw [hx] at herr
      simp at herr

/-- C9, an instance: on the Array `[10, 20, 30]` index `-1` yields the element at index
`2`, and index `-4` is the out-of-bounds error. -/
theorem runArraySubscript_spec_witness :
    runArraySubscript [some (Value.IntegerType 10), some (Value.IntegerType 20),
        some (Value.IntegerType 30)] (-1) initialState =
      Res.ok (some (Value.IntegerType 30), none) initialState ∧
    runArraySubscript [some (Value.IntegerType 10), some (Value.IntegerType 20),
        some (Value.IntegerType 30)] 2 initialState =
      Res.ok (some (Value.IntegerType 30), none) initialState ∧
    runArraySubscript [some (Value.IntegerType 10), some (Value.IntegerType 20),
        some (Value.IntegerType 30)] (-4) initialState =
      Res.ok (none, some "Array index '-4' out of bounds") initialState := by
  refine ⟨by rfl, by rfl, ?_⟩
  exact ((runArraySubscript_spec [some (Value.IntegerType 10), some (Value.IntegerType 20),
        some (Value.IntegerType 30)] (-4) initialState).2.2).mp (by decide)

/-! ## Distinct dictionary keys -/

/-- C10 (the code at failing inputs): the dictionary literal `["a": 1, "a": 2]` evaluates
to a Dictionary with two keys of the same text `a`, and the merge `["k": 1] + ["k": 2]`
of two one-key Dictionaries evaluates to a Dictionary with two keys of the same text
`k`: the keys of the underlying map are distinct key objects, not distinct texts. -/
theorem dictionary_keys_repeat_text (h : Host) :
    (Interpret h 3 duplicateKeyLiteral 0 initialState).value? =
        some (some (Value.DictionaryType 0)) ∧
      (Interpret h 3 duplicateKeyLiteral 0 initialState).state?.map
          (fun st => (st.mapAt 0).keyTexts) = some ["a", "a"] ∧
      (Interpret h.stored 3 mergeProgram 0 initialState).value? =
        some (some (Value.DictionaryType 1)) ∧
      (Interpret h.stored 3 mergeProgram 0 initialState).state?.map
          (fun st => (st.mapAt 1).keyTexts) = some ["k", "k"] ∧
      ¬ (["a", "a"] : List String).Nodup ∧ ¬ (["k", "k"] : List String).Nodup := by
  refine ⟨by rfl, by rfl, by rfl, by rfl, by decide, by decide⟩

/-! ## Dictionary equality -/

theorem bind_pure_value {α : Type} (x : M α) (st : State) :
    ((x >>= fun r => pure r) st).value? = (x st).value? := by
  rw [bind_apply]
  cases x st <;> rfl

theorem compareDictionariesInner_spec (h : Host) (maps : List GoMap) (lk : StringKey) (a : Value) :
    ∀ (right : GoMap) (found : Nat), (∀ r ∈ right, r.2 ≠ none) →
      compareDictionariesInner h maps lk (some a) right found =
        Except.ok (found + right.countP (entryMatches h maps (lk, some a))) := by
  intro right
  induction right with
  | nil => intro found _; rfl
  | cons r rest ih =>
    intro found hne
    obtain ⟨rk, rv⟩ := r
    have hrv : rv ≠ none := hne (rk, rv) (List.mem_cons_self _ _)
    obtain ⟨b, rfl⟩ : ∃ b, rv = some b := Option.ne_none_iff_exists'.mp hrv
    have hrest : ∀ r ∈ rest, r.2 ≠ none := fun r hr => hne r (List.mem_cons_of_mem _ hr)
    unfold compareDictionariesInner
    by_cases hk : lk.Value = rk.Value
    · rw [if_pos hk]
      by_cases hv : h.Inspect maps a = h.Inspect maps b
      · simp only [hv, if_true]
        rw [ih (found + 1) hrest, List.countP_cons_of_pos]
        · congr 1; omega
        · simp [entryMatches, hk, hv]
      · simp only [hv, if_false]
        rw [ih found hrest, List.countP_cons_of_neg]
        simp [entryMatches, hv]
    · rw [if_neg hk, ih found hrest, List.countP_cons_of_neg]
      simp [entryMatches, hk]

theorem compareDictionariesOuter_spec (h : Host) (right : Nat) :
    ∀ (left : GoMap) (found : Nat) (st : State),
      (∀ l ∈ left, l.2 ≠ none) → (∀ r ∈ st.mapAt right, r.2 ≠ none) →
      compareDictionariesOuter h right left found st =
        Res.ok (found + matchCount h st.maps left (st.mapAt right))
          { st with ranges := st.ranges + left.length } := by
  intro left
  induction left with
  | nil => intro found st _ _; rfl
  | cons l rest ih =>
    intro found st hl hr
    obtain ⟨lk, lv⟩ := l
    have hlv : lv ≠ none := hl (lk, lv) (List.mem_cons_self _ _)
    obtain ⟨a, rfl⟩ : ∃ a, lv = some a := Option.ne_none_iff_exists'.mp hlv
    have hrest : ∀ l ∈ rest, l.2 ≠ none := fun l hl' => hl l (List.mem_cons_of_mem _ hl')
    have hperm := h.rangeOrder_perm st.ranges (st.mapAt right)
    have hinner : ∀ r ∈ h.rangeOrder st.ranges (st.mapAt right), r.2 ≠ none :=
      fun r hr' => hr r (hperm.mem_iff.mp hr')
    unfold compareDictionariesOuter
    simp only [bind_apply, rangeMap, getState,
      compareDictionariesInner_spec h st.maps lk a _ found hinner]
    rw [ih _ { st with ranges := st.ranges + 1 } hrest hr, hperm.countP_eq]
    simp only [State.mapAt, matchCount, List.map_cons, List.sum_cons, List.length_cons]
    congr 1
    · omega
    · congr 1; omega

/-- The result of `compareDictionaries` on two dictionaries without `nil` values: whether
the sizes agree and the number of matching pairs of entries is the size of the left
dictionary, whatever the order in which the maps are ranged over. -/
theorem compareDictionaries_spec (h : Host) (left right : Nat) (st : State)
    (hl : ∀ l ∈ st.mapAt left, l.2 ≠ none) (hr : ∀ r ∈ st.mapAt right, r.2 ≠ none) :
    ∃ st', compareDictionaries h left right st =
      Res.ok (decide ((st.mapAt left).length = (st.mapAt right).length ∧
        matchCount h st.maps (st.mapAt left) (st.mapAt right) = (st.mapAt left).length)) st' ∧
      st'.errors = st.errors := by
  unfold compareDictionaries
  simp only [bind_apply, getState]
  by_cases hlen : (st.mapAt left).length = (st.mapAt right).length
  · rw [if_neg (not_not.mpr hlen)]
    have hperm := h.rangeOrder_perm st.ranges (st.mapAt left)
    have houter : ∀ l ∈ h.rangeOrder st.ranges (st.mapAt left), l.2 ≠ none :=
      fun l hl' => hl l (hperm.mem_iff.mp hl')
    simp only [bind_apply, rangeMap]
    rw [compareDictionariesOuter_spec h right _ 0 { st with ranges := st.ranges + 1 } houter hr]
    have hsum : matchCount h st.maps (h.rangeOrder st.ranges (st.mapAt left)) (st.mapAt right) =
        matchCount h st.maps (st.mapAt left) (st.mapAt right) := (hperm.map _).sum_eq
    refine ⟨{ st with ranges := st.ranges + 1 +
      (h.rangeOrder st.ranges (st.mapAt left)).length }, ?_, rfl⟩
    simp only [pure_apply, Nat.zero_add, hlen, true_and]
    rw [← hsum, ← hlen]
    rfl
  · rw [if_pos hlen]
    exact ⟨st, by simp [pure_apply, hlen], rfl⟩

/-- The operators `==` and `!=` of `runDictionaryInfix` on two dictionaries without `nil`
values: `==` is the result of `compareDictionaries`, `!=` its negation, and neither
reports an error. -/
theorem runDictionaryInfix_eq (h : Host) (left right : Nat) (st : State)
    (hl : ∀ l ∈ st.mapAt left, l.2 ≠ none) (hr : ∀ r ∈ st.mapAt right, r.2 ≠ none) :
    (∃ st', runDictionaryInfix h "==" left right st =
      Res.ok (some (Value.BooleanType (decide
        ((st.mapAt left).length = (st.mapAt right).length ∧
          matchCount h st.maps (st.mapAt left) (st.mapAt right) = (st.mapAt left).length))),
        none) st') ∧
    (∃ st', runDictionaryInfix h "!=" left right st =
      Res.ok (some (Value.BooleanType (!decide
        ((st.mapAt left).length = (st.mapAt right).length ∧
          matchCount h st.maps (st.mapAt left) (st.mapAt right) = (st.mapAt left).length))),
        none) st') := by
  obtain ⟨st', hc, _⟩ := compareDictionaries_spec h left right st hl hr
  constructor
  · refine ⟨st', ?_⟩
    simp only [runDictionaryInfix, bind_apply, hc, pure_apply, nativeToBoolean]
  · refine ⟨st', ?_⟩
    simp only [runDictionaryInfix, bind_apply, hc, pure_apply, nativeToBoolean]

theorem entryMatches_iff (h : Host) (maps : List GoMap) (l r : StringKey × DataType)
    (hl : l.2 ≠ none) (hr : r.2 ≠ none) :
    entryMatches h maps l r = true ↔ entryContent h maps l = entryContent h maps r := by
  obtain ⟨lk, lv⟩ := l
  obtain ⟨rk, rv⟩ := r
  obtain ⟨a, rfl⟩ : ∃ a, lv = some a := Option.ne_none_iff_exists'.mp hl
  obtain ⟨b, rfl⟩ : ∃ b, rv = some b := Option.ne_none_iff_exists'.mp hr
  simp [entryMatches, entryContent]

theorem countP_key_le_one (right : GoMap) (hnodup : right.keyTexts.Nodup) (k : String) :
    right.countP (fun r => decide (r.1.Value = k)) ≤ 1 := by
  have hc := List.nodup_iff_count_le_one.mp hnodup k
  rw [List.count_eq_countP, GoMap.keyTexts, List.countP_map] at hc
  refine le_trans (List.countP_mono_left ?_) hc
  intro x _ hx
  simpa using hx

theorem sum_eq_length_iff (g : (StringKey × DataType) → Nat) :
    ∀ (left : GoMap), (∀ l ∈ left, g l ≤ 1) →
      ((left.map g).sum = left.length ↔ ∀ l ∈ left, g l = 1) := by
  intro left
  induction left with
  | nil => intro _; simp
  | cons l rest ih =>
    intro hle
    have h1 := hle l (List.mem_cons_self _ _)
    have hrest : ∀ x ∈ rest, g x ≤ 1 := fun x hx => hle x (List.mem_cons_of_mem _ hx)
    have hsum : (rest.map g).sum ≤ rest.length := by
      clear ih hle h1
      induction rest with
      | nil => simp
      | cons x xs ihx =>
        have := hrest x (List.mem_cons_self _ _)
        have := ihx (fun y hy => hrest y (List.mem_cons_of_mem _ hy))
        simp only [List.map_cons, List.sum_cons, List.length_cons]
        omega
    simp only [List.map_cons, List.sum_cons, List.length_cons, List.mem_cons, forall_eq_or_imp]
    rw [← ih hrest]
    omega

theorem matchCount_eq_length_iff (h : Host) (maps : List GoMap) (left right : GoMap)
    (hl : ∀ l ∈ left, l.2 ≠ none) (hr : ∀ r ∈ right, r.2 ≠ none)
    (hnodup : right.keyTexts.Nodup) :
    matchCount h maps left right = left.length ↔
      ∀ l ∈ left, entryContent h maps l ∈ right.map (entryContent h maps) := by
  have hle : ∀ l ∈ left, right.countP (entryMatches h maps l) ≤ 1 := by
    intro l hlmem
    refine le_trans (List.countP_mono_left ?_) (countP_key_le_one right hnodup l.1.Value)
    intro r hrmem hm
    have := (entryMatches_iff h maps l r (hl l hlmem) (hr r hrmem)).mp hm
    simp only [entryContent, Prod.mk.injEq] at this
    simp [this.1]
  unfold matchCount
  rw [sum_eq_length_iff _ left hle]
  constructor
  · intro hall l hlmem
    have hpos : 0 < right.countP (entryMatches h maps l) := by rw [hall l hlmem]; exact Nat.one_pos
    obtain ⟨r, hrmem, hm⟩ := List.countP_pos_iff.mp hpos
    rw [(entryMatches_iff h maps l r (hl l hlmem) (hr r hrmem)).mp hm]
    exact List.mem_map_of_mem _ hrmem
  · intro hall l hlmem
    obtain ⟨r, hrmem, hcontent⟩ := List.mem_map.mp (hall l hlmem)
    have hpos : 0 < right.countP (entryMatches h maps l) :=
      List.countP_pos_iff.mpr ⟨r, hrmem,
        (entryMatches_iff h maps l r (hl l hlmem) (hr r hrmem)).mpr hcontent.symm⟩
    have := hle l hlmem
    omega

theorem contents_nodup (h : Host) (maps : List GoMap) (m : GoMap) (hnodup : m.keyTexts.Nodup) :
    (m.map (entryContent h maps)).Nodup := by
  apply List.Nodup.of_map Prod.fst
  rw [List.map_map]
  exact hnodup

theorem same_contents_iff (h : Host) (maps : List GoMap) (left right : GoMap)
    (hl : ∀ l ∈ left, l.2 ≠ none) (hr : ∀ r ∈ right, r.2 ≠ none)
    (hleft : left.keyTexts.Nodup) (hright : right.keyTexts.Nodup) :
    (left.length = right.length ∧ matchCount h maps left right = left.length) ↔
      ∀ p, p ∈ left.map (entryContent h maps) ↔ p ∈ right.map (entryContent h maps) := by
  rw [matchCount_eq_length_iff h maps left right hl hr hright]
  have dl := contents_nodup h maps left hleft
  have dr := contents_nodup h maps right hright
  constructor
  · rintro ⟨hlen, hsub⟩
    have hsubset : left.map (entryContent h maps) ⊆ right.map (entryContent h maps) := by
      intro p hp
      obtain ⟨l, hlmem, rfl⟩ := List.mem_map.mp hp
      exact hsub l hlmem
    have hperm := (List.subperm_of_subset dl hsubset).perm_of_length_le
      (by rw [List.length_map, List.length_map, hlen])
    exact fun p => hperm.mem_iff
  · intro hmem
    have hperm := (List.perm_ext_iff_of_nodup dl dr).mpr hmem
    refine ⟨by simpa using hperm.length_eq, ?_⟩
    intro l hlmem
    exact (hmem _).mp (List.mem_map_of_mem _ hlmem)

/-- On two dictionaries whose key texts are pairwise distinct and whose values are not
`nil`, `==` is true exactly when both hold the same (key text, value rendering) pairs. -/
theorem runDictionaryInfix_eq_distinct_keys (h : Host) (left right : Nat) (st : State)
    (hl : ∀ l ∈ st.mapAt left, l.2 ≠ none) (hr : ∀ r ∈ st.mapAt right, r.2 ≠ none)
    (hleft : (st.mapAt left).keyTexts.Nodup) (hright : (st.mapAt right).keyTexts.Nodup) :
    ∃ b st', runDictionaryInfix h "==" left right st =
        Res.ok (some (Value.BooleanType b), none) st' ∧
      (b = true ↔ ∀ p, p ∈ (st.mapAt left).map (entryContent h st.maps) ↔
        p ∈ (st.mapAt right).map (entryContent h st.maps)) := by
  obtain ⟨st', hrun⟩ := (runDictionaryInfix_eq h left right st hl hr).1
  refine ⟨_, st', hrun, ?_⟩
  rw [decide_eq_true_iff]
  exact same_contents_iff h st.maps _ _ hl hr hleft hright

/-- C11 (the code at failing inputs): with `d` bound to the value of the literal
`["a": 1, "a": 1]`, whose two keys are distinct key objects with the same text, `d == d`
is false, because `compareDictionaries` counts four matching pairs of entries where the
size is two; `["a": 1, "a": 1] == ["a": 1, "b": 2]` is true, because it counts two,
although the right operand holds the pair `("b", 2)` and the left one does not; and with
`d` bound to the merge `["k": 1] + ["k": 1]`, which holds the key text `k` twice as well,
`d == d` is false again. -/
theorem dictionary_equality_counts_pairs (h : Host) :
    (Interpret h 4 selfEqualityProgram 0 initialState).value? =
        some (some (Value.BooleanType false)) ∧
      (Interpret h 3 unequalSetsProgram 0 initialState).value? =
        some (some (Value.BooleanType true)) ∧
      (Interpret h.stored 5 mergedSelfEqualityProgram 0 initialState).value? =
        some (some (Value.BooleanType false)) := by
  refine ⟨?_, ?_, ?_⟩
  · have e : ∃ st, Interpret h 4 selfEqualityProgram 0 initialState =
          ((runDictionaryInfix h "==" 0 0 >>= reportAndReturn) >>= fun r => pure r) st ∧
        st.maps = [[(⟨0, "a"⟩, some (Value.IntegerType 1)), (⟨1, "a"⟩, some (Value.IntegerType 1))]] :=
      ⟨{ scopes := [{ store := [("d", some (Value.DictionaryType 0))], parent := none }],
         maps := [[(⟨0, "a"⟩, some (Value.IntegerType 1)), (⟨1, "a"⟩, some (Value.IntegerType 1))]],
         nextAddr := 2, functions := [], errors := [], ranges := 0 }, rfl, rfl⟩
    obtain ⟨st, hrun, hmaps⟩ := e
    have hmap : st.mapAt 0 =
        [(⟨0, "a"⟩, some (Value.IntegerType 1)), (⟨1, "a"⟩, some (Value.IntegerType 1))] := by
      simp [State.mapAt, hmaps]
    obtain ⟨st', hc⟩ :=
      (runDictionaryInfix_eq h 0 0 st (by rw [hmap]; simp) (by rw [hmap]; simp)).1
    rw [hrun, bind_pure_value, bind_apply, hc, hmap]
    simp [matchCount, entryMatches, reportAndReturn, Res.value?, pure_apply]
  · have e : ∃ st, Interpret h 3 unequalSetsProgram 0 initialState =
          (runDictionaryInfix h "==" 0 1 >>= reportAndReturn) st ∧
        st.maps = [[(⟨0, "a"⟩, some (Value.IntegerType 1)), (⟨1, "a"⟩, some (Value.IntegerType 1))],
          [(⟨2, "a"⟩, some (Value.IntegerType 1)), (⟨3, "b"⟩, some (Value.IntegerType 2))]] :=
      ⟨{ initialState with
         maps := [[(⟨0, "a"⟩, some (Value.IntegerType 1)), (⟨1, "a"⟩, some (Value.IntegerType 1))],
          [(⟨2, "a"⟩, some (Value.IntegerType 1)), (⟨3, "b"⟩, some (Value.IntegerType 2))]],
         nextAddr := 4 }, rfl, rfl⟩
    obtain ⟨st, hrun, hmaps⟩ := e
    have hmap0 : st.mapAt 0 =
        [(⟨0, "a"⟩, some (Value.IntegerType 1)), (⟨1, "a"⟩, some (Value.IntegerType 1))] := by
      simp [State.mapAt, hmaps]
    have hmap1 : st.mapAt 1 =
        [(⟨2, "a"⟩, some (Value.IntegerType 1)), (⟨3, "b"⟩, some (Value.IntegerType 2))] := by
      simp [State.mapAt, hmaps]
    obtain ⟨st', hc⟩ :=
      (runDictionaryInfix_eq h 0 1 st (by rw [hmap0]; simp) (by rw [hmap1]; simp)).1
    rw [hrun, bind_apply, hc, hmap0, hmap1]
    simp [matchCount, entryMatches, reportAndReturn, Res.value?, pure_apply]
  · have e : ∃ st, Interpret h.stored 5 mergedSelfEqualityProgram 0 initialState =
          ((runDictionaryInfix h.stored "==" 1 1 >>= reportAndReturn) >>= fun r => pure r) st ∧
        st.maps = [[(⟨0, "k"⟩, some (Value.IntegerType 1))],
          [(⟨1, "k"⟩, some (Value.IntegerType 1)), (⟨0, "k"⟩, some (Value.IntegerType 1))]] :=
      ⟨{ scopes := [{ store := [("d", some (Value.DictionaryType 1))], parent := none }],
         maps := [[(⟨0, "k"⟩, some (Value.IntegerType 1))],
          [(⟨1, "k"⟩, some (Value.IntegerType 1)), (⟨0, "k"⟩, some (Value.IntegerType 1))]],
         nextAddr := 2, functions := [], errors := [], ranges := 1 }, rfl, rfl⟩
    obtain ⟨st, hrun, hmaps⟩ := e
    have hmap : st.mapAt 1 =
        [(⟨1, "k"⟩, some (Value.IntegerType 1)), (⟨0, "k"⟩, some (Value.IntegerType 1))] := by
      simp [State.mapAt, hmaps]
    obtain ⟨st', hc⟩ :=
      (runDictionaryInfix_eq h.stored 1 1 st (by rw [hmap]; simp) (by rw [hmap]; simp)).1
    rw [hrun, bind_pure_value, bind_apply, hc, hmap]
    simp [matchCount, entryMatches, reportAndReturn, Res.value?, pure_apply]

/-! ## Break and Continue at the end of a function body -/

/-- For every host, the calls `(fn() { break })()` and `(fn() { continue })()` report no
error and return the Break and the Continue signal as their values; in
`for x in [1, 2, 3] { (fn() { break })() }` the signal returned by the call ends the
caller's loop, which yields the empty Array without any error. -/
theorem break_escapes_function_call (h : Host) :
    (Interpret h 3 breakCall 0 initialState).value? = some (some Value.BreakType) ∧
    (Interpret h 3 breakCall 0 initialState).state?.map (fun st => st.errors) = some [] ∧
    (Interpret h 3 continueCall 0 initialState).value? = some (some Value.ContinueType) ∧
    (Interpret h 3 continueCall 0 initialState).state?.map (fun st => st.errors) = some [] ∧
    (Interpret h 6 forBreakCall 0 initialState).value? = some (some (Value.ArrayType [])) ∧
    (Interpret h 6 forBreakCall 0 initialState).state?.map (fun st => st.errors) = some [] := by
  refine ⟨by rfl, by rfl, by rfl, by rfl, by rfl, by rfl⟩

theorem runFunctionBody_steps (ev : Eval) (fnScope : Nat) (l : List Expr) :
    ∀ (pre : List Expr) (result : DataType) (st : State) (last : DataType) (st1 : State),
      bodyStepsThrough ev fnScope pre result st last st1 →
      runFunctionBody ev fnScope (pre ++ l) result st =
        runFunctionBody ev fnScope l last st1 := by
  intro pre
  induction pre with
  | nil =>
    intro result st last st1 hsteps
    obtain ⟨h1, h2⟩ := hsteps
    subst h1 h2
    rfl
  | cons s rest ih =>
    intro result st last st1 hsteps
    obtain ⟨r, s1, hev, hplain, hrest⟩ := hsteps
    rw [List.cons_append]
    conv_lhs => unfold runFunctionBody
    simp only [bind_apply, hev]
    rw [← ih (some r) (s1.afterStatement fnScope r) last st1 hrest]
    cases r <;> simp only [hplain, Bool.false_eq_true, if_false, bind_apply, pure_apply,
      mergeScope, State.afterStatement]

/-- C12 (amended): when the callee evaluates to a function, the number of arguments is the
number of parameters, the arguments are evaluated, the statements `pre` of the body run
through without a signal, and the next statement `s` yields Break or Continue, then the
call returns that signal as its value in the state `s` left: it reports no error, and the
statements `post` after `s` are not evaluated. -/
theorem runFunction_returns_signal (h : Host) (ev : Eval) (function : Expr)
    (arguments : List Expr) (scope : Nat) (parameters : List String) (pre post : List Expr)
    (s : Expr) (fnScope : Nat) (st st1 st2 st3 st4 : State) (last : DataType) (signal : Value)
    (hfn : ev function scope st =
      Res.ok (some (Value.FunctionType parameters (pre ++ s :: post) fnScope)) st1)
    (harity : arguments.length = parameters.length)
    (hargs : runFunctionArguments ev scope fnScope arguments parameters
      (st1.withOwnName h (Value.FunctionType parameters (pre ++ s :: post) fnScope) fnScope) =
        Res.ok () st2)
    (hpre : bodyStepsThrough ev fnScope pre none st2 last st3)
    (hs : ev s fnScope st3 = Res.ok (some signal) st4)
    (hsignal : signal = Value.BreakType ∨ signal = Value.ContinueType) :
    runFunction h ev function arguments scope st = Res.ok (some signal) st4 := by
  have hbody : runFunctionBody ev fnScope (pre ++ s :: post) none st2 =
      Res.ok (some signal) st4 := by
    rw [runFunctionBody_steps ev fnScope _ pre none st2 last st3 hpre]
    unfold runFunctionBody
    simp only [bind_apply, hs]
    rcases hsignal with hb | hc
    · subst hb; rfl
    · subst hc; rfl
  unfold runFunction
  simp only [bind_apply, hfn]
  rw [if_neg (by omega), if_neg (by omega)]
  simp only [bind_apply, getState]
  unfold State.withOwnName at hargs
  cases hl : st1.functions.lookup
      (h.Inspect st1.maps (Value.FunctionType parameters (pre ++ s :: post) fnScope)) with
  | none =>
    rw [hl] at hargs
    simp only at hargs
    simp only [bind_apply, pure_apply, hargs, hbody]
    rcases hsignal with hb | hc
    · subst hb; rfl
    · subst hc; rfl
  | some v =>
    rw [hl] at hargs
    simp only at hargs
    simp only [bind_apply, writeScope, pure_apply, hargs, hbody]
    rcases hsignal with hb | hc
    · subst hb; rfl
    · subst hc; rfl

/-- C12 (amended), an instance: the call `(fn() { 1; break; 2 })()` returns the Break
signal and reports no error. -/
theorem runFunction_returns_signal_witness :
    runFunction sampleHost (Interpret sampleHost 2)
        (Expr.Function [] [Expr.ExpressionStatement (Expr.Integer 1), Expr.Break,
          Expr.ExpressionStatement (Expr.Integer 2)]) [] 0 initialState =
      Res.ok (some Value.BreakType)
        { initialState with scopes := initialState.scopes ++ [{ store := [], parent := none }] } :=
  runFunction_returns_signal sampleHost (Interpret sampleHost 2)
    (Expr.Function [] [Expr.ExpressionStatement (Expr.Integer 1), Expr.Break,
      Expr.ExpressionStatement (Expr.Integer 2)]) [] 0 []
    [Expr.ExpressionStatement (Expr.Integer 1)] [Expr.ExpressionStatement (Expr.Integer 2)]
    Expr.Break 1 initialState _ _ _ _ (some (Value.IntegerType 1)) Value.BreakType
    rfl rfl rfl ⟨_, _, rfl, rfl, rfl, rfl⟩ rfl (Or.inl rfl)

/-- C12 (as stated, refuted): the call `(fn() { break })()` surfaces no error and its
value is the Break signal. -/
theorem break_call_surfaces_no_error :
    (Interpret sampleHost 3 breakCall 0 initialState).value? = some (some Value.BreakType) ∧
    (Interpret sampleHost 3 breakCall 0 initialState).state?.map (fun st => st.errors) =
      some [] := by
  refine ⟨by rfl, by rfl⟩

/-! ## Arguments that fail to evaluate -/

/-- C13 (the code at failing inputs): in `(fn(a) { 7 })(y)` the argument `y` is not bound
and fails, yet the body runs and the call yields `7`; in
`(fn(f) { f(1); f(y) })(fn(a) { a })` the second call of `f`, whose argument fails, runs
the body with `a` still bound to the `1` of the first call and yields `1`; so does, on
the sample host, the program `let f = fn(a) { a }` followed by `f(1)` and `f(y)`.  The
only error reported is the one for `y`. -/
theorem failed_argument_still_runs_body (h : Host) :
    (Interpret h 4 unboundArgumentCall 0 initialState).value? =
        some (some (Value.IntegerType 7)) ∧
    (Interpret h 4 unboundArgumentCall 0 initialState).state?.map (fun st => st.errors) =
        some ["Identifier 'y' not found in current scope"] ∧
    (Interpret h 6 staleArgumentCall 0 initialState).value? =
        some (some (Value.IntegerType 1)) ∧
    (Interpret h 6 staleArgumentCall 0 initialState).state?.map (fun st => st.errors) =
        some ["Identifier 'y' not found in current scope"] ∧
    (Interpret sampleHost 6 staleArgumentProgram 0 initialState).value? =
        some (some (Value.IntegerType 1)) ∧
    (Interpret sampleHost 6 staleArgumentProgram 0 initialState).state?.map
        (fun st => st.errors) = some ["Identifier 'y' not found in current scope"] := by
  refine ⟨by rfl, by rfl, by rfl, by rfl, by rfl, by rfl⟩

/-! ## Faults of the Integer operators -/

theorem pure_ite_ok (c : Prop) [Decidable c] (x y : OpResult) (st : State) :
    ∃ r, (if c then (pure x : M OpResult) else pure y) st = Res.ok r st := by
  by_cases hc : c
  · rw [if_pos hc]; exact ⟨_, rfl⟩
  · rw [if_neg hc]; exact ⟨_, rfl⟩

/-- Every Integer operator other than `..`, and other than `%` with a zero right operand,
returns a result pair and leaves the state alone. -/
theorem runIntegerInfix_returns (h : Host) (operator : String) (a b : Int) (st : State)
    (hrange : operator ≠ "..") (hmod : operator = "%" → b ≠ 0) :
    ∃ r, runIntegerInfix h operator a b st = Res.ok r st := by
  unfold runIntegerInfix
  split
  all_goals first
    | exact ⟨_, rfl⟩
    | exact pure_ite_ok _ _ _ st
    | exact absurd rfl hrange
    | (split_ifs <;> first | exact ⟨_, rfl⟩ | exact absurd ‹_› (hmod rfl))

theorem wrap64_le (x : Int) : wrap64 x ≤ 2 ^ 63 - 1 := by
  unfold wrap64
  norm_num
  omega

theorem rangeUp_never_leaves : ∀ (fuel : Nat) (idx : Int) (result : List DataType),
    idx ≤ 2 ^ 63 - 1 → rangeUp fuel idx (2 ^ 63 - 1) result = none := by
  intro fuel
  induction fuel with
  | zero => intro idx result _; rfl
  | succ fuel ih =>
    intro idx result hidx
    unfold rangeUp
    rw [if_pos hidx]
    exact ih _ _ (wrap64_le _)

/-- The ascending loop of `..` up to the largest `int64` never leaves: its exit test
`idx <= right` holds for every `int64`. -/
theorem runRangeIntegerInfix_never_leaves (a : Int) (st : State) (ha : a < 2 ^ 63 - 1) :
    runRangeIntegerInfix a (2 ^ 63 - 1) st = Res.fault Fault.outOfFuel := by
  unfold runRangeIntegerInfix
  simp only [if_pos ha, rangeUp_never_leaves _ a [] (le_of_lt ha)]

/-- C14 (the code at a failing input): for every Integer `a`, `a % 0` ends in the
run-time fault of Go's integer remainder by zero, not in a value or an error; `a / 0`,
which is computed in `float64`, returns a value. -/
theorem runIntegerInfix_mod_zero_faults (h : Host) (a : Int) (st : State) :
    runIntegerInfix h "%" a 0 st =
        Res.fault (Fault.panic "runtime error: integer divide by zero") ∧
    (∃ r, runIntegerInfix h "/" a 0 st = Res.ok r st) := by
  refine ⟨rfl, ?_⟩
  exact pure_ite_ok _ _ _ st

/-! ## Character ranges (`runRangeStringInfix`) -/

theorem utf8EncodeChar_length_pos (c : Char) : 1 ≤ (String.utf8EncodeChar c).length := by
  unfold String.utf8EncodeChar
  simp only
  split_ifs <;> simp

theorem utf8Bytes_length (cs : List Char) :
    cs.length ≤ (cs.flatMap (fun c => (String.utf8EncodeChar c).map UInt8.toNat)).length := by
  induction cs with
  | nil => simp
  | cons c rest ih =>
    have := utf8EncodeChar_length_pos c
    simp only [List.flatMap_cons, List.length_append, List.length_map, List.length_cons]
    omega

theorem goLen_ge_length (s : String) : s.length ≤ goLen s :=
  utf8Bytes_length s.data

/-- Whenever one operand has two characters or more, `..` on Strings returns the error and
no Array. -/
theorem runRangeStringInfix_long (left right : String) (st : State)
    (hlong : 2 ≤ left.length ∨ 2 ≤ right.length) :
    runRangeStringInfix left right st =
      Res.ok (none, some "Range operator expects 2 single character strings") st := by
  unfold runRangeStringInfix
  have hl := goLen_ge_length left
  have hr := goLen_ge_length right
  rw [if_pos (by omega)]
  rfl

/-- C15 (the code at failing inputs): with the empty String as the left operand, `..`
returns the error only when the right operand is longer than one byte; for every other
right operand, the empty String included, it ends in the run-time fault of indexing an
empty slice.  So does `"a" .. ""`. -/
theorem runRangeStringInfix_empty_faults (r : String) (st : State) :
    runRangeStringInfix "" r st =
        (if goLen r > 1 then
          Res.ok (none, some "Range operator expects 2 single character strings") st
        else Res.fault (Fault.panic "runtime error: index out of range [0] with length 0")) ∧
    runRangeStringInfix "a" "" st =
        Res.fault (Fault.panic "runtime error: index out of range [0] with length 0") := by
  refine ⟨?_, rfl⟩
  unfold runRangeStringInfix
  have h0 : ¬ goLen "" > 1 := by decide
  by_cases hr : goLen r > 1
  · rw [if_pos (Or.inr hr), if_pos hr]; rfl
  · rw [if_neg (by tauto), if_neg hr]; rfl

theorem stringOfRune_toNat (c : Char) : stringOfRune c.toNat = String.singleton c := by
  unfold stringOfRune
  rw [Char.ofNat_toNat]

theorem rangeStringLoop_spec (lo hi : Nat) :
    ∀ (chars : List Char) (result : List DataType) (st : State),
      rangeStringLoop lo hi chars result st =
        Res.ok (result ++ freshStrings st.nextAddr
            (chars.filter (fun v => decide (lo ≤ v.toNat ∧ v.toNat ≤ hi))))
          { st with nextAddr := st.nextAddr +
            (chars.filter (fun v => decide (lo ≤ v.toNat ∧ v.toNat ≤ hi))).length } := by
  intro chars
  induction chars with
  | nil => intro result st; simp [rangeStringLoop, freshStrings]; rfl
  | cons v rest ih =>
    intro result st
    unfold rangeStringLoop
    by_cases hv : lo ≤ v.toNat ∧ v.toNat ≤ hi
    · rw [if_pos hv, bind_apply]
      simp only [newString]
      rw [ih]
      simp only [List.filter_cons, hv, decide_True, and_self, if_true, freshStrings,
        stringOfRune_toNat, List.append_assoc, List.singleton_append, List.length_cons]
      congr 2
      omega
    · rw [if_neg hv, ih]
      simp only [List.filter_cons, hv, decide_False, if_false]
      rfl

/-- For every two characters of the alphabet: the operands pass the length test, lower
case leaves them as they are, and the characters the loop of `runRangeStringInfix` keeps
are the stretch of the alphabet between them. -/
theorem alphabet_pairs :
    ∀ l ∈ alphabet.data, ∀ r ∈ alphabet.data,
      ¬ (goLen (String.singleton l) > 1 ∨ goLen (String.singleton r) > 1) ∧
      (String.singleton l).data.map Char.toLower = [l] ∧
      (String.singleton r).data.map Char.toLower = [r] ∧
      (if l.toNat < r.toNat then
        alphabet.data.filter (fun v => decide (l.toNat ≤ v.toNat ∧ v.toNat ≤ r.toNat))
      else
        alphabet.data.reverse.filter (fun v => decide (r.toNat ≤ v.toNat ∧ v.toNat ≤ l.toNat)))
        = alphabetStretch l r := by
  decide!

/-- The stretch from `l` to `r` starts at `l`, ends at `r` and is the single `l` when
the two are the same character. -/
theorem alphabetStretch_ends :
    ∀ l ∈ alphabet.data, ∀ r ∈ alphabet.data,
      (alphabetStretch l r).head? = some l ∧ (alphabetStretch l r).getLast? = some r ∧
      alphabetStretch l l = [l] := by
  decide!

/-- C16: for characters `l` and `r` of the alphabet `0123456789abcdefghijklmnopqrstuvwxyz`,
`l .. r` is the Array of freshly allocated one-character Strings for the stretch of the
alphabet from `l` to `r`, in alphabet order when `l` is not after `r` and in reverse
order otherwise; no error is returned. -/
theorem runRangeStringInfix_alphabet (l r : Char) (st : State)
    (hl : l ∈ alphabet.data) (hr : r ∈ alphabet.data) :
    runRangeStringInfix (String.singleton l) (String.singleton r) st =
      Res.ok (some (Value.ArrayType (freshStrings st.nextAddr (alphabetStretch l r))), none)
        { st with nextAddr := st.nextAddr + (alphabetStretch l r).length } := by
  obtain ⟨hlen, hlow, hrow, hfilter⟩ := alphabet_pairs l hl r hr
  unfold runRangeStringInfix
  rw [if_neg hlen]
  simp only [bind_apply, firstLowerRune, hlow, hrow, pure_apply]
  by_cases hlt : l.toNat < r.toNat
  · rw [if_pos hlt] at hfilter
    rw [if_pos hlt]
    simp only [bind_apply, rangeStringLoop_spec, hfilter, pure_apply, List.nil_append]
  · rw [if_neg hlt] at hfilter
    rw [if_neg hlt]
    simp only [bind_apply, rangeStringLoop_spec, hfilter, pure_apply, List.nil_append]

/-- C16, an instance: `"a" .. "e"` is `["a", "b", "c", "d", "e"]`. -/
theorem runRangeStringInfix_alphabet_witness :
    runRangeStringInfix "a" "e" initialState =
      Res.ok (some (Value.ArrayType
        [some (Value.StringType 0 "a"), some (Value.StringType 1 "b"),
         some (Value.StringType 2 "c"), some (Value.StringType 3 "d"),
         some (Value.StringType 4 "e")]), none)
        { initialState with nextAddr := 5 } :=
  runRangeStringInfix_alphabet 'a' 'e' initialState
    (by decide) (by decide)

/-! ## Integer ranges (`runRangeIntegerInfix`) -/

theorem wrap64_of_range (x : Int) (h1 : -(2 ^ 63) ≤ x) (h2 : x < 2 ^ 63) : wrap64 x = x := by
  unfold wrap64
  norm_num at h1 h2 ⊢
  omega

theorem countUp_succ (a : Int) (n : Nat) :
    countUp a (n + 1) = some (Value.IntegerType a) :: countUp (a + 1) n := by
  unfold countUp
  rw [List.range_succ_eq_map]
  simp only [List.map_cons, List.map_map, Nat.cast_zero, add_zero]
  congr 1
  apply List.map_congr_left
  intro k _
  simp only [Function.comp, Nat.cast_succ]
  congr 2
  ring

theorem countDown_succ (a : Int) (n : Nat) :
    countDown a (n + 1) = some (Value.IntegerType a) :: countDown (a - 1) n := by
  unfold countDown
  rw [List.range_succ_eq_map]
  simp only [List.map_cons, List.map_map, Nat.cast_zero, sub_zero]
  congr 1
  apply List.map_congr_left
  intro k _
  simp only [Function.comp, Nat.cast_succ]
  congr 2
  ring

theorem rangeUp_spec (right : Int) (hr : right < 2 ^ 63 - 1) :
    ∀ (n fuel : Nat) (idx : Int) (result : List DataType),
      -(2 ^ 63) ≤ idx → idx + n = right + 1 → n < fuel →
      rangeUp fuel idx right result = some (result ++ countUp idx n) := by
  intro n
  induction n with
  | zero =>
    intro fuel idx result _ hn hf
    obtain ⟨f, rfl⟩ : ∃ f, fuel = f + 1 := ⟨fuel - 1, by omega⟩
    unfold rangeUp
    rw [if_neg (by push_cast at hn; omega)]
    simp [countUp]
  | succ n ih =>
    intro fuel idx result hlo hn hf
    obtain ⟨f, rfl⟩ : ∃ f, fuel = f + 1 := ⟨fuel - 1, by omega⟩
    unfold rangeUp
    push_cast at hn
    rw [if_pos (by omega), wrap64_of_range (idx + 1) (by omega) (by omega),
      ih f (idx + 1) _ (by omega) (by omega) (by omega), countUp_succ]
    simp

theorem rangeDown_spec (right : Int) (hr : -(2 ^ 63) < right) :
    ∀ (n fuel : Nat) (idx : Int) (result : List DataType),
      idx < 2 ^ 63 → idx + 1 = right + n → n < fuel →
      rangeDown fuel idx right result = some (result ++ countDown idx n) := by
  intro n
  induction n with
  | zero =>
    intro fuel idx result _ hn hf
    obtain ⟨f, rfl⟩ : ∃ f, fuel = f + 1 := ⟨fuel - 1, by omega⟩
    unfold rangeDown
    rw [if_neg (by push_cast at hn; omega)]
    simp [countDown]
  | succ n ih =>
    intro fuel idx result hhi hn hf
    obtain ⟨f, rfl⟩ : ∃ f, fuel = f + 1 := ⟨fuel - 1, by omega⟩
    unfold rangeDown
    push_cast at hn
    rw [if_pos (by omega), wrap64_of_range (idx - 1) (by omega) (by omega),
      ih f (idx - 1) _ (by omega) (by omega) (by omega), countDown_succ]
    simp

theorem countUp_get? (a : Int) (n k : Nat) (hk : k < n) :
    (countUp a n).get? k = some (some (Value.IntegerType (a + k))) := by
  unfold countUp
  rw [List.get?_eq_getElem?, List.getElem?_map, List.getElem?_range hk]
  rfl

theorem countDown_get? (a : Int) (n k : Nat) (hk : k < n) :
    (countDown a n).get? k = some (some (Value.IntegerType (a - k))) := by
  unfold countDown
  rw [List.get?_eq_getElem?, List.getElem?_map, List.getElem?_range hk]
  rfl

theorem countUp_length (a : Int) (n : Nat) : (countUp a n).length = n := by
  simp [countUp]

theorem countDown_length (a : Int) (n : Nat) : (countDown a n).length = n := by
  simp [countDown]

theorem countUp_reverse (a b : Int) (n : Nat) (hab : a + n = b + 1) :
    (countUp a n).reverse = countDown b n := by
  apply List.ext_get?
  intro k
  by_cases hk : k < n
  · rw [countDown_get? b n k hk, List.get?_eq_getElem?, List.getElem?_reverse
      (by rw [countUp_length]; exact hk), countUp_length, ← List.get?_eq_getElem?,
      countUp_get? a n (n - 1 - k) (by omega)]
    congr 3
    have : ((n - 1 - k : Nat) : Int) = (n : Int) - 1 - k := by omega
    rw [this]
    omega
  · rw [List.get?_eq_none.mpr (by rw [List.length_reverse, countUp_length]; omega),
      List.get?_eq_none.mpr (by rw [countDown_length]; omega)]

theorem integerRange_reverse (a b : Int) : integerRange b a = (integerRange a b).reverse := by
  unfold integerRange
  by_cases hab : a ≤ b
  · rw [if_pos hab]
    by_cases hba : b ≤ a
    · have e : a = b := le_antisymm hab hba
      subst e
      rw [if_pos hba]
      simp [countUp, List.range_succ]
    · rw [if_neg hba, countUp_reverse a b (b - a + 1).toNat (by omega)]
  · rw [if_neg hab, if_pos (by omega : b ≤ a),
      ← countUp_reverse b a (a - b + 1).toNat (by omega), List.reverse_reverse]

/-- C17: for Integers `a` and `b` with `-2^63 < a, b < 2^63 - 1`, `a .. b` returns the
Array `integerRange a b`: it has `|b - a| + 1` elements, its element at position `k` is
`a + k` when `a ≤ b` and `a - k` when `a > b` (so it starts at `a` and ends at `b`), and
`b .. a` returns its reverse. -/
theorem runRangeIntegerInfix_spec (a b : Int) (st : State)
    (ha1 : -(2 ^ 63) < a) (ha2 : a < 2 ^ 63 - 1) (hb1 : -(2 ^ 63) < b) (hb2 : b < 2 ^ 63 - 1) :
    runRangeIntegerInfix a b st = Res.ok (Value.ArrayType (integerRange a b)) st ∧
    ((integerRange a b).length : Int) = |b - a| + 1 ∧
    (∀ k : Nat, (k : Int) ≤ |b - a| →
      (integerRange a b).get? k =
        some (some (Value.IntegerType (if a ≤ b then a + k else a - k)))) ∧
    runRangeIntegerInfix b a st = Res.ok (Value.ArrayType (integerRange a b).reverse) st := by
  have hfuel : ∀ n : Int, n ≤ 2 ^ 64 → n.toNat < 2 ^ 64 + 1 := by
    intro n hn
    have : (n.toNat : Int) < ((2 ^ 64 + 1 : Nat) : Int) := by
      push_cast
      rcases le_total 0 n with h0 | h0
      · rw [Int.toNat_of_nonneg h0]; omega
      · rw [Int.toNat_eq_zero.mpr h0]; norm_num
    exact_mod_cast this
  have run : ∀ x y : Int, -(2 ^ 63) < x → x < 2 ^ 63 - 1 → -(2 ^ 63) < y → y < 2 ^ 63 - 1 →
      runRangeIntegerInfix x y st = Res.ok (Value.ArrayType (integerRange x y)) st := by
    intro x y hx1 hx2 hy1 hy2
    unfold runRangeIntegerInfix integerRange
    by_cases hlt : x < y
    · have hup := rangeUp_spec y hy2 (y - x + 1).toNat (2 ^ 64 + 1) x [] (by omega)
        (by rw [Int.toNat_of_nonneg (by omega)]; ring) (hfuel _ (by norm_num at *; omega))
      simp only [if_pos hlt, hup, if_pos (le_of_lt hlt), List.nil_append]
    · by_cases heq : x = y
      · subst heq
        have hdown := rangeDown_spec x hx1 1 (2 ^ 64 + 1) x [] (by omega) (by norm_num)
          (by norm_num)
        simp only [if_neg hlt, hdown, le_refl, if_true, List.nil_append]
        simp [countUp, countDown]
      · have hdown := rangeDown_spec y hy1 (x - y + 1).toNat (2 ^ 64 + 1) x [] (by omega)
          (by rw [Int.toNat_of_nonneg (by omega)]; ring) (hfuel _ (by norm_num at *; omega))
        have hle : ¬ x ≤ y := by omega
        simp only [if_neg hlt, hdown, if_neg hle, List.nil_append]
  refine ⟨run a b ha1 ha2 hb1 hb2, ?_, ?_, ?_⟩
  · unfold integerRange
    by_cases hab : a ≤ b
    · rw [if_pos hab, countUp_length, abs_of_nonneg (by omega), Int.toNat_of_nonneg (by omega)]
    · rw [if_neg hab, countDown_length, abs_of_neg (by omega), Int.toNat_of_nonneg (by omega)]
      ring
  · intro k hk
    unfold integerRange
    by_cases hab : a ≤ b
    · rw [abs_of_nonneg (by omega)] at hk
      rw [if_pos hab, if_pos hab, countUp_get? a _ k (by omega)]
    · rw [abs_of_neg (by omega)] at hk
      rw [if_neg hab, if_neg hab, countDown_get? a _ k (by omega)]
  · rw [run b a hb1 hb2 ha1 ha2, integerRange_reverse a b]

/-- C17, two instances: `1 .. 5` is `[1, 2, 3, 4, 5]` and `5 .. 1` is `[5, 4, 3, 2, 1]`. -/
theorem runRangeIntegerInfix_spec_witness :
    runRangeIntegerInfix 1 5 initialState =
      Res.ok (Value.ArrayType [some (Value.IntegerType 1), some (Value.IntegerType 2),
        some (Value.IntegerType 3), some (Value.IntegerType 4), some (Value.IntegerType 5)])
        initialState ∧
    runRangeIntegerInfix 5 1 initialState =
      Res.ok (Value.ArrayType [some (Value.IntegerType 5), some (Value.IntegerType 4),
        some (Value.IntegerType 3), some (Value.IntegerType 2), some (Value.IntegerType 1)])
        initialState :=
  ⟨(runRangeIntegerInfix_spec 1 5 initialState (by decide) (by decide) (by decide)
      (by decide)).1,
   (runRangeIntegerInfix_spec 1 5 initialState (by decide) (by decide) (by decide)
      (by decide)).2.2.2⟩

/-! ## The number of bindings of a `for` loop -/

theorem rangeOrder_nil (h : Host) (n : Nat) : h.rangeOrder n [] = [] :=
  List.Perm.eq_nil (h.rangeOrder_perm n [])

/-- On an Array with at least one element, a loop whose number of bindings is neither 1
nor 2 reports the error and yields no result. -/
theorem runForArray_arity (ev : Eval) (arguments : List String) (body : Expr) (v : DataType)
    (rest : List DataType) (scope : Nat) (st : State)
    (h1 : arguments.length ≠ 1) (h2 : arguments.length ≠ 2) :
    runForArray ev arguments body (v :: rest) scope st =
      Res.ok none
        { st with errors := st.errors ++ ["A FOR loop with an Array expects at most 2 arguments"] } := by
  unfold runForArray runForArrayLoop
  match arguments, h1, h2 with
  | [], _, _ => rfl
  | [_], h1, _ => exact absurd rfl h1
  | [_, _], _, h2 => exact absurd rfl h2
  | _ :: _ :: _ :: _, _, _ => rfl

/-- C18 (the code at failing inputs): over the empty Array, the empty String and the
empty Dictionary, a `for` loop with any list of bindings, those of no binding and of
three or more included, yields the empty Array and reports no error: the number of
bindings is only tested inside the loop, once per element. -/
theorem for_empty_enumerable_skips_arity_test (h : Host) (arguments : List String)
    (body : Expr) :
    (Interpret h 3 (Expr.For arguments (Expr.Array []) body) 0 initialState).value? =
        some (some (Value.ArrayType [])) ∧
    (Interpret h 3 (Expr.For arguments (Expr.Array []) body) 0 initialState).state?.map
        (fun st => st.errors) = some [] ∧
    (Interpret h 3 (Expr.For arguments (Expr.String "") body) 0 initialState).value? =
        some (some (Value.ArrayType [])) ∧
    (Interpret h 3 (Expr.For arguments (Expr.String "") body) 0 initialState).state?.map
        (fun st => st.errors) = some [] ∧
    (Interpret h 3 (Expr.For arguments (Expr.Dictionary []) body) 0 initialState).value? =
        some (some (Value.ArrayType [])) ∧
    (Interpret h 3 (Expr.For arguments (Expr.Dictionary []) body) 0 initialState).state?.map
        (fun st => st.errors) = some [] := by
  have e : Interpret h 3 (Expr.For arguments (Expr.Dictionary []) body) 0 initialState =
      runForDictionaryLoop (Interpret h 2) arguments body 1 (h.rangeOrder 0 []) []
        { scopes := [{ store := [], parent := none }, { store := [], parent := some 0 }],
          maps := [[]], nextAddr := 0, functions := [], errors := [], ranges := 1 } := rfl
  rw [e, rangeOrder_nil]
  refine ⟨by rfl, by rfl, by rfl, by rfl, by rfl, by rfl⟩

/-! ## The result of a `for` loop over an Array -/

theorem runForArrayLoop_step (ev : Eval) (arguments : List String) (body : Expr) (scope : Nat)
    (harity : arguments.length = 1 ∨ arguments.length = 2)
    (v : DataType) (rest : List DataType) (idx : Nat) (out : List DataType) (st st1 : State)
    (r : Value)
    (hbody : ev body scope (forArrayBindings arguments scope idx v st) = Res.ok (some r) st1) :
    runForArrayLoop ev arguments body scope (v :: rest) idx out st =
      if r.Type = TypeTag.BREAK_TYPE then Res.ok (some (Value.ArrayType out)) st1
      else if r.Type = TypeTag.CONTINUE_TYPE then
        runForArrayLoop ev arguments body scope rest (idx + 1) out st1
      else runForArrayLoop ev arguments body scope rest (idx + 1) (out ++ [some r]) st1 := by
  have hcases : (∃ a, arguments = [a]) ∨ (∃ a b, arguments = [a, b]) := by
    rcases harity with h1 | h2
    · left
      match arguments, h1 with
      | [a], _ => exact ⟨a, rfl⟩
    · right
      match arguments, h2 with
      | [a, b], _ => exact ⟨a, b, rfl⟩
  rcases hcases with ⟨a, rfl⟩ | ⟨a, b, rfl⟩
  · conv_lhs => unfold runForArrayLoop
    simp only [forArrayBindings] at hbody
    simp only [bind_apply, writeScope, pure_apply, if_true, hbody]
    split_ifs <;> rfl
  · conv_lhs => unfold runForArrayLoop
    simp only [forArrayBindings] at hbody
    simp only [bind_apply, writeScope, pure_apply, if_true, hbody]
    split_ifs <;> rfl

theorem runForArrayLoop_spec (ev : Eval) (arguments : List String) (body : Expr) (scope : Nat)
    (harity : arguments.length = 1 ∨ arguments.length = 2) :
    ∀ (elements : List DataType) (idx : Nat) (out : List DataType) (st : State)
      (results : List Value),
      bodyYields ev arguments body scope elements idx st results →
      (runForArrayLoop ev arguments body scope elements idx out st).value? =
        some (some (Value.ArrayType (out ++ forOutput results))) := by
  intro elements
  induction elements with
  | nil =>
    intro idx out st results hruns
    simp only [bodyYields] at hruns
    subst hruns
    simp [runForArrayLoop, forOutput, pure_apply, Res.value?]
  | cons v rest ih =>
    intro idx out st results hruns
    cases results with
    | nil => simp [bodyYields] at hruns
    | cons r results =>
      simp only [bodyYields] at hruns
      obtain ⟨st1, hbody, hrest⟩ := hruns
      rw [runForArrayLoop_step ev arguments body scope harity v rest idx out st st1 r hbody]
      by_cases hbreak : r.Type = TypeTag.BREAK_TYPE
      · rw [if_pos hbreak] at hrest ⊢
        subst hrest
        simp [forOutput, hbreak, Res.value?]
      · rw [if_neg hbreak] at hrest ⊢
        by_cases hcont : r.Type = TypeTag.CONTINUE_TYPE
        · rw [if_pos hcont, ih (idx + 1) out st1 results hrest]
          simp [forOutput, hbreak, hcont]
        · rw [if_neg hcont, ih (idx + 1) (out ++ [some r]) st1 results hrest]
          simp [forOutput, hbreak, hcont]

theorem bodyYields_length (ev : Eval) (arguments : List String) (body : Expr) (scope : Nat) :
    ∀ (elements : List DataType) (idx : Nat) (st : State) (results : List Value),
      bodyYields ev arguments body scope elements idx st results →
      (∀ r ∈ results, r.Type ≠ TypeTag.BREAK_TYPE) → results.length = elements.length := by
  intro elements
  induction elements with
  | nil =>
    intro idx st results hruns _
    simp only [bodyYields] at hruns
    subst hruns
    rfl
  | cons v rest ih =>
    intro idx st results hruns hplain
    cases results with
    | nil => simp [bodyYields] at hruns
    | cons r results =>
      simp only [bodyYields] at hruns
      obtain ⟨st1, _, hrest⟩ := hruns
      rw [if_neg (hplain r (List.mem_cons_self _ _))] at hrest
      simp only [List.length_cons]
      rw [ih (idx + 1) st1 results hrest (fun x hx => hplain x (List.mem_cons_of_mem _ hx))]

/-- C19: for a loop with one or two bindings over the elements of an Array, when the body
yields the values `results` in the iterations that run (none of them absent), the loop
returns the Array of the results before the first Break without the Continue signals, in
iteration order; and when no result is a Break or a Continue, that Array is as long as
the enumerable. -/
theorem runForArray_collects (ev : Eval) (arguments : List String) (body : Expr) (scope : Nat)
    (elements : List DataType) (st : State) (results : List Value)
    (harity : arguments.length = 1 ∨ arguments.length = 2)
    (hruns : bodyYields ev arguments body scope elements 0 st results) :
    (runForArray ev arguments body elements scope st).value? =
        some (some (Value.ArrayType (forOutput results))) ∧
      ((∀ r ∈ results, r.Type ≠ TypeTag.BREAK_TYPE ∧ r.Type ≠ TypeTag.CONTINUE_TYPE) →
        (forOutput results).length = elements.length) := by
  constructor
  · unfold runForArray
    rw [runForArrayLoop_spec ev arguments body scope harity elements 0 [] st results hruns]
    rfl
  · intro hplain
    rw [← bodyYields_length ev arguments body scope elements 0 st results hruns
      (fun r hr => (hplain r hr).1)]
    unfold forOutput
    rw [List.length_map, List.takeWhile_eq_self_iff.mpr, List.filter_eq_self.mpr]
    · intro r hr
      simpa using (hplain r hr).2
    · intro r hr
      simpa using (hplain r hr).1

/-- C19, an instance: over `[1, 2, 3, 4, 5]` the body
`if x == 2 { continue } else { if x == 4 { break } else { x * 10 } }` yields `10`,
Continue, `30` and Break, and the loop returns `[10, 30]`. -/
theorem runForArray_collects_witness :
    (runForArray (Interpret sampleHost 12) ["x"] branchingBody oneToFive 0 initialState).value? =
      some (some (Value.ArrayType [some (Value.IntegerType 10), some (Value.IntegerType 30)])) :=
  (runForArray_collects (Interpret sampleHost 12) ["x"] branchingBody 0 oneToFive initialState
    [Value.IntegerType 10, Value.ContinueType, Value.IntegerType 30, Value.BreakType]
    (Or.inl rfl)
    (by
      refine ⟨_, rfl, ?_⟩
      refine ⟨_, rfl, ?_⟩
      refine ⟨_, rfl, ?_⟩
      exact ⟨_, rfl, rfl⟩)).1

/-! ## Declaring a name the frame already binds -/

theorem read_own_frame (st : State) (scope : Nat) (name : String) (frame : Scope) (w : DataType)
    (hframe : st.scopes.get? scope = some frame) (hx : frame.store.lookup name = some w) :
    st.Read scope name = some w := by
  unfold State.Read
  have hlt : scope < st.scopes.length := by
    rcases Nat.lt_or_ge scope st.scopes.length with h | h
    · exact h
    · rw [List.get?_eq_none.mpr h] at hframe; cases hframe
  obtain ⟨n, hn⟩ : ∃ n, st.scopes.length = n + 1 := ⟨st.scopes.length - 1, by omega⟩
  rw [hn]
  unfold readFrom
  rw [hframe]
  simp only [hx]

/-- When the value of a `let` fails to evaluate, `runLet` hands the failure on and does
nothing else: no declaration test, no report, no write. -/
theorem runLet_absent (h : Host) (ev : Eval) (name : String) (value : Expr) (scope : Nat)
    (st st1 : State) (hev : ev value scope st = Res.ok none st1) :
    runLet h ev name value scope st = Res.ok none st1 := by
  unfold runLet
  simp only [bind_apply, hev]
  rfl

/-- C20 (amended): when `e` evaluates to a value and the frame of the scope binds `x` to
`w` once `e` is evaluated, `let x = e` in that scope is rejected: `runLet` reports
`Identifier 'x' already declared` and nothing else, yields no result, and leaves every
scope frame as the evaluation of `e` left it, so that `x` still reads as `w`. -/
theorem runLet_rejects_redeclaration (h : Host) (ev : Eval) (name : String) (value : Expr)
    (scope : Nat) (st st1 : State) (v : Value) (frame : Scope) (w : DataType)
    (hev : ev value scope st = Res.ok (some v) st1)
    (hframe : st1.scopes.get? scope = some frame) (hx : frame.store.lookup name = some w) :
    ∃ st2, runLet h ev name value scope st = Res.ok none st2 ∧
      st2.errors = st1.errors ++ ["Identifier '" ++ name ++ "' already declared"] ∧
      st2.scopes = st1.scopes ∧ st2.Read scope name = some w := by
  obtain ⟨st', hreg, hsc, herr⟩ := registerFunction_spec h name v st1
  have hframe' : st'.scopes.get? scope = some frame := by rw [hsc]; exact hframe
  have hfound := read_own_frame st' scope name frame w hframe' hx
  refine ⟨{ st' with errors := st'.errors ++ ["Identifier '" ++ name ++ "' already declared"] },
    ?_, by simp [herr], by simp [hsc], ?_⟩
  · unfold runLet
    simp only [bind_apply, hev, hreg, readScope, hfound]
    rfl
  · exact read_own_frame _ scope name frame w hframe' hx

/-- C20 (amended), an instance: with `x` bound to `1` in scope `0`, `let x = 2` in scope
`0` is rejected and `x` still reads as `1`. -/
theorem runLet_rejects_redeclaration_witness :
    ∃ st2, runLet sampleHost (Interpret sampleHost 2) "x" (Expr.Integer 2) 0 boundState =
        Res.ok none st2 ∧
      st2.errors = boundState.errors ++ ["Identifier '" ++ "x" ++ "' already declared"] ∧
      st2.scopes = boundState.scopes ∧ st2.Read 0 "x" = some (some (Value.IntegerType 1)) :=
  runLet_rejects_redeclaration sampleHost (Interpret sampleHost 2) "x" (Expr.Integer 2) 0
    boundState boundState (Value.IntegerType 2)
    { store := [("x", some (Value.IntegerType 1))], parent := none }
    (some (Value.IntegerType 1)) rfl rfl rfl

/-- C20 (as stated, refuted): in the program `let x = 1` followed by `let x = y`, with
`y` not bound, the second `let` runs in a frame that binds `x` and yields no result, but
the only error reported is `Identifier 'y' not found in current scope`: that `x` is
already declared is not reported.  With `let x = 2` in its place it is. -/
theorem let_failed_value_reports_no_redeclaration :
    (Interpret sampleHost 4 redeclareUnboundProgram 0 initialState).value? = some none ∧
      (Interpret sampleHost 4 redeclareUnboundProgram 0 initialState).state?.map
          (fun st => st.errors) = some ["Identifier 'y' not found in current scope"] ∧
      (Interpret sampleHost 4 redeclareProgram 0 initialState).state?.map
          (fun st => st.errors) = some ["Identifier 'x' already declared"] := by
  refine ⟨by rfl, by rfl, by rfl⟩

/-! ## Case values that cannot be compared with the control -/

theorem runSwitchCaseValues_incompatible (h : Host) (ev : Eval) (control : Value)
    (scope arity : Nat) (p : Expr) (rest : List Expr) (idx matched : Nat) (st st1 : State)
    (parameter : Value)
    (hev : ev p scope st = Res.ok (some parameter) st1)
    (hty : parameter.Type ≠ control.Type)
    (hatom : ¬ (parameter.Type = TypeTag.ATOM_TYPE ∧ control.Type = TypeTag.STRING_TYPE))
    (harr : control.Type ≠ TypeTag.ARRAY_TYPE) :
    runSwitchCaseValues h ev control scope arity (p :: rest) idx matched st =
      Res.ok (CaseStep.fails (switchTypeError h parameter control)) st1 := by
  unfold runSwitchCaseValues
  simp only [bind_apply, hev, getState, if_neg hty]
  cases parameter <;> cases control <;>
    first
    | rfl
    | (exfalso; apply harr; rfl)
    | (exfalso; apply hatom; constructor <;> rfl)

theorem runSwitchCaseValues_independent (h : Host) (ev : Eval) (control : Value)
    (scope arity : Nat) (harr : control.Type ≠ TypeTag.ARRAY_TYPE) :
    ∀ (values : List Expr) (i m i' m' : Nat) (st : State),
      runSwitchCaseValues h ev control scope arity values i m st =
        runSwitchCaseValues h ev control scope arity values i' m' st := by
  intro values
  induction values with
  | nil => intro i m i' m' st; rfl
  | cons p rest ih =>
    intro i m i' m' st
    unfold runSwitchCaseValues
    simp only [bind_apply]
    cases ev p scope st with
    | fault f => rfl
    | ok evaluated st1 =>
      cases evaluated with
      | none => rfl
      | some parameter =>
        simp only [bind_apply, getState]
        by_cases hty : parameter.Type = control.Type
        · simp only [if_pos hty]
          split_ifs
          · rfl
          · exact ih _ _ _ _ _
        · simp only [if_neg hty]
          cases parameter <;> cases control <;>
            first
            | rfl
            | (exfalso; apply harr; rfl)
            | (dsimp only
               split_ifs
               · rfl
               · exact ih _ _ _ _ _)

theorem runSwitchCaseValues_append (h : Host) (ev : Eval) (control : Value)
    (scope arity : Nat) (harr : control.Type ≠ TypeTag.ARRAY_TYPE) (l : List Expr) :
    ∀ (pre : List Expr) (i m : Nat) (st st1 : State),
      runSwitchCaseValues h ev control scope arity pre i m st = Res.ok CaseStep.next st1 →
      runSwitchCaseValues h ev control scope arity (pre ++ l) i m st =
        runSwitchCaseValues h ev control scope arity l i m st1 := by
  intro pre
  induction pre with
  | nil =>
    intro i m st st1 hpre
    simp only [runSwitchCaseValues, pure_apply, Res.ok.injEq, true_and] at hpre
    subst hpre
    rfl
  | cons p rest ih =>
    intro i m st st1 hpre
    have step : ∀ (s : State),
        runSwitchCaseValues h ev control scope arity rest (i + 1) m s = Res.ok CaseStep.next st1 →
        runSwitchCaseValues h ev control scope arity (rest ++ l) (i + 1) m s =
          runSwitchCaseValues h ev control scope arity l i m st1 := by
      intro s hs
      rw [ih (i + 1) m s st1 hs]
      exact runSwitchCaseValues_independent h ev control scope arity harr l _ _ _ _ _
    rw [List.cons_append]
    unfold runSwitchCaseValues at hpre
    conv_lhs => unfold runSwitchCaseValues
    simp only [bind_apply] at hpre ⊢
    cases hev : ev p scope st with
    | fault f => rw [hev] at hpre; cases hpre
    | ok evaluated s1 =>
      rw [hev] at hpre
      cases evaluated with
      | none => cases hpre
      | some parameter =>
        simp only [bind_apply, getState] at hpre ⊢
        by_cases hty : parameter.Type = control.Type
        · simp only [if_pos hty] at hpre ⊢
          by_cases hin : h.Inspect s1.maps parameter = h.Inspect s1.maps control
          · rw [if_pos hin] at hpre; cases hpre
          · rw [if_neg hin] at hpre ⊢
            exact step s1 hpre
        · simp only [if_neg hty] at hpre ⊢
          cases parameter <;> cases control <;>
            first
            | (exfalso; apply harr; rfl)
            | cases hpre
            | (dsimp only at hpre ⊢
               split_ifs at hpre ⊢
               · cases hpre
               · exact step s1 hpre)

theorem runSwitchCase_append (h : Host) (ev : Eval) (control : Value) (scope : Nat)
    (l : List (List Expr × Expr)) :
    ∀ (earlier : List (List Expr × Expr)) (n : Nat) (st st1 : State),
      runSwitchCase h ev control scope earlier n st = Res.ok (none, none) st1 →
      runSwitchCase h ev control scope (earlier ++ l) n st =
        runSwitchCase h ev control scope l (n + earlier.length) st1 := by
  intro earlier
  induction earlier with
  | nil =>
    intro n st st1 hrun
    simp only [runSwitchCase, pure_apply, Res.ok.injEq, true_and] at hrun
    subst hrun
    rfl
  | cons sc rest ih =>
    intro n st st1 hrun
    rw [List.cons_append]
    unfold runSwitchCase at hrun
    conv_lhs => unfold runSwitchCase
    simp only [bind_apply] at hrun ⊢
    cases hstep : runSwitchCaseValues h ev control scope sc.1.length sc.1 0 0 st with
    | fault f => rw [hstep] at hrun; cases hrun
    | ok step s1 =>
      rw [hstep] at hrun
      cases step with
      | wins => simp [pure_apply] at hrun
      | fails message => simp [pure_apply] at hrun
      | next =>
        simp only at hrun ⊢
        rw [ih (n + 1) s1 st1 hrun, List.length_cons]
        congr 1
        omega

/-- C21: when the control evaluates to a value that is not an Array, the cases before a
case select nothing and report nothing, the declared values of that case before the
value `p` move on, and `p` evaluates to a value whose type differs from the control's,
the pair not being an Atom value with a String control, then `runSwitchCase` returns the
error naming both types and `runSwitch` reports it and yields no result, in the state
the evaluation of `p` left: no case body and no default branch is run. -/
theorem runSwitch_incompatible_case_value (h : Host) (ev : Eval) (controlNode : Option Expr)
    (earlier later : List (List Expr × Expr)) (pre post : List Expr) (p body : Expr)
    (default : Option Expr) (scope : Nat) (st st1 st2 st3 st4 : State)
    (control parameter : Value)
    (hcontrol : (match controlNode with
        | none => pure (some (Value.BooleanType true))
        | some c => ev c scope) st = Res.ok (some control) st1)
    (hearlier : runSwitchCase h ev control scope earlier 0 st1 = Res.ok (none, none) st2)
    (hpre : runSwitchCaseValues h ev control scope (pre ++ p :: post).length pre 0 0 st2 =
      Res.ok CaseStep.next st3)
    (hev : ev p scope st3 = Res.ok (some parameter) st4)
    (hty : parameter.Type ≠ control.Type)
    (hatom : ¬ (parameter.Type = TypeTag.ATOM_TYPE ∧ control.Type = TypeTag.STRING_TYPE))
    (harr : control.Type ≠ TypeTag.ARRAY_TYPE) :
    runSwitchCase h ev control scope (earlier ++ (pre ++ p :: post, body) :: later) 0 st1 =
        Res.ok (none, some (switchTypeError h parameter control)) st4 ∧
      runSwitch h ev controlNode (earlier ++ (pre ++ p :: post, body) :: later) default scope st =
        Res.ok none { st4 with errors := st4.errors ++ [switchTypeError h parameter control] } := by
  have hcase : runSwitchCase h ev control scope
      (earlier ++ (pre ++ p :: post, body) :: later) 0 st1 =
      Res.ok (none, some (switchTypeError h parameter control)) st4 := by
    rw [runSwitchCase_append h ev control scope _ earlier 0 st1 st2 hearlier]
    unfold runSwitchCase
    simp only [bind_apply]
    rw [runSwitchCaseValues_append h ev control scope _ harr (p :: post) pre 0 0 st2 st3 hpre,
      runSwitchCaseValues_incompatible h ev control scope _ p post 0 0 st3 st4 parameter hev hty
        hatom harr]
    rfl
  refine ⟨hcase, ?_⟩
  unfold runSwitch
  cases controlNode with
  | none =>
    simp only [pure_apply, Res.ok.injEq, Option.some.injEq] at hcontrol
    obtain ⟨hc, hs⟩ := hcontrol
    subst hc hs
    simp only [bind_apply, pure_apply, hcase]
    rfl
  | some c =>
    simp only [bind_apply] at hcontrol ⊢
    rw [hcontrol]
    simp only [bind_apply, hcase]
    rfl

/-- C21, an instance: the switch on `1` with the cases `2 { 20 }` and `3, "a" { 30 }` and
a default branch fails at the value `"a"` with the error naming `String` and `Integer`. -/
theorem runSwitch_incompatible_case_value_witness :
    runSwitch sampleHost (Interpret sampleHost 3) (some (Expr.Integer 1)) mixedCases
        (some (Expr.BlockStatement [Expr.ExpressionStatement (Expr.Integer 0)])) 0 initialState =
      Res.ok none
        { initialState with
          nextAddr := 1
          errors := ["Type 'String' can't be used in a Switch case with control type 'Integer'"] } :=
  (runSwitch_incompatible_case_value sampleHost (Interpret sampleHost 3) (some (Expr.Integer 1))
    [([Expr.Integer 2], Expr.BlockStatement [Expr.ExpressionStatement (Expr.Integer 20)])] []
    [Expr.Integer 3] [] (Expr.String "a")
    (Expr.BlockStatement [Expr.ExpressionStatement (Expr.Integer 30)])
    (some (Expr.BlockStatement [Expr.ExpressionStatement (Expr.Integer 0)])) 0
    initialState initialState initialState initialState { initialState with nextAddr := 1 }
    (Value.IntegerType 1) (Value.StringType 0 "a") rfl rfl rfl rfl (by decide) (by decide)
    (by decide)).2

/-! ## Values converted to literal nodes and evaluated again -/

theorem mapAt_of_grown (st st' : State) (ref : Nat) (hpre : st.maps <+: st'.maps)
    (href : ref < st.maps.length) : st'.mapAt ref = st.mapAt ref := by
  obtain ⟨extra, hext⟩ := hpre
  unfold State.mapAt
  rw [← hext, List.get?_eq_getElem?, List.get?_eq_getElem?, List.getElem?_append_left href]

theorem sameContent_mono (st st' st'' : State) (hpre : st'.maps <+: st''.maps) :
    ∀ (n : Nat) (v v' : Value), sameContent st st' n v v' → sameContent st st'' n v v' := by
  intro n
  induction n with
  | zero => intro v v' hs; exact hs
  | succ n ih =>
    intro v v' hs
    cases v <;> cases v' <;> simp only [sameContent] at hs ⊢ <;> try exact hs
    · refine hs.imp ?_
      rintro x y ⟨w, w', hx, hy, hw⟩
      exact ⟨w, w', hx, hy, ih w w' hw⟩
    · obtain ⟨href, entries, hperm, hall⟩ := hs
      refine ⟨lt_of_lt_of_le href hpre.length_le, entries, hperm, ?_⟩
      rw [mapAt_of_grown st' st'' _ hpre href]
      refine hall.imp ?_
      rintro x y ⟨hk, w, w', hx, hy, hw⟩
      exact ⟨hk, w, w', hx, hy, ih w w' hw⟩

theorem sameContent_type (st st' : State) (n : Nat) (v v' : Value)
    (hs : sameContent st st' n v v') : v'.Type = v.Type := by
  cases n with
  | zero => exact absurd hs (by simp [sameContent])
  | succ n => cases v <;> cases v' <;> simp only [sameContent] at hs <;> rfl

theorem typeToExpressionList_spec (h : Host) (st0 : State) (n : Nat)
    (ih : ∀ v, literalValue st0 n v → ∀ r, ∃ e r',
      typeToExpression h n (some v) { st0 with ranges := r } =
        Res.ok (some e) { st0 with ranges := r' } ∧ renders st0 n v e) :
    ∀ (elements : List DataType), (∀ x ∈ elements, ∃ w, x = some w ∧ literalValue st0 n w) →
      ∀ (acc : List Expr) (r : Nat), ∃ es r',
        typeToExpressionList (typeToExpression h n) elements acc { st0 with ranges := r } =
          Res.ok (some (acc ++ es)) { st0 with ranges := r' } ∧
        List.Forall₂ (fun x e => ∃ w, x = some w ∧ renders st0 n w e) elements es := by
  intro elements
  induction elements with
  | nil =>
    intro _ acc r
    exact ⟨[], r, by simp [typeToExpressionList, pure_apply], List.Forall₂.nil⟩
  | cons x rest ihl =>
    intro hall acc r
    obtain ⟨w, rfl, hw⟩ := hall x (List.mem_cons_self _ _)
    obtain ⟨e, r1, hconv, hrend⟩ := ih w hw r
    obtain ⟨es, r2, hrest, hforall⟩ :=
      ihl (fun y hy => hall y (List.mem_cons_of_mem _ hy)) (acc ++ [e]) r1
    refine ⟨e :: es, r2, ?_, List.Forall₂.cons ⟨w, rfl, hrend⟩ hforall⟩
    unfold typeToExpressionList
    simp only [bind_apply, hconv, hrest, List.append_assoc, List.singleton_append]

theorem typeToExpressionPairs_spec (h : Host) (st0 : State) (n : Nat)
    (ih : ∀ v, literalValue st0 n v → ∀ r, ∃ e r',
      typeToExpression h n (some v) { st0 with ranges := r } =
        Res.ok (some e) { st0 with ranges := r' } ∧ renders st0 n v e) :
    ∀ (entries : GoMap), (∀ x ∈ entries, ∃ w, x.2 = some w ∧ literalValue st0 n w) →
      ∀ (acc : List (Expr × Expr)) (r : Nat), ∃ ps r',
        typeToExpressionPairs (typeToExpression h n) entries acc { st0 with ranges := r } =
          Res.ok (some (acc ++ ps)) { st0 with ranges := r' } ∧
        List.Forall₂ (fun (x : StringKey × DataType) (p : Expr × Expr) =>
          p.1 = Expr.String x.1.Value ∧ ∃ w, x.2 = some w ∧ renders st0 n w p.2) entries ps := by
  intro entries
  induction entries with
  | nil =>
    intro _ acc r
    exact ⟨[], r, by simp [typeToExpressionPairs, pure_apply], List.Forall₂.nil⟩
  | cons x rest ihl =>
    intro hall acc r
    obtain ⟨k, v⟩ := x
    obtain ⟨w, hv, hw⟩ := hall (k, v) (List.mem_cons_self _ _)
    simp only at hv
    subst hv
    obtain ⟨e, r1, hconv, hrend⟩ := ih w hw r
    obtain ⟨ps, r2, hrest, hforall⟩ :=
      ihl (fun y hy => hall y (List.mem_cons_of_mem _ hy)) (acc ++ [(Expr.String k.Value, e)]) r1
    refine ⟨(Expr.String k.Value, e) :: ps, r2, ?_,
      List.Forall₂.cons ⟨rfl, w, rfl, hrend⟩ hforall⟩
    unfold typeToExpressionPairs
    simp only [bind_apply, hconv, hrest, List.append_assoc, List.singleton_append]

theorem typeToExpression_renders (h : Host) (st0 : State) :
    ∀ (n : Nat) (v : Value), literalValue st0 n v → ∀ r, ∃ e r',
      typeToExpression h n (some v) { st0 with ranges := r } =
        Res.ok (some e) { st0 with ranges := r' } ∧ renders st0 n v e := by
  intro n
  induction n with
  | zero => intro v hv; exact absurd hv (by simp [literalValue])
  | succ n ih =>
    intro v hv r
    cases v <;> simp only [literalValue] at hv
    · exact ⟨_, r, rfl, by simp [renders]⟩
    · exact ⟨_, r, rfl, by simp [renders]⟩
    · exact ⟨_, r, rfl, by simp [renders]⟩
    · exact ⟨_, r, rfl, by simp [renders]⟩
    · rename_i elements
      obtain ⟨es, r', hrun, hforall⟩ := typeToExpressionList_spec h st0 n ih elements hv [] r
      refine ⟨Expr.Array es, r', ?_, by simpa [renders] using hforall⟩
      unfold typeToExpression
      simp only [bind_apply, hrun, List.nil_append, pure_apply, Option.map_some']
    · rename_i ref
      have hperm := h.rangeOrder_perm r (st0.mapAt ref)
      have hall : ∀ x ∈ h.rangeOrder r (st0.mapAt ref), ∃ w, x.2 = some w ∧ literalValue st0 n w :=
        fun x hx => hv x (hperm.mem_iff.mp hx)
      obtain ⟨ps, r', hrun, hforall⟩ :=
        typeToExpressionPairs_spec h st0 n ih _ hall [] (r + 1)
      refine ⟨Expr.Dictionary ps, r', ?_, ?_⟩
      · unfold typeToExpression
        simp only [bind_apply, rangeMap]
        have hm : ({ st0 with ranges := r } : State).mapAt ref = st0.mapAt ref := rfl
        rw [hm, hrun]
        simp only [List.nil_append, pure_apply, Option.map_some']
      · simp only [renders]
        exact ⟨_, hperm, hforall⟩

theorem GoMap.insert_fresh : ∀ (m : GoMap) (k : StringKey) (v : DataType),
    (∀ x ∈ m, x.1.addr ≠ k.addr) → GoMap.insert m k v = m ++ [(k, v)] := by
  intro m
  induction m with
  | nil => intro k v _; rfl
  | cons x rest ih =>
    intro k v hfresh
    obtain ⟨k', v'⟩ := x
    unfold GoMap.insert
    rw [if_neg (hfresh (k', v') (List.mem_cons_self _ _)),
      ih k v (fun y hy => hfresh y (List.mem_cons_of_mem _ hy))]
    rfl

theorem State.grows_refl (st : State) : st.grows st :=
  ⟨List.prefix_refl _, le_refl _, rfl, rfl⟩

theorem State.grows_trans {a b c : State} (h1 : a.grows b) (h2 : b.grows c) : a.grows c :=
  ⟨h1.1.trans h2.1, le_trans h1.2.1 h2.2.1, h2.2.2.1.trans h1.2.2.1, h2.2.2.2.trans h1.2.2.2⟩

theorem runArrayLoop_renders (st0 : State) (n : Nat) (ev : Eval) (scope : Nat)
    (ih : ∀ (w : Value) (e : Expr), renders st0 n w e → ∀ st, ∃ w' st',
      ev e scope st = Res.ok (some w') st' ∧ st.grows st' ∧ sameContent st0 st' n w w') :
    ∀ (xs : List DataType) (es : List Expr),
      List.Forall₂ (fun x e => ∃ w, x = some w ∧ renders st0 n w e) xs es →
      ∀ (acc : List DataType) (st : State), ∃ vs st',
        runArrayLoop ev scope es acc st = Res.ok (acc ++ vs) st' ∧ st.grows st' ∧
        List.Forall₂ (fun x y => ∃ w w', x = some w ∧ y = some w' ∧ sameContent st0 st' n w w')
          xs vs := by
  intro xs es hall
  induction hall with
  | nil =>
    intro acc st
    exact ⟨[], st, by simp [runArrayLoop, pure_apply], State.grows_refl st, List.Forall₂.nil⟩
  | cons hhead _ ihl =>
    intro acc st
    obtain ⟨w, rfl, hw⟩ := hhead
    obtain ⟨w', st1, hev, hg1, hs1⟩ := ih w _ hw st
    obtain ⟨vs, st2, hrest, hg2, hforall⟩ := ihl (acc ++ [some w']) st1
    refine ⟨some w' :: vs, st2, ?_, State.grows_trans hg1 hg2,
      List.Forall₂.cons ⟨w, w', rfl, rfl, sameContent_mono st0 st1 st2 hg2.1 n w w' hs1⟩ hforall⟩
    unfold runArrayLoop
    simp only [bind_apply, hev, hrest, List.append_assoc, List.singleton_append]

theorem runDictionaryLoop_renders (st0 : State) (n : Nat) (ev : Eval) (scope : Nat)
    (hkey : ∀ (text : String) (st : State), ev (Expr.String text) scope st =
      Res.ok (some (Value.StringType st.nextAddr text)) { st with nextAddr := st.nextAddr + 1 })
    (ih : ∀ (w : Value) (e : Expr), renders st0 n w e → ∀ st, ∃ w' st',
      ev e scope st = Res.ok (some w') st' ∧ st.grows st' ∧ sameContent st0 st' n w w') :
    ∀ (entries : GoMap) (pairs : List (Expr × Expr)),
      List.Forall₂ (fun (x : StringKey × DataType) (p : Expr × Expr) =>
        p.1 = Expr.String x.1.Value ∧ ∃ w, x.2 = some w ∧ renders st0 n w p.2) entries pairs →
      ∀ (result : GoMap) (st : State), (∀ x ∈ result, x.1.addr < st.nextAddr) →
        ∃ added st',
          runDictionaryLoop ev scope pairs result st = Res.ok (some (result ++ added)) st' ∧
          st.grows st' ∧ (∀ x ∈ result ++ added, x.1.addr < st'.nextAddr) ∧
          List.Forall₂ (fun (x y : StringKey × DataType) =>
            x.1.Value = y.1.Value ∧
              ∃ w w', x.2 = some w ∧ y.2 = some w' ∧ sameContent st0 st' n w w')
            entries added := by
  intro entries pairs hall
  induction hall with
  | nil =>
    intro result st hold
    exact ⟨[], st, by simp [runDictionaryLoop, pure_apply], State.grows_refl st,
      by simpa using hold, List.Forall₂.nil⟩
  | @cons x p entries pairs hhead _ ihl =>
    intro result st hold
    obtain ⟨kx, vx⟩ := x
    obtain ⟨pk, pv⟩ := p
    obtain ⟨hk, w, hvx, hw⟩ := hhead
    simp only at hk hvx hw
    subst hk hvx
    obtain ⟨w', st1, hev, hg1, hs1⟩ := ih w pv hw { st with nextAddr := st.nextAddr + 1 }
    have hfresh : ∀ y ∈ result, y.1.addr ≠ (⟨st.nextAddr, kx.Value⟩ : StringKey).addr :=
      fun y hy => Nat.ne_of_lt (hold y hy)
    have hold1 : ∀ y ∈ result ++ [(⟨st.nextAddr, kx.Value⟩, some w')], y.1.addr < st1.nextAddr := by
      intro y hy
      have hlt : st.nextAddr + 1 ≤ st1.nextAddr := hg1.2.1
      rcases List.mem_append.mp hy with hy | hy
      · have := hold y hy; omega
      · simp only [List.mem_singleton] at hy
        subst hy
        show st.nextAddr < st1.nextAddr
        omega
    obtain ⟨added, st2, hrest, hg2, hold2, hforall⟩ := ihl _ st1 hold1
    have hg0 : st.grows { st with nextAddr := st.nextAddr + 1 } :=
      ⟨List.prefix_refl _, Nat.le_succ _, rfl, rfl⟩
    refine ⟨(⟨st.nextAddr, kx.Value⟩, some w') :: added, st2, ?_,
      State.grows_trans hg0 (State.grows_trans hg1 hg2), ?_,
      List.Forall₂.cons ⟨rfl, w, w', rfl, rfl, sameContent_mono st0 st1 st2 hg2.1 n w w' hs1⟩
        hforall⟩
    · unfold runDictionaryLoop
      simp only [bind_apply, hkey, hev, GoMap.insert_fresh result _ _ hfresh, hrest,
        List.append_assoc, List.singleton_append]
    · simpa [List.append_assoc] using hold2

theorem mapAt_newMap (st : State) (m : GoMap) :
    ({ st with maps := st.maps ++ [m] } : State).mapAt st.maps.length = m := by
  unfold State.mapAt
  simp [List.get?_eq_getElem?]

theorem Interpret_renders (h : Host) (st0 : State) :
    ∀ (n : Nat) (w : Value) (e : Expr), renders st0 n w e →
      ∀ (m scope : Nat) (st : State), ∃ w' st',
        Interpret h (n + m) e scope st = Res.ok (some w') st' ∧ st.grows st' ∧
          sameContent st0 st' n w w' := by
  intro n
  induction n with
  | zero => intro w e hr; exact absurd hr (by simp [renders])
  | succ n ih =>
    intro w e hr m scope st
    have hfuel : n + 1 + m = (n + m) + 1 := by omega
    rw [hfuel]
    cases w <;> cases e <;> simp only [renders] at hr
    · subst hr
      exact ⟨_, st, rfl, State.grows_refl st, by simp [sameContent]⟩
    · subst hr
      exact ⟨_, st, rfl, State.grows_refl st, by simp [sameContent]⟩
    · subst hr
      exact ⟨_, _, rfl, ⟨List.prefix_refl _, Nat.le_succ _, rfl, rfl⟩, by simp [sameContent]⟩
    · subst hr
      exact ⟨_, st, rfl, State.grows_refl st, by simp [sameContent]⟩
    · rename_i xs es
      obtain ⟨vs, st', hrun, hg, hforall⟩ :=
        runArrayLoop_renders st0 n (Interpret h (n + m)) scope
          (fun w e hw s => ih w e hw m scope s) xs es hr [] st
      refine ⟨Value.ArrayType vs, st', ?_, hg, by simpa [sameContent] using hforall⟩
      show runArray (Interpret h (n + m)) es scope st = _
      unfold runArray
      simp only [bind_apply, hrun, List.nil_append, pure_apply]
    · rename_i ref pairs
      obtain ⟨entries, hperm, hall⟩ := hr
      have hloop : ∃ added st',
          runDictionaryLoop (Interpret h (n + m)) scope pairs [] st = Res.ok (some added) st' ∧
          st.grows st' ∧
          List.Forall₂ (fun (x y : StringKey × DataType) =>
            x.1.Value = y.1.Value ∧
              ∃ w w', x.2 = some w ∧ y.2 = some w' ∧ sameContent st0 st' n w w')
            entries added := by
        rcases Nat.eq_zero_or_pos (n + m) with hz | hpos
        · have hn : n = 0 := by omega
          subst hn
          cases hall with
          | nil => exact ⟨[], st, rfl, State.grows_refl st, List.Forall₂.nil⟩
          | cons hhead _ =>
            obtain ⟨_, w, _, hw⟩ := hhead
            exact absurd hw (by simp [renders])
        · obtain ⟨k, hk⟩ : ∃ k, n + m = k + 1 := ⟨n + m - 1, by omega⟩
          have hkey : ∀ (text : String) (s : State),
              Interpret h (n + m) (Expr.String text) scope s =
                Res.ok (some (Value.StringType s.nextAddr text))
                  { s with nextAddr := s.nextAddr + 1 } := by
            intro text s
            rw [hk]
            rfl
          obtain ⟨added, st', hrun, hg, _, hforall⟩ :=
            runDictionaryLoop_renders st0 n (Interpret h (n + m)) scope hkey
              (fun w e hw s => ih w e hw m scope s) entries pairs hall [] st (by simp)
          exact ⟨added, st', by simpa using hrun, hg, hforall⟩
      obtain ⟨added, st', hrun, hg, hforall⟩ := hloop
      have hpre : st'.maps <+: ({ st' with maps := st'.maps ++ [added] } : State).maps :=
        List.prefix_append _ _
      refine ⟨Value.DictionaryType st'.maps.length, { st' with maps := st'.maps ++ [added] },
        ?_, ⟨hg.1.trans hpre, hg.2.1, hg.2.2.1, hg.2.2.2⟩, ?_⟩
      · show runDictionary (Interpret h (n + m)) pairs scope st = _
        unfold runDictionary
        simp only [bind_apply, hrun, newMap, pure_apply]
      · simp only [sameContent]
        refine ⟨by simp, entries, hperm, ?_⟩
        rw [mapAt_newMap]
        refine hforall.imp ?_
        rintro x y ⟨hk, w, w', hx, hy, hw⟩
        exact ⟨hk, w, w', hx, hy, sameContent_mono st0 st' _ hpre n w w' hw⟩

/-- For a value `v` built only from Integer, Float, String, Atom, Array and
Dictionary variants, nested fewer than `n` levels deep, `typeToExpression` returns a
literal node `e` that writes out `v`, and evaluating `e` returns, without reporting an
error, a value of the type of `v` with the same content, element by element for Arrays
and entry by entry for Dictionaries.  So does evaluating any other node that writes out
`v`, such as `e` with the pairs of a Dictionary node visited in another order. -/
theorem typeToExpression_roundtrip (h : Host) (n : Nat) (v : Value) (st : State) (scope : Nat)
    (hv : literalValue st n v) :
    ∃ e st1, typeToExpression h n (some v) st = Res.ok (some e) st1 ∧
      renders st n v e ∧
      (∃ v' st2, Interpret h n e scope st1 = Res.ok (some v') st2 ∧
        st2.errors = st.errors ∧ v'.Type = v.Type ∧ sameContent st st2 n v v') ∧
      (∀ e', renders st n v e' →
        ∃ v' st2, Interpret h n e' scope st1 = Res.ok (some v') st2 ∧
          st2.errors = st.errors ∧ v'.Type = v.Type ∧ sameContent st st2 n v v') := by
  obtain ⟨e, r', hconv, hrend⟩ := typeToExpression_renders h st n v hv st.ranges
  have hall : ∀ e', renders st n v e' →
      ∃ v' st2, Interpret h n e' scope { st with ranges := r' } = Res.ok (some v') st2 ∧
        st2.errors = st.errors ∧ v'.Type = v.Type ∧ sameContent st st2 n v v' := by
    intro e' hrend'
    obtain ⟨v', st2, hrun, hg, hsame⟩ :=
      Interpret_renders h st n v e' hrend' 0 scope { st with ranges := r' }
    exact ⟨v', st2, hrun, hg.2.2.1, sameContent_type st st2 n v v' hsame, hsame⟩
  exact ⟨e, { st with ranges := r' }, hconv, hrend, hall e hrend, hall⟩

theorem nestedValue_literal : literalValue nestedState 3 nestedValue := by
  intro x hx
  have hx' : x ∈ [some (Value.IntegerType 1), some (Value.StringType 2 "s"),
      some (Value.DictionaryType 0)] := hx
  simp only [List.mem_cons, List.mem_singleton, List.not_mem_nil, or_false] at hx'
  rcases hx' with rfl | rfl | rfl
  · exact ⟨_, rfl, trivial⟩
  · exact ⟨_, rfl, trivial⟩
  · refine ⟨_, rfl, ?_⟩
    intro y hy
    have hy' : y ∈ [((⟨0, "k"⟩ : StringKey), some (Value.IntegerType 7)),
        (⟨1, "l"⟩, some (Value.AtomType "x"))] := hy
    simp only [List.mem_cons, List.mem_singleton, List.not_mem_nil, or_false] at hy'
    rcases hy' with rfl | rfl
    · exact ⟨_, rfl, trivial⟩
    · exact ⟨_, rfl, trivial⟩

/-- An instance: the value `[1, "s", d]`, with `d` the Dictionary `["k": 7, "l": :x]`,
is converted to the literal node `[1, "s", ["k": 7, "l": :x]]`, which evaluates to an
Array of an Integer, a new String and a Dictionary on a new map with the same entries. -/
theorem typeToExpression_roundtrip_witness :
    typeToExpression sampleHost 3 (some nestedValue) nestedState =
        Res.ok (some nestedLiteral) { nestedState with ranges := 1 } ∧
    (Interpret sampleHost 3 nestedLiteral 0 { nestedState with ranges := 1 }).value? =
        some (some (Value.ArrayType [some (Value.IntegerType 1),
          some (Value.StringType 3 "s"), some (Value.DictionaryType 1)])) ∧
    (Interpret sampleHost 3 nestedLiteral 0 { nestedState with ranges := 1 }).state?.map
        (fun st => st.mapAt 1) =
      some [(⟨4, "k"⟩, some (Value.IntegerType 7)), (⟨5, "l"⟩, some (Value.AtomType "x"))] ∧
    ∃ e st1, typeToExpression sampleHost 3 (some nestedValue) nestedState =
        Res.ok (some e) st1 ∧
      renders nestedState 3 nestedValue e ∧
      (∃ v' st2, Interpret sampleHost 3 e 0 st1 = Res.ok (some v') st2 ∧
        st2.errors = nestedState.errors ∧ v'.Type = nestedValue.Type ∧
        sameContent nestedState st2 3 nestedValue v') ∧
      (∀ e', renders nestedState 3 nestedValue e' →
        ∃ v' st2, Interpret sampleHost 3 e' 0 st1 = Res.ok (some v') st2 ∧
          st2.errors = nestedState.errors ∧ v'.Type = nestedValue.Type ∧
          sameContent nestedState st2 3 nestedValue v') :=
  ⟨rfl, rfl, rfl,
    typeToExpression_roundtrip sampleHost 3 nestedValue nestedState 0 nestedValue_literal⟩

/-! ## A Dictionary that holds itself -/

theorem typeToExpressionPairs_self (h : Host) (fuel ref : Nat) (maps : List GoMap)
    (ih : ∀ st : State, st.maps = maps →
      typeToExpression h fuel (some (Value.DictionaryType ref)) st = Res.fault Fault.outOfFuel) :
    ∀ (entries : GoMap) (pairs : List (Expr × Expr)) (st : State), st.maps = maps →
      (∀ e ∈ entries, (∃ n, e.2 = some (Value.IntegerType n)) ∨
        e.2 = some (Value.DictionaryType ref)) →
      (∃ e ∈ entries, e.2 = some (Value.DictionaryType ref)) →
      typeToExpressionPairs (typeToExpression h fuel) entries pairs st =
        Res.fault Fault.outOfFuel := by
  intro entries
  induction entries with
  | nil =>
    intro pairs st _ _ hself
    obtain ⟨e, he, _⟩ := hself
    cases he
  | cons entry rest ihl =>
    intro pairs st hmaps hall hself
    obtain ⟨k, v⟩ := entry
    unfold typeToExpressionPairs
    rcases hall (k, v) (List.mem_cons_self _ _) with ⟨n, hn⟩ | hd
    · simp only at hn
      subst hn
      cases fuel with
      | zero => rfl
      | succ f =>
        have hrest : ∃ e ∈ rest, e.2 = some (Value.DictionaryType ref) := by
          obtain ⟨e, he, hev⟩ := hself
          rcases List.mem_cons.mp he with h1 | h1
          · subst h1; cases hev
          · exact ⟨e, h1, hev⟩
        simp only [bind_apply, typeToExpression, pure_apply]
        exact ihl _ st hmaps (fun e he => hall e (List.mem_cons_of_mem _ he)) hrest
    · simp only at hd
      subst hd
      simp only [bind_apply, ih st hmaps]

theorem typeToExpression_self (h : Host) (ref : Nat) (maps : List GoMap)
    (hall : ∀ e ∈ (maps.get? ref).getD [], (∃ n, e.2 = some (Value.IntegerType n)) ∨
        e.2 = some (Value.DictionaryType ref))
    (hself : ∃ e ∈ (maps.get? ref).getD [], e.2 = some (Value.DictionaryType ref)) :
    ∀ (fuel : Nat) (st : State), st.maps = maps →
      typeToExpression h fuel (some (Value.DictionaryType ref)) st =
        Res.fault Fault.outOfFuel := by
  intro fuel
  induction fuel with
  | zero => intro st _; rfl
  | succ f ih =>
    intro st hmaps
    unfold typeToExpression
    simp only [bind_apply, rangeMap]
    have hperm := h.rangeOrder_perm st.ranges (st.mapAt ref)
    have hmap : st.mapAt ref = (maps.get? ref).getD [] := by
      unfold State.mapAt
      rw [hmaps]
    rw [typeToExpressionPairs_self h f ref maps ih _ [] { st with ranges := st.ranges + 1 } hmaps
      (fun e he => hall e (hmap ▸ hperm.mem_iff.mp he))
      (by
        obtain ⟨e, he, hev⟩ := hself
        exact ⟨e, hperm.mem_iff.mpr (hmap ▸ he), hev⟩)]

/-- C22 (the code at a failing input): the program `let d = ["a": 1]`, `["b": d] + d`, `d`
yields the Dictionary `d`, built only from an Integer and a Dictionary, whose map holds
`d` itself under `"b"`; on that value `typeToExpression` has not returned after `fuel`
nested calls, whatever `fuel` is and whatever the order of the map loops: the recursion
does not end, and a pipe with `d` on its left does not return either. -/
theorem typeToExpression_self_holding_never_returns (h : Host) :
    Interpret h.stored 5 selfHoldingProgram 0 initialState =
        Res.ok (some (Value.DictionaryType 0)) selfHoldingState ∧
    selfHoldingState.mapAt 0 =
        [(⟨0, "a"⟩, some (Value.IntegerType 1)), (⟨1, "b"⟩, some (Value.DictionaryType 0))] ∧
    (∀ fuel : Nat, typeToExpression h fuel (some (Value.DictionaryType 0)) selfHoldingState =
        Res.fault Fault.outOfFuel) ∧
    (∀ (depth : Nat) (right : Expr),
      runPipe h (Interpret h 1) depth (Expr.Identifier "d") right 0 selfHoldingState =
        Res.fault Fault.outOfFuel) := by
  have hconv : ∀ fuel : Nat,
      typeToExpression h fuel (some (Value.DictionaryType 0)) selfHoldingState =
        Res.fault Fault.outOfFuel := by
    intro fuel
    apply typeToExpression_self h 0 selfHoldingState.maps _ _ fuel selfHoldingState rfl
    · intro e he
      simp only [selfHoldingState, List.get?, Option.getD, List.mem_cons, List.mem_singleton,
        List.not_mem_nil, or_false] at he
      rcases he with rfl | rfl
      · exact Or.inl ⟨1, rfl⟩
      · exact Or.inr rfl
    · exact ⟨(⟨1, "b"⟩, some (Value.DictionaryType 0)), by
        simp [selfHoldingState], rfl⟩
  refine ⟨by rfl, by rfl, hconv, ?_⟩
  intro depth right
  unfold runPipe
  have hleft : Interpret h 1 (Expr.Identifier "d") 0 selfHoldingState =
      Res.ok (some (Value.DictionaryType 0)) selfHoldingState := by rfl
  simp only [bind_apply, hleft, hconv depth]

/-! ## Array concatenation and comparison -/

theorem compareArraysLoop_self (h : Host) (maps : List GoMap) :
    ∀ (xs : List DataType), (∀ x ∈ xs, x ≠ none) →
      compareArraysLoop h maps xs xs = Except.ok true := by
  intro xs
  induction xs with
  | nil => intro _; rfl
  | cons x rest ih =>
    intro hne
    have hx : x ≠ none := hne x (List.mem_cons_self _ _)
    obtain ⟨v, rfl⟩ : ∃ v, x = some v := Option.ne_none_iff_exists'.mp hx
    unfold compareArraysLoop
    rw [if_neg (by simp)]
    exact ih (fun y hy => hne y (List.mem_cons_of_mem _ hy))

/-- For all Arrays `A` and `B`, `A + B` is the Array of the elements of `A` followed by
those of `B`, as long as both together; and when no element is absent, comparing the
result with itself by `==` and by `compareArrays` yields true. -/
theorem runArrayInfix_concat (h : Host) (A B : List DataType) (st : State) :
    runArrayInfix h "+" A B st = Res.ok (some (Value.ArrayType (A ++ B)), none) st ∧
    (A ++ B).length = A.length + B.length ∧
    ((∀ x ∈ A ++ B, x ≠ none) →
      compareArrays h (A ++ B) (A ++ B) st = Res.ok true st ∧
      runArrayInfix h "==" (A ++ B) (A ++ B) st =
        Res.ok (some (Value.BooleanType true), none) st) := by
  refine ⟨rfl, List.length_append A B, ?_⟩
  intro hne
  have hc : compareArrays h (A ++ B) (A ++ B) st = Res.ok true st := by
    unfold compareArrays
    rw [if_neg (by simp), compareArraysLoop_self h st.maps _ hne]
  refine ⟨hc, ?_⟩
  simp only [runArrayInfix, bind_apply, hc, pure_apply, nativeToBoolean]

/-- C23 (the code at a failing input): the Array literal `[y]` with `y` not bound
evaluates to an Array holding one absent element, `[y] + []` to the same, and comparing
`[y] + []` with itself by `==` ends in the run-time fault of calling a method on `nil`
in `compareArrays`, not in true. -/
theorem compareArrays_absent_element_faults (h : Host) :
    Interpret h 4 (Expr.InfixExpression "+" (Expr.Array [Expr.Identifier "y"]) (Expr.Array []))
        0 initialState =
      Res.ok (some (Value.ArrayType [none]))
        { initialState with errors := ["Identifier 'y' not found in current scope"] } ∧
    Interpret h 5 absentElementProgram 0 initialState =
      Res.fault nilDereference := by
  refine ⟨by rfl, by rfl⟩

/-! ## Blocks -/

theorem float_eq_zero (m e : Int) :
    Float64.eq (Float64.finite m e) (Float64.finite 0 0) = decide (m = 0) := by
  unfold Float64.eq
  simp only [zero_mul]
  congr 1
  apply propext
  constructor
  · intro hm
    rcases mul_eq_zero.mp hm with h0 | h0
    · exact h0
    · exact absurd h0 (pow_ne_zero _ (by norm_num))
  · intro hm
    rw [hm, zero_mul]

/-- C25 (amended): `isTruthy` is the table of the claim in every state (a Float is false
exactly when its value is zero; infinities and NaN are true); when the operand of the
prefix `!` evaluates to a value `object`, `!` returns the Boolean negation of
`isTruthy object`; and when the operand of a prefix operator yields no result, the
operator reports `Trying to run operator ... with an unknown value` and yields no
result. -/
theorem runPrefix_not_spec (ev : Eval) (right : Expr) (scope : Nat) (st : State) :
    (∀ st1 : State,
      (∀ b, st1.isTruthy (some (Value.BooleanType b)) = b) ∧
      st1.isTruthy (some Value.NilType) = false ∧
      (∀ addr s, st1.isTruthy (some (Value.StringType addr s)) = decide (s ≠ "")) ∧
      (∀ s, st1.isTruthy (some (Value.AtomType s)) = true) ∧
      (∀ n, st1.isTruthy (some (Value.IntegerType n)) = decide (n ≠ 0)) ∧
      (∀ m e, st1.isTruthy (some (Value.FloatType (Float64.finite m e))) = decide (m ≠ 0)) ∧
      (∀ s, st1.isTruthy (some (Value.FloatType (Float64.inf s))) = true) ∧
      st1.isTruthy (some (Value.FloatType Float64.nan)) = true ∧
      (∀ es, st1.isTruthy (some (Value.ArrayType es)) = decide (0 < es.length)) ∧
      (∀ ref, st1.isTruthy (some (Value.DictionaryType ref)) =
        decide (0 < (st1.mapAt ref).length)) ∧
      (∀ ps body sc, st1.isTruthy (some (Value.FunctionType ps body sc)) = false) ∧
      (∀ v, st1.isTruthy (some (Value.ReturnType v)) = false) ∧
      st1.isTruthy (some Value.BreakType) = false ∧
      st1.isTruthy (some Value.ContinueType) = false ∧
      st1.isTruthy (some Value.PlaceholderType) = false ∧
      st1.isTruthy none = false) ∧
    (∀ (object : Value) (st1 : State), ev right scope st = Res.ok (some object) st1 →
      runPrefix ev "!" right scope st =
        Res.ok (some (Value.BooleanType (!st1.isTruthy (some object)))) st1) ∧
    (∀ (operator : String) (st1 : State), ev right scope st = Res.ok none st1 →
      runPrefix ev operator right scope st =
        Res.ok none { st1 with errors := st1.errors ++
          ["Trying to run operator '" ++ operator ++ "' with an unknown value"] }) := by
  refine ⟨fun st1 => ⟨fun _ => rfl, rfl, fun _ _ => rfl, fun _ => rfl, fun _ => rfl, ?_,
    fun _ => rfl, rfl, fun _ => rfl, fun _ => rfl, fun _ _ _ => rfl, fun _ => rfl, rfl, rfl,
    rfl, rfl⟩, ?_, ?_⟩
  · intro m e
    simp only [State.isTruthy, float_eq_zero]
    by_cases hm : m = 0 <;> simp [hm]
  · intro object st1 hev
    unfold runPrefix
    simp only [bind_apply, hev]
    rfl
  · intro operator st1 hev
    unfold runPrefix
    simp only [bind_apply, hev]
    rfl

/-- C25 (amended), two instances: `!0` is true, and `!y` with `y` not bound yields no
result and reports the unknown value after the error for `y`. -/
theorem runPrefix_not_spec_witness :
    runPrefix (Interpret sampleHost 1) "!" (Expr.Integer 0) 0 initialState =
        Res.ok (some (Value.BooleanType true)) initialState ∧
    runPrefix (Interpret sampleHost 1) "!" (Expr.Identifier "y") 0 initialState =
        Res.ok none { initialState with errors :=
          ["Identifier 'y' not found in current scope",
           "Trying to run operator '!' with an unknown value"] } :=
  ⟨(runPrefix_not_spec (Interpret sampleHost 1) (Expr.Integer 0) 0 initialState).2.1
      (Value.IntegerType 0) initialState rfl,
   (runPrefix_not_spec (Interpret sampleHost 1) (Expr.Identifier "y") 0 initialState).2.2 "!"
      { initialState with errors := ["Identifier 'y' not found in current scope"] } rfl⟩

/-- C25 (as stated, refuted): `isTruthy` of an absent result is false, but `!y` with `y`
not bound, whose operand yields no result, does not return true: it reports
`Trying to run operator '!' with an unknown value` and yields no result. -/
theorem not_of_absent_operand_yields_nothing :
    (Interpret sampleHost 2 (Expr.PrefixExpression "!" (Expr.Identifier "y")) 0
        initialState).value? = some none ∧
      (Interpret sampleHost 2 (Expr.PrefixExpression "!" (Expr.Identifier "y")) 0
        initialState).state?.map (fun st => st.errors) =
        some ["Identifier 'y' not found in current scope",
          "Trying to run operator '!' with an unknown value"] ∧
      initialState.isTruthy none = false := by
  refine ⟨by rfl, by rfl, by rfl⟩

/-! ## The syntax tree after a pipe -/

/-- C26 (the code at a failing input): evaluating the pipe `1 |> (fn(a) { a })()` yields
`1` and leaves the right-hand node as the call `(fn(a) { a })(1)`, not as it was; the
next evaluation of the same Pipe node, from any state, puts a second `1` in front of the
arguments, reports `Too many arguments in function call` and yields no result. -/
theorem runPipe_lengthens_arguments (h : Host) :
    (runPipe h (Interpret h 4) 1 (Expr.Integer 1) pipeTarget 0 initialState).value? =
        some (some (Value.IntegerType 1), pipeTargetAfter) ∧
    (runPipe h (Interpret h 4) 1 (Expr.Integer 1) pipeTarget 0 initialState).state?.map
        (fun st => st.errors) = some [] ∧
    pipeTargetAfter ≠ pipeTarget ∧
    (∀ st, (runPipe h (Interpret h 4) 1 (Expr.Integer 1) pipeTargetAfter 0 st).value? =
        some (none, Expr.FunctionCall
          (Expr.Function ["a"] [Expr.ExpressionStatement (Expr.Identifier "a")])
          [Expr.Integer 1, Expr.Integer 1])) ∧
    (∀ st, (runPipe h (Interpret h 4) 1 (Expr.Integer 1) pipeTargetAfter 0 st).state?.map
        (fun s => s.errors) = some (st.errors ++ ["Too many arguments in function call"])) := by
  refine ⟨by rfl, by rfl, ?_, fun _ => by rfl, fun _ => by rfl⟩
  intro hEq
  unfold pipeTargetAfter pipeTarget at hEq
  injection hEq with _ hargs
  cases hargs

/-! ## Termination of the Integer range loops -/

theorem rangeDown_never_leaves : ∀ (fuel : Nat) (idx : Int) (result : List DataType),
    -(2 ^ 63) ≤ idx → rangeDown fuel idx (-(2 ^ 63)) result = none := by
  intro fuel
  induction fuel with
  | zero => intro idx result _; rfl
  | succ fuel ih =>
    intro idx result hidx
    unfold rangeDown
    rw [if_pos hidx]
    apply ih
    unfold wrap64
    norm_num
    omega

/-- C27 (the code at failing inputs): with the right operand `2^63 - 1` and a smaller left
operand the ascending loop, and with the right operand `-2^63` and any left operand the
descending loop, has not been left after `fuel` rounds, whatever `fuel` is: the exit
tests `idx <= right` and `idx >= right` hold for every `int64`, so the loops do not
terminate and `runRangeIntegerInfix` does not return. -/
theorem range_loops_never_leave_at_bounds (fuel : Nat) (a : Int) (st : State) :
    (a < 2 ^ 63 - 1 → rangeUp fuel a (2 ^ 63 - 1) [] = none) ∧
    (-(2 ^ 63) ≤ a → rangeDown fuel a (-(2 ^ 63)) [] = none) ∧
    (a < 2 ^ 63 - 1 → runRangeIntegerInfix a (2 ^ 63 - 1) st = Res.fault Fault.outOfFuel) ∧
    (-(2 ^ 63) ≤ a → runRangeIntegerInfix a (-(2 ^ 63)) st = Res.fault Fault.outOfFuel) := by
  refine ⟨fun ha => rangeUp_never_leaves fuel a [] (le_of_lt ha),
    fun ha => rangeDown_never_leaves fuel a [] ha,
    fun ha => runRangeIntegerInfix_never_leaves a st ha, ?_⟩
  intro ha
  unfold runRangeIntegerInfix
  have hnot : ¬ a < -(2 ^ 63) := not_lt.mpr ha
  simp only [if_neg hnot, rangeDown_never_leaves _ a [] ha]

/-! ## The operands of a Dictionary merge -/

theorem mergeInto_ok (right : Nat) : ∀ (entries : GoMap) (st : State),
    ∃ st', mergeInto right entries st = Res.ok () st' ∧ st'.errors = st.errors ∧
      st'.scopes = st.scopes := by
  intro entries
  induction entries with
  | nil => intro st; exact ⟨st, rfl, rfl, rfl⟩
  | cons e rest ih =>
    intro st
    obtain ⟨k, v⟩ := e
    unfold mergeInto
    simp only [bind_apply, getState, setState]
    obtain ⟨st', h1, h2, h3⟩ := ih { st with maps := st.maps.set right (GoMap.insert (st.mapAt right) k v) }
    exact ⟨st', h1, h2, h3⟩

theorem runDictionaryInfix_merge_alias (h : Host) (left right : Nat) (st : State) :
    ∃ st', runDictionaryInfix h "+" left right st =
      Res.ok (some (Value.DictionaryType right), none) st' := by
  obtain ⟨st', hm, _, _⟩ := mergeInto_ok right (h.rangeOrder st.ranges (st.mapAt left))
    { st with ranges := st.ranges + 1 }
  refine ⟨st', ?_⟩
  simp only [runDictionaryInfix, bind_apply, rangeMap, hm, pure_apply]

/-- C28 (the code at a failing input): in the program `let d = ["b": 2]`, `["a": 1] + d`,
`d`, the variable `d` reads the same Dictionary object as before, on map `0`, but that
map, which held the one entry `"b": 2` after the `let`, holds the two entries `"b": 2`
and `"a": 1` after the merge; the left operand's map `1` is unchanged. The run is on a
host whose map loops visit the entries in stored order. -/
theorem merge_changes_right_operand (h : Host) :
    (Interpret h.stored 5 mergeOperandProgram 0 initialState).value? =
        some (some (Value.DictionaryType 0)) ∧
      (Interpret h.stored 4 (Expr.Program
          [Expr.Let "d" (Expr.Dictionary [(Expr.String "b", Expr.Integer 2)])]) 0
        initialState).state?.map (fun st => st.mapAt 0) =
        some [(⟨0, "b"⟩, some (Value.IntegerType 2))] ∧
      (Interpret h.stored 5 mergeOperandProgram 0 initialState).state?.map
          (fun st => st.mapAt 0) =
        some [(⟨0, "b"⟩, some (Value.IntegerType 2)), (⟨1, "a"⟩, some (Value.IntegerType 1))] ∧
      (Interpret h.stored 5 mergeOperandProgram 0 initialState).state?.map
          (fun st => st.mapAt 1) =
        some [(⟨1, "a"⟩, some (Value.IntegerType 1))] := by
  refine ⟨by rfl, by rfl, by rfl, by rfl⟩

/-! ## String subscript and the characters of a String -/

theorem stringToArrayLoop_spec :
    ∀ (chars : List Char) (elements : List DataType) (st : State),
      stringToArrayLoop chars elements st =
        Res.ok (elements ++ freshStrings st.nextAddr chars)
          { st with nextAddr := st.nextAddr + chars.length } := by
  intro chars
  induction chars with
  | nil => intro elements st; simp [stringToArrayLoop, freshStrings]; rfl
  | cons c rest ih =>
    intro elements st
    unfold stringToArrayLoop
    simp only [bind_apply, newString]
    rw [ih]
    simp only [freshStrings, stringOfRune_toNat, List.append_assoc, List.singleton_append,
      List.length_cons]
    congr 2
    omega

theorem stringToArray_spec (s : String) (st : State) :
    stringToArray s st =
      Res.ok (freshStrings st.nextAddr s.data) { st with nextAddr := st.nextAddr + s.length } := by
  unfold stringToArray
  rw [stringToArrayLoop_spec]
  rfl

theorem utf8EncodeChar_ascii (c : Char) (hc : c.toNat < 128) :
    (String.utf8EncodeChar c).map UInt8.toNat = [c.toNat] := by
  have hc' : c.val.toBitVec.toNat < 128 := hc
  have hle : c.val ≤ 0x7f := by
    rw [UInt32.le_def, BitVec.le_def]
    show c.val.toBitVec.toNat ≤ 127
    omega
  unfold String.utf8EncodeChar
  simp only [hle, if_true, List.map_cons, List.map_nil]
  congr 1
  show (BitVec.ofNat 8 c.val.toBitVec.toNat).toNat = c.val.toBitVec.toNat
  rw [BitVec.toNat_ofNat]
  omega

theorem utf8Bytes_ascii (cs : List Char) (hascii : ∀ c ∈ cs, c.toNat < 128) :
    cs.flatMap (fun c => (String.utf8EncodeChar c).map UInt8.toNat) = cs.map Char.toNat := by
  induction cs with
  | nil => rfl
  | cons c rest ih =>
    rw [List.flatMap_cons, utf8EncodeChar_ascii c (hascii c (List.mem_cons_self _ _)),
      ih (fun x hx => hascii x (List.mem_cons_of_mem _ hx))]
    rfl

/-- On a String of ASCII characters only, the subscript and `stringToArray` agree: the
subscript at `i` returns a fresh one-character String exactly when `0 ≤ i` and `i` is
less than the number of characters, its text is the character at position `i`, which is
the text of element `i` of `stringToArray`, and every other index is the out-of-bounds
error. -/
theorem runStringSubscript_ascii (s : String) (i : Int) (st : State)
    (hascii : ∀ c ∈ s.data, c.toNat < 128) :
    (0 ≤ i ∧ i < s.length →
      ∃ c, s.data.get? i.toNat = some c ∧
        runStringSubscript s i st =
          Res.ok (some (Value.StringType st.nextAddr (String.singleton c)), none)
            { st with nextAddr := st.nextAddr + 1 }) ∧
    (¬ (0 ≤ i ∧ i < s.length) →
      runStringSubscript s i st =
        Res.ok (none, some ("String index '" ++ toString i ++ "' out of bounds")) st) := by
  have hbytes : utf8Bytes s = s.data.map Char.toNat := utf8Bytes_ascii s.data hascii
  have hlen : goLen s = s.length := by
    unfold goLen
    rw [hbytes, List.length_map]
    rfl
  constructor
  · rintro ⟨h0, h1⟩
    have hk : i.toNat < s.data.length := by
      have : s.data.length = s.length := rfl
      omega
    refine ⟨s.data.get ⟨i.toNat, hk⟩, List.get?_eq_get hk, ?_⟩
    unfold runStringSubscript
    rw [if_neg (by rw [hlen]; omega), hbytes, List.get?_eq_getElem?, List.getElem?_map,
      ← List.get?_eq_getElem?, List.get?_eq_get hk]
    simp only [Option.map_some', bind_apply, newString, stringOfRune_toNat, pure_apply]
  · intro hout
    unfold runStringSubscript
    rw [if_pos (by rw [hlen]; omega)]
    rfl

/-- C29 (the code at a failing input): `stringToArray` of `"é"`, one character of two
bytes, has the one element `"é"`, while the subscript on `"é"` succeeds at the indices `0`
and `1` and returns the Strings `"Ã"` and `"©"` of the two bytes; only index `2` is out of
bounds. -/
theorem runStringSubscript_indexes_bytes (st : State) :
    stringToArray "é" st =
        Res.ok [some (Value.StringType st.nextAddr "é")] { st with nextAddr := st.nextAddr + 1 } ∧
    runStringSubscript "é" 0 st =
        Res.ok (some (Value.StringType st.nextAddr "Ã"), none)
          { st with nextAddr := st.nextAddr + 1 } ∧
    runStringSubscript "é" 1 st =
        Res.ok (some (Value.StringType st.nextAddr "©"), none)
          { st with nextAddr := st.nextAddr + 1 } ∧
    runStringSubscript "é" 2 st =
        Res.ok (none, some "String index '2' out of bounds") st := by
  refine ⟨by rfl, by rfl, by rfl, by rfl⟩

end Aria
